import Mathlib

/-!
Verification development for the Rodin mesh topology / incidence engine
(`Connectivity<Context::Local>` in `Geometry/Connectivity.cpp`, plus the
index generators of `Geometry/IndexGenerator.h`).

The C++ implementation file is embedded shallowly: machine integers are
`Nat`, `IndexArray` is `List Nat`, `IndexSet` (a sorted unique-element set)
is `Finset Nat`, `Incidence` (`std::vector<IndexSet>`) is
`List (Finset Nat)`, and C++ `assert` failures and thrown exceptions are
`Except.error`.  Raw out-of-bounds vector accesses (undefined behaviour in
C++) are modelled with defaulted reads (`List.getD`) and no-op writes
(`List.set`); every theorem below stays on in-bounds executions.

The state also carries a ghost `log` field recording every call to
`intersection` with its `(d, dp, dpp)` arguments; no operation reads it,
so it does not influence behaviour.
-/

namespace Rodin

/-- The closed enumeration `Polytope::Type` of supported geometric shapes. -/
inductive PolytopeType where
  | point
  | segment
  | triangle
  | quadrilateral
  | tetrahedron
  | triangularPrism
deriving DecidableEq

/-- Numeric tag of a geometric type, used to key the per-type count table
(`m_gcount`, a map defaulting to zero). -/
def tindex : PolytopeType → Nat
  | .point => 0
  | .segment => 1
  | .triangle => 2
  | .quadrilateral => 3
  | .tetrahedron => 4
  | .triangularPrism => 5

/-- Modelled from the spec: `Polytope::getGeometryDimension` lives in
`Polytope.h`, which is not among the provided sources.  The spec fixes each
geometric type's dimension (Point 0, Segment 1, Triangle and Quadrilateral 2,
Tetrahedron and TriangularPrism 3), consistent with the decomposition tables
of `getSubPolytopes`. -/
def geometryDimension : PolytopeType → Nat
  | .point => 0
  | .segment => 1
  | .triangle => 2
  | .quadrilateral => 2
  | .tetrahedron => 3
  | .triangularPrism => 3

/-- Number of vertices in the stored tuple of each geometric type, as
asserted by `getSubPolytopes` (`assert(p.size() == …)`); a Point cell
stores an empty tuple. -/
def typeVertexCount : PolytopeType → Nat
  | .point => 0
  | .segment => 2
  | .triangle => 3
  | .quadrilateral => 4
  | .tetrahedron => 4
  | .triangularPrism => 6

/-- Modelled from the spec: the key comparator of the per-dimension
`PolytopeIndex` bimap is declared in `Connectivity.h`, which is not among
the provided sources.  Per the spec's canonical-key rule, two keys match
when they have identical vertex-set content (as a set, not a sequence),
except at the top dimension, where the key is the full ordered tuple. -/
def keyMatch (top : Bool) (a b : List Nat) : Bool :=
  if top then decide (a = b) else decide (a.toFinset = b.toFinset)

/-- `m_index[d].left.find(key)`: first entry matching the key, if any. -/
def leftFind (top : Bool) (m : List (List Nat × Nat)) (k : List Nat) : Option Nat :=
  (m.find? fun e => keyMatch top e.1 k).map (fun e => e.2)

/-- `m_index[d].right.at(idx)`: the stored vertex tuple of an identifier. -/
def rightAt (m : List (List Nat × Nat)) (i : Nat) : Option (List Nat) :=
  (m.find? fun e => e.2 == i).map (fun e => e.1)

/-- `m_index[d].left.insert({key, value})`: a bimap insertion fails when the
key matches an existing entry on either side; on failure the blocking entry
is returned.  Returns the updated map, the identifier, and whether a new
entry was created. -/
def bimapInsert (top : Bool) (m : List (List Nat × Nat)) (k : List Nat) (v : Nat) :
    List (List Nat × Nat) × Nat × Bool :=
  match leftFind top m k with
  | some idx => (m, idx, false)
  | none =>
    if (m.find? fun e => e.2 == v).isSome then (m, v, false)
    else (m ++ [(k, v)], v, true)

/-- `std::vector::resize(n)` with a default element: truncates or extends. -/
def resizeTo (l : List α) (n : Nat) (dflt : α) : List α :=
  l.take n ++ List.replicate (n - l.length) dflt

/-- Read entry `(i, j)` of a nested vector, with a default. -/
def get2 (m : List (List α)) (i j : Nat) (dflt : α) : α :=
  (m.getD i []).getD j dflt

/-- Write entry `(i, j)` of a nested vector (no-op out of bounds, matching
the in-bounds-only executions considered in the theorems). -/
def set2 (m : List (List α)) (i j : Nat) (v : α) : List (List α) :=
  m.set i ((m.getD i []).set j v)

theorem getD_set_self (l : List α) (i : Nat) (v d : α) (h : i < l.length) :
    (l.set i v).getD i d = v := by
  simp [List.getD_eq_getElem?_getD, List.getElem?_set_self, h]

theorem getD_set_ne (l : List α) {i j : Nat} (v d : α) (h : i ≠ j) :
    (l.set i v).getD j d = l.getD j d := by
  simp [List.getD_eq_getElem?_getD, List.getElem?_set_ne h]

theorem length_set2 (m : List (List α)) (i j : Nat) (v : α) :
    (set2 m i j v).length = m.length := by
  simp [set2]

theorem getD_set2_row_self (m : List (List α)) (i j : Nat) (v : α) (hi : i < m.length) :
    (set2 m i j v).getD i [] = (m.getD i []).set j v :=
  getD_set_self _ _ _ _ (by simpa [set2] using hi)

theorem getD_set2_row_ne (m : List (List α)) {i i' : Nat} (j : Nat) (v : α) (h : i ≠ i') :
    (set2 m i j v).getD i' [] = m.getD i' [] :=
  getD_set_ne _ _ _ h

theorem getD_set2_row (m : List (List α)) (i i' j : Nat) (v : α) :
    (set2 m i j v).getD i' [] =
      if i = i' ∧ i < m.length then (m.getD i []).set j v else m.getD i' [] := by
  by_cases hi : i = i'
  · subst hi
    by_cases hlt : i < m.length
    · rw [if_pos ⟨rfl, hlt⟩, getD_set2_row_self _ _ _ _ hlt]
    · rw [if_neg (fun hc => hlt hc.2)]
      unfold set2
      rw [List.set_eq_of_length_le (Nat.not_lt.mp hlt)]
  · rw [if_neg (fun hc => hi hc.1), getD_set2_row_ne _ _ _ hi]

theorem get2_set2_self (m : List (List α)) (i j : Nat) (v d : α)
    (hi : i < m.length) (hj : j < (m.getD i []).length) :
    get2 (set2 m i j v) i j d = v := by
  unfold get2
  rw [getD_set2_row_self _ _ _ _ hi, getD_set_self _ _ _ _ hj]

theorem get2_set2_ne (m : List (List α)) {i j i' j' : Nat} (v d : α)
    (h : ¬ (i = i' ∧ j = j')) :
    get2 (set2 m i j v) i' j' d = get2 m i' j' d := by
  unfold get2
  rw [getD_set2_row]
  by_cases hc : i = i' ∧ i < m.length
  · rw [if_pos hc]
    obtain ⟨rfl, hlt⟩ := hc
    have hj : j ≠ j' := fun hj => h ⟨rfl, hj⟩
    rw [getD_set_ne _ _ _ hj]
  · rw [if_neg hc]

theorem row_length_set2 (m : List (List α)) (i j : Nat) (v : α) (i' : Nat) :
    ((set2 m i j v).getD i' []).length = (m.getD i' []).length := by
  rw [getD_set2_row]
  by_cases hc : i = i' ∧ i < m.length
  · rw [if_pos hc]
    obtain ⟨rfl, _⟩ := hc
    simp
  · rw [if_neg hc]

theorem get2_set2_same_val (m : List (List α)) (i j : Nat) (v d : α)
    (hv : get2 m i j d = v) (i' j' : Nat) :
    get2 (set2 m i j v) i' j' d = get2 m i' j' d := by
  by_cases hc : i = i' ∧ j = j'
  · obtain ⟨rfl, rfl⟩ := hc
    by_cases hi : i < m.length
    · by_cases hj : j < (m.getD i []).length
      · rw [get2_set2_self _ _ _ _ _ hi hj, hv]
      · unfold get2
        rw [getD_set2_row_self _ _ _ _ hi,
          List.set_eq_of_length_le (Nat.not_lt.mp hj)]
    · unfold get2 set2
      rw [List.set_eq_of_length_le (Nat.not_lt.mp hi)]
  · exact get2_set2_ne _ _ _ hc

/-- Insert `j` into row `p.1` of `rows` for every pair `p ∈ ps`; shared
iteration core of `transpose` and `intersection`
(`m_connectivity[d][dp][i].insert(j)`). -/
def bulkInsert (rows : List (Finset Nat)) (ps : List (Nat × Nat)) : List (Finset Nat) :=
  ps.foldl (fun r p => r.set p.1 (insert p.2 (r.getD p.1 ∅))) rows

/-- Ascending iteration order of a sorted set (`IndexSet`), implemented as
an insertion sort lifted over the multiset quotient so that concrete
executions reduce. -/
def sortedList (s : Finset Nat) : List Nat :=
  Quotient.lift (List.insertionSort (· ≤ ·))
    (fun a b h => List.eq_of_perm_of_sorted
      (((List.perm_insertionSort _ a).trans h).trans (List.perm_insertionSort _ b).symm)
      (List.sorted_insertionSort _ a) (List.sorted_insertionSort _ b)) s.val

/-- The engine state of `Connectivity<Context::Local>`.  Field defaults are
the member state after the default constructor (`m_count.resize(1, 0)`).
`log` is a ghost field recording `intersection` calls. -/
structure Connectivity where
  maximalDimension : Nat := 0
  count : List Nat := [0]
  gcount : List Nat := List.replicate 6 0
  index : List (List (List Nat × Nat)) := []
  geometry : List (List PolytopeType) := []
  conn : List (List (List (Finset Nat))) := []
  dirty : List (List Bool) := []
  log : List (Nat × Nat × Nat) := []
deriving DecidableEq

namespace Connectivity

/-- The default-constructed engine. -/
def ctor : Connectivity := {}

/-- `m_dirty[a][b]`. -/
def dirty2 (s : Connectivity) (a b : Nat) : Bool :=
  get2 s.dirty a b true

/-- `m_connectivity[a][b]` (the `Incidence` of a dimension pair). -/
def incidence (s : Connectivity) (a b : Nat) : List (Finset Nat) :=
  get2 s.conn a b []

/-- `m_connectivity[a][b][i]` (the incidence set of one entity). -/
def incid (s : Connectivity) (a b i : Nat) : Finset Nat :=
  (s.incidence a b).getD i ∅

/-- `getCount(size_t dim)`. -/
def getCount (s : Connectivity) (d : Nat) : Nat :=
  s.count.getD d 0

/-- `getCount(Polytope::Type g)`. -/
def getCountG (s : Connectivity) (t : PolytopeType) : Nat :=
  s.gcount.getD (tindex t) 0

/-- `getIndex(dim, key)`: left lookup in the per-dimension bimap. -/
def getIndex (s : Connectivity) (d : Nat) (key : List Nat) : Option Nat :=
  leftFind (d == s.maximalDimension) (s.index.getD d []) key

/-- `getPolytope(d, idx)`: right lookup (`.at` throws when absent, hence
`Option` here with callers raising the error). -/
def getPolytope (s : Connectivity) (d i : Nat) : Option (List Nat) :=
  rightAt (s.index.getD d []) i

/-- `getGeometry(d, idx)`. -/
def getGeometry (s : Connectivity) (d i : Nat) : PolytopeType :=
  if d = 0 then .point else (s.geometry.getD d []).getD i .point

/-- Downward scan of `getMeshDimension`: largest `i` with `m_count[i] > 0`,
else `0`. -/
def meshDimAux (count : List Nat) : Nat → Nat
  | 0 => 0
  | i + 1 => if count.getD (i + 1) 0 > 0 then i + 1 else meshDimAux count i

/-- `getMeshDimension()`. -/
def getMeshDimension (s : Connectivity) : Nat :=
  match s.count.length with
  | 0 => 0
  | k + 1 => meshDimAux s.count k

/-- A C++ `assert`: an error when the condition fails. -/
def chk (b : Bool) (msg : String) : Except String Unit :=
  if b then .ok () else .error msg

/-- `initialize(maximalDimension)`: one-time sizing of the per-dimension
stores.  (Named `initMesh` here for tooling reasons.) -/
def initMesh (maxD : Nat) (s : Connectivity) : Except String Connectivity := do
  chk (s.conn.length == 0) "assert connectivity empty"
  chk (s.dirty.length == 0) "assert dirty empty"
  chk (s.index.length == 0) "assert index empty"
  chk (s.geometry.length == 0) "assert geometry empty"
  pure { s with
    maximalDimension := maxD
    count := resizeTo s.count (maxD + 1) 0
    conn := List.replicate (maxD + 1) (List.replicate (maxD + 1) [])
    dirty := List.replicate (maxD + 1) (List.replicate (maxD + 1) true)
    index := List.replicate (maxD + 1) []
    geometry := List.replicate (maxD + 1) [] }

/-- `nodes(count)`: registers the dimension-0 entities.  Each insertion's
`assert(p.second)` is checked. -/
def nodes (n : Nat) (s : Connectivity) : Except String Connectivity := do
  let s := { s with
    count := s.count.set 0 n
    gcount := s.gcount.set (tindex .point) n }
  (List.range n).foldlM (fun s i => do
    let (m, _, inserted) :=
      bimapInsert (0 == s.maximalDimension) (s.index.getD 0 []) [i] i
    chk inserted "assert node inserted"
    pure { s with index := s.index.set 0 m }) s

/-- `polytope(t, in)`: top-level declaration of a polytope; deduplicating
insertion into the dimension-`d` index, recording its `(d, 0)` incidence
row, geometry and counts only when newly inserted. -/
def polytope (t : PolytopeType) (input : List Nat) (s : Connectivity) :
    Except String Connectivity := do
  chk (input.length > 0) "assert nonempty input"
  let d := geometryDimension t
  chk (d > 0) "assert positive dimension"
  chk (d ≤ s.maximalDimension) "assert dimension within bound"
  let (m, _, inserted) :=
    bimapInsert (d == s.maximalDimension) (s.index.getD d []) input (s.getCount d)
  if inserted then
    pure { s with
      index := s.index.set d m
      conn := set2 s.conn d 0 (s.incidence d 0 ++ [input.toFinset])
      geometry := s.geometry.set d (s.geometry.getD d [] ++ [t])
      count := s.count.set d (s.getCount d + 1)
      gcount := s.gcount.set (tindex t) (s.gcount.getD (tindex t) 0 + 1)
      dirty := set2 s.dirty d 0 false }
  else
    pure s

/-- The traversal pairs `(i, j)` of `transpose(d, dp)`: `j` runs over the
dimension-`dp` entities and `i` over `m_connectivity[dp][d][j]`. -/
def transposePairs (s : Connectivity) (d dp : Nat) : List (Nat × Nat) :=
  (List.range (s.getCount dp)).flatMap fun j =>
    (sortedList (s.incid dp d j)).map fun i => (i, j)

/-- The `(d, dp)` incidence produced by `transpose(d, dp)`. -/
def transposedRows (s : Connectivity) (d dp : Nat) : List (Finset Nat) :=
  bulkInsert (resizeTo (s.incidence d dp) (s.getCount d) ∅) (transposePairs s d dp)

/-- `transpose(d, dp)`: inverts the `(dp, d)` adjacency into `(d, dp)`. -/
def transpose (d dp : Nat) (s : Connectivity) : Except String Connectivity := do
  chk (d < dp) "assert transpose d lt dp"
  chk (d < s.conn.length) "assert transpose d in range"
  chk (dp < (s.conn.getD d []).length) "assert transpose dp in range"
  pure { s with
    conn := set2 s.conn d dp (transposedRows s d dp)
    dirty := set2 s.dirty d dp false }

/-- The accepted pairs `(i, j)` of `intersection(d, dp, dpp)`: `i` runs
over the dimension-`d` entities, `k` over `m_connectivity[d][dpp][i]`, `j`
over `m_connectivity[dpp][dp][k]`, and `(i, j)` is kept when `d == dp` and
`i ≠ j`, or when `d > dp` and the ground-truth vertex set of `j` is
included in that of `i`. -/
def intersectionPairs (s : Connectivity) (d dp dpp : Nat) : List (Nat × Nat) :=
  (List.range (s.getCount d)).flatMap fun i =>
    (sortedList (s.incid d dpp i)).flatMap fun k =>
      (sortedList (s.incid dpp dp k)).filterMap fun j =>
        if (d == dp && i != j)
            || (dp < d && decide (s.incid dp 0 j ⊆ s.incid d 0 i)) then
          some (i, j)
        else
          none

/-- The `(d, dp)` incidence produced by `intersection(d, dp, dpp)`. -/
def intersectionRows (s : Connectivity) (d dp dpp : Nat) : List (Finset Nat) :=
  bulkInsert (resizeTo (s.incidence d dp) (s.getCount d) ∅) (intersectionPairs s d dp dpp)

/-- `intersection(d, dp, dpp)`: composes `(d, dpp)` and `(dpp, dp)` through
the pivot `dpp`.  The call is recorded in the ghost log. -/
def intersection (d dp dpp : Nat) (s : Connectivity) : Except String Connectivity := do
  chk (dp ≤ d) "assert intersection d ge dp"
  pure { s with
    conn := set2 s.conn d dp (intersectionRows s d dp dpp)
    dirty := set2 s.dirty d dp false
    log := s.log ++ [(d, dp, dpp)] }

/-- `getSubPolytopes(out, i, dim)`: the Shape Catalog decomposition of cell
`i` into its sub-polytopes of dimension `dim`, with the source's fixed
vertex orderings. -/
def getSubPolytopes (s : Connectivity) (i dim : Nat) :
    Except String (List (PolytopeType × List Nat)) := do
  let D := s.getMeshDimension
  let p ← match s.getPolytope D i with
    | some p => pure p
    | none => .error "bimap right at"
  match (s.geometry.getD D []).getD i .point with
  | .point => do
    chk (dim == 0) "assert point dim"
    chk (p.length == 0) "assert point size"
    pure [(.point, [i])]
  | .segment => do
    chk (dim ≤ 1) "assert segment dim"
    chk (p.length == 2) "assert segment size"
    if dim == 0 then
      pure [(.point, [p.getD 0 0]), (.point, [p.getD 1 0])]
    else if dim == 1 then
      pure [(.segment, p)]
    else
      .error "assert false"
  | .triangle => do
    chk (dim ≤ 2) "assert triangle dim"
    chk (p.length == 3) "assert triangle size"
    if dim == 0 then
      pure [(.point, [p.getD 0 0]), (.point, [p.getD 1 0]), (.point, [p.getD 2 0])]
    else if dim == 1 then
      pure [(.segment, [p.getD 0 0, p.getD 1 0]),
            (.segment, [p.getD 1 0, p.getD 2 0]),
            (.segment, [p.getD 2 0, p.getD 0 0])]
    else if dim == 2 then
      pure [(.triangle, p)]
    else
      .error "assert false"
  | .quadrilateral => do
    chk (dim ≤ 2) "assert quadrilateral dim"
    chk (p.length == 4) "assert quadrilateral size"
    if dim == 0 then
      pure [(.point, [p.getD 0 0]), (.point, [p.getD 1 0]),
            (.point, [p.getD 2 0]), (.point, [p.getD 3 0])]
    else if dim == 1 then
      pure [(.segment, [p.getD 0 0, p.getD 1 0]),
            (.segment, [p.getD 1 0, p.getD 3 0]),
            (.segment, [p.getD 3 0, p.getD 2 0]),
            (.segment, [p.getD 2 0, p.getD 0 0])]
    else if dim == 2 then
      pure [(.quadrilateral, p)]
    else
      .error "assert false"
  | .tetrahedron => do
    chk (dim ≤ 3) "assert tetrahedron dim"
    chk (p.length == 4) "assert tetrahedron size"
    if dim == 0 then
      pure [(.point, [p.getD 0 0]), (.point, [p.getD 1 0]),
            (.point, [p.getD 2 0]), (.point, [p.getD 3 0])]
    else if dim == 1 then
      pure [(.segment, [p.getD 0 0, p.getD 1 0]),
            (.segment, [p.getD 0 0, p.getD 2 0]),
            (.segment, [p.getD 1 0, p.getD 2 0]),
            (.segment, [p.getD 1 0, p.getD 3 0]),
            (.segment, [p.getD 2 0, p.getD 3 0]),
            (.segment, [p.getD 3 0, p.getD 0 0])]
    else if dim == 2 then
      pure [(.triangle, [p.getD 0 0, p.getD 1 0, p.getD 3 0]),
            (.triangle, [p.getD 0 0, p.getD 1 0, p.getD 2 0]),
            (.triangle, [p.getD 0 0, p.getD 2 0, p.getD 3 0]),
            (.triangle, [p.getD 1 0, p.getD 2 0, p.getD 3 0])]
    else if dim == 3 then
      pure [(.tetrahedron, p)]
    else
      .error "assert false"
  | .triangularPrism => do
    chk (dim ≤ 3) "assert prism dim"
    chk (p.length == 6) "assert prism size"
    if dim == 0 then
      pure [(.point, [p.getD 0 0]), (.point, [p.getD 1 0]),
            (.point, [p.getD 2 0]), (.point, [p.getD 3 0]),
            (.point, [p.getD 4 0]), (.point, [p.getD 5 0])]
    else if dim == 1 then
      pure [(.segment, [p.getD 0 0, p.getD 1 0]),
            (.segment, [p.getD 0 0, p.getD 2 0]),
            (.segment, [p.getD 0 0, p.getD 3 0]),
            (.segment, [p.getD 1 0, p.getD 2 0]),
            (.segment, [p.getD 1 0, p.getD 4 0]),
            (.segment, [p.getD 2 0, p.getD 5 0]),
            (.segment, [p.getD 3 0, p.getD 4 0]),
            (.segment, [p.getD 3 0, p.getD 5 0]),
            (.segment, [p.getD 4 0, p.getD 5 0])]
    else if dim == 2 then
      pure [(.triangle, [p.getD 0 0, p.getD 1 0, p.getD 2 0]),
            (.quadrilateral, [p.getD 0 0, p.getD 1 0, p.getD 3 0, p.getD 4 0]),
            (.quadrilateral, [p.getD 1 0, p.getD 2 0, p.getD 4 0, p.getD 5 0]),
            (.quadrilateral, [p.getD 2 0, p.getD 0 0, p.getD 5 0, p.getD 3 0]),
            (.triangle, [p.getD 3 0, p.getD 4 0, p.getD 5 0])]
    else if dim == 3 then
      pure [(.triangularPrism, p)]
    else
      .error "assert false"

/-- One step of the sub-polytope registration fold of `local(i, d)`. -/
def localFold (d D : Nat) (acc : Connectivity × Finset Nat)
    (gp : PolytopeType × List Nat) : Connectivity × Finset Nat :=
  let (s, sset) := acc
  let (g, vertices) := gp
  let (m, idx, inserted) :=
    bimapInsert (d == s.maximalDimension) (s.index.getD d []) vertices (s.getCount d)
  let s :=
    if inserted then
      { s with
        index := s.index.set d m
        geometry := s.geometry.set d (s.geometry.getD d [] ++ [g])
        conn := set2 s.conn d 0 (s.incidence d 0 ++ [vertices.toFinset])
        count :=
          if d == D || d == 0 then s.count
          else s.count.set d (s.getCount d + 1)
        gcount :=
          if d == D || d == 0 then s.gcount
          else s.gcount.set (tindex g) (s.gcount.getD (tindex g) 0 + 1) }
    else s
  (s, insert idx sset)

/-- `local(i, d)`: registers (with deduplication) the dimension-`d`
sub-polytopes of cell `i` and appends their identifier set as row `i` of
the `(D, d)` incidence. -/
def localStep (i d : Nat) (s : Connectivity) : Except String Connectivity := do
  let D := s.getMeshDimension
  chk (d > 0) "assert local d positive"
  chk (d < D) "assert local d below mesh dimension"
  let subs ← s.getSubPolytopes i d
  let (s, sset) := subs.foldl (localFold d D) (s, (∅ : Finset Nat))
  pure { s with conn := set2 s.conn D d (s.incidence D d ++ [sset]) }

/-- `build(d)`: runs `local` over every top-dimension cell, then marks
`(D, d)` and `(d, 0)` clean. -/
def build (d : Nat) (s : Connectivity) : Except String Connectivity := do
  let D := s.getMeshDimension
  chk (d > 0) "assert build d positive"
  chk (d < D) "assert build d below mesh dimension"
  chk (!s.dirty2 D 0) "assert build D0 clean"
  chk (!s.dirty2 D D) "assert build DD clean"
  let s ← (List.range (s.getCount D)).foldlM (fun s i => localStep i d s) s
  pure { s with dirty := set2 (set2 s.dirty D d false) d 0 false }

/-- The pivot-dimension selection of `compute(d, dp)` in the `d >= dp`
case (`size_t dpp; if (d == 0 && dp == 0) dpp = D; else dpp = 0;`). -/
def pivotDim (D d dp : Nat) : Nat :=
  if d == 0 && dp == 0 then D else 0

/-- `compute(d, dp)` with explicit fuel for the recursion (the source
recursion depth is bounded by 3; fuel 8 is used at top level).  The
source's `const size_t D = getMeshDimension()` is captured once from the
entry state `s0` and referenced as `s0.getMeshDimension` throughout. -/
def computeF : Nat → Nat → Nat → Connectivity → Except String Connectivity
  | 0, _, _, _ => .error "fuel"
  | fuel + 1, d, dp, s0 =>
    if d == s0.getMeshDimension && dp == 0 then
      pure s0
    else
      (if s0.dirty2 s0.getMeshDimension s0.getMeshDimension then
          transpose 0 s0.getMeshDimension s0 >>=
            intersection s0.getMeshDimension s0.getMeshDimension 0
        else pure s0) >>= fun s =>
      chk (!s.dirty2 s0.getMeshDimension s0.getMeshDimension) "assert DD clean" >>= fun _ =>
      (if d != s0.getMeshDimension && d != 0 &&
            (s.dirty2 s0.getMeshDimension d || s.dirty2 d 0) then
          build d s
        else pure s) >>= fun s =>
      chk (!s.dirty2 s0.getMeshDimension d) "assert Dd clean" >>= fun _ =>
      chk (!s.dirty2 d 0 || d == s0.getMeshDimension || d == 0) "assert d0 clean" >>= fun _ =>
      (if dp != s0.getMeshDimension && dp != 0 &&
            (s.dirty2 s0.getMeshDimension dp || s.dirty2 dp 0) then
          build dp s
        else pure s) >>= fun s =>
      chk (!s.dirty2 s0.getMeshDimension dp) "assert Ddp clean" >>= fun _ =>
      chk (!s.dirty2 dp 0 || dp == s0.getMeshDimension || dp == 0) "assert dp0 clean" >>= fun _ =>
      (if s.dirty2 d dp then
          if d < dp then
            computeF fuel dp d s >>= transpose d dp
          else
            computeF fuel d (pivotDim s0.getMeshDimension d dp) s >>= fun s =>
            computeF fuel (pivotDim s0.getMeshDimension d dp) dp s >>= fun s =>
            intersection d dp (pivotDim s0.getMeshDimension d dp) s
        else pure s) >>= fun s =>
      pure { s with dirty := set2 s.dirty d dp false }

/-- `compute(d, dp)` at the default fuel. -/
def compute (d dp : Nat) (s : Connectivity) : Except String Connectivity :=
  computeF 8 d dp s

/-- `clear(d, dp)`: invalidates one relation entry. -/
def clear (d dp : Nat) (s : Connectivity) : Except String Connectivity := do
  chk (d < s.conn.length) "assert clear d in range"
  chk (dp < (s.conn.getD d []).length) "assert clear dp in range"
  pure { s with
    dirty := set2 s.dirty d dp true
    conn := set2 s.conn d dp [] }

end Connectivity

/-- `BoundedIndexGenerator`: state of the half-open index range generator
(`m_start`, `m_end`, `m_curr`). -/
structure BoundedIndexGenerator where
  start : Nat
  stop : Nat
  curr : Nat
deriving DecidableEq

namespace BoundedIndexGenerator

/-- `BoundedIndexGenerator(start, end)`: `m_curr(start)`. -/
def mk' (start stop : Nat) : BoundedIndexGenerator :=
  ⟨start, stop, start⟩

/-- The copy constructor, also used by `copy()`: initializes
`m_start(other.m_start), m_end(other.m_end), m_curr(other.m_end)`. -/
def copy (g : BoundedIndexGenerator) : BoundedIndexGenerator :=
  ⟨g.start, g.stop, g.stop⟩

/-- The move constructor: initializes
`m_start(other.m_start), m_end(other.m_end), m_curr(other.m_curr)`. -/
def move (g : BoundedIndexGenerator) : BoundedIndexGenerator :=
  ⟨g.start, g.stop, g.curr⟩

/-- `end()`: `m_curr == m_end`. -/
def atEnd (g : BoundedIndexGenerator) : Bool :=
  g.curr == g.stop

/-- `operator++`: `++m_curr`. -/
def incr (g : BoundedIndexGenerator) : BoundedIndexGenerator :=
  { g with curr := g.curr + 1 }

/-- `operator*` (defined when `!end()`): `m_curr`. -/
def deref (g : BoundedIndexGenerator) : Nat :=
  g.curr

end BoundedIndexGenerator

namespace Connectivity

/-! ### Concrete scenario states

The two-triangle mesh of the spec's concrete scenario, and the small
mutated variants used below. -/

/-- Two triangles `T0 = (0,1,2)`, `T1 = (1,2,3)` on 4 vertices, maximal
dimension 2. -/
def mesh2tri : Except String Connectivity := do
  let s ← initMesh 2 ctor
  let s ← nodes 4 s
  let s ← polytope .triangle [0, 1, 2] s
  polytope .triangle [1, 2, 3] s

/-- The state of `mesh2tri` (which succeeds). -/
def mesh2triState : Connectivity := mesh2tri.toOption.getD ctor

/-- The scenario queries: `compute(2,1)`, `compute(1,2)`, `compute(2,2)`. -/
def c2run : Except String Connectivity := do
  let s ← mesh2tri
  let s ← compute 2 1 s
  let s ← compute 1 2 s
  compute 2 2 s

/-- The queried two-triangle state. -/
def c2state : Connectivity := c2run.toOption.getD ctor

/-- Vertices-only engine: `initialize(2)` then 4 vertices, no cells. -/
def vertsOnly : Except String Connectivity := do
  let s ← initMesh 2 ctor
  nodes 4 s

end Connectivity

namespace Connectivity

/-! ### Claim C2: the two-triangle concrete scenario -/

set_option maxRecDepth 4000 in
/-- C2: in the mesh with triangles `T0 = (0,1,2)` and `T1 = (1,2,3)` on 4
declared vertices, after the queries `compute(2,1)`, `compute(1,2)` and
`compute(2,2)`: the counts are `count(2) = 2`, `count(1) = 5`,
`count(0) = 4`; the incidence set of `T0` at `(2,1)` is a 3-element set
containing the identifier `1` of edge `(1,2)`; the incidence set of edge
`(1,2)` at `(1,2)` is `{T0, T1}`; and the incidence set of `T0` at `(2,2)`
is `{T1}`. -/
theorem two_triangle_scenario :
    c2run = .ok c2state ∧
    c2state.getCount 2 = 2 ∧ c2state.getCount 1 = 5 ∧ c2state.getCount 0 = 4 ∧
    c2state.getIndex 1 [1, 2] = some 1 ∧
    (c2state.incid 2 1 0).card = 3 ∧ (1 : Nat) ∈ c2state.incid 2 1 0 ∧
    c2state.incid 1 2 1 = {0, 1} ∧
    c2state.incid 2 2 0 = {1} := by
  refine ⟨rfl, ?_, ?_, ?_, ?_, ?_, ?_, ?_, ?_⟩ <;> decide

/-! ### Claim C10: the bounded index generator's copy constructor -/

/-- C10 (code bug in `BoundedIndexGenerator`): the copy constructor
initializes `m_curr(other.m_end)` instead of `m_curr(other.m_curr)`, so the
copy of a freshly constructed generator over the non-empty range `[0, 5)`
is already exhausted while the original is not — unlike the move
constructor, which does preserve the position. -/
theorem boundedIndexGenerator_copy_exhausted :
    (BoundedIndexGenerator.mk' 0 5).atEnd = false ∧
    (BoundedIndexGenerator.copy (BoundedIndexGenerator.mk' 0 5)).atEnd = true ∧
    (BoundedIndexGenerator.move (BoundedIndexGenerator.mk' 0 5)).atEnd = false ∧
    (BoundedIndexGenerator.copy (BoundedIndexGenerator.mk' 0 5)).curr = 5 := by
  decide

end Connectivity

namespace Connectivity

/-! ### Claim C1: the pivot dimension of `compute` -/

/-- The state after `compute(1,1)` on the two-triangle mesh. -/
def c1state : Connectivity :=
  (mesh2tri.bind fun s => compute 1 1 s).toOption.getD ctor

set_option maxRecDepth 4000 in
/-- C1 counterexample: on the two-triangle mesh (top dimension `D = 2`),
the query `compute(1,1)` — a pair with `d ≥ dp` that is derived by pivot
intersection — performs its intersection through the pivot `dpp = 0`, not
through `D = 2` as the claim states: the ghost log records the event
`(1, 1, 0)` and records no event `(1, 1, 2)`. -/
theorem pivot_is_not_top_dimension :
    (mesh2tri.bind fun s => compute 1 1 s) = .ok c1state ∧
    c1state.getMeshDimension = 2 ∧
    ((1, 1, 0) : Nat × Nat × Nat) ∈ c1state.log ∧
    ((1, 1, 2) : Nat × Nat × Nat) ∉ c1state.log := by
  refine ⟨rfl, ?_, ?_, ?_⟩ <;> decide

/-! ### Claim C3: queries on a mesh with vertices but zero cells -/

set_option maxRecDepth 4000 in
/-- C3 counterexample: on an engine initialized with maximal dimension 2
and populated with 4 vertices but no cells, the query `compute(1,1)` does
not succeed: it aborts on the assertion `d < dp` of `transpose`, because
`compute` first tries to derive `(D,D) = (0,0)` through `transpose(0, 0)`. -/
theorem zero_cells_query_aborts :
    (vertsOnly.bind fun s => compute 1 1 s) = .error "assert transpose d lt dp" :=
  rfl

/-! ### Claim C5: the state after declaring the vertex count -/

set_option maxRecDepth 4000 in
/-- C5 counterexample: after `initialize(2)` and `nodes(4)` the dirty flag
of the pair `(0,0)` is still `true` — `nodes` never touches `m_dirty`, so
`(0,0)` is not marked clean (it only becomes clean on a later
`compute`). -/
theorem nodes_leaves_00_dirty :
    (vertsOnly.map fun s => s.dirty2 0 0) = .ok true :=
  rfl

/-! ### Claims C6 and C7: counterexamples from mutation after computation -/

/-- Mesh with `T0` only, queried at `(2,0)` and `(0,2)`, then a second
triangle declared afterwards. -/
def c6mutated : Except String Connectivity := do
  let s ← initMesh 2 ctor
  let s ← nodes 4 s
  let s ← polytope .triangle [0, 1, 2] s
  let s ← compute 2 0 s
  let s ← compute 0 2 s
  polytope .triangle [1, 2, 3] s

/-- The state of `c6mutated`. -/
def c6state : Connectivity := c6mutated.toOption.getD ctor

set_option maxRecDepth 4000 in
/-- C6 counterexample: declare `T0 = (0,1,2)`, compute both `(2,0)` and
`(0,2)` (both dirty flags are then `false`, i.e. both relations have been
computed), then declare `T1 = (1,2,3)`.  In the resulting state vertex `3`
is in the incidence set of cell `1` at `(2,0)`, but cell `1` is not in the
incidence set of vertex `3` at `(0,2)`: transpose symmetry fails because
declaring a cell neither updates nor invalidates the computed `(0,2)`
relation. -/
theorem transpose_symmetry_fails_after_mutation :
    c6mutated = .ok c6state ∧
    c6state.dirty2 2 0 = false ∧ c6state.dirty2 0 2 = false ∧
    (3 : Nat) ∈ c6state.incid 2 0 1 ∧
    (1 : Nat) ∉ c6state.incid 0 2 3 := by
  refine ⟨rfl, ?_, ?_, ?_, ?_⟩ <;> decide

/-- Two-triangle mesh queried at `(2,1)`, then `clear(2,0)` and a new
triangle declared afterwards. -/
def c7mutated : Except String Connectivity := do
  let s ← mesh2tri
  let s ← compute 2 1 s
  let s ← clear 2 0 s
  polytope .triangle [0, 1, 3] s

/-- The state of `c7mutated`. -/
def c7state : Connectivity := c7mutated.toOption.getD ctor

set_option maxRecDepth 4000 in
/-- C7 counterexample: on the two-triangle mesh compute `(2,1)`, then
`clear(2,0)` and declare a new triangle `(0,1,3)`.  The `(2,1)` relation is
still marked computed and edge `1` is still recorded incident to entity `0`
at `(2,1)`, but the `(1,0)` entry of edge `1` (`{1,2}`) is not a subset of
the `(2,0)` entry of entity `0` (now `{0,1,3}`): subset closure fails
because the cleared-and-repopulated ground truth no longer matches the
cached relation. -/
theorem subset_closure_fails_after_mutation :
    c7mutated = .ok c7state ∧
    c7state.dirty2 2 1 = false ∧
    (1 : Nat) ∈ c7state.incid 2 1 0 ∧
    ¬ c7state.incid 1 0 1 ⊆ c7state.incid 2 0 0 := by
  refine ⟨rfl, ?_, ?_, ?_⟩ <;> decide

end Connectivity

namespace Connectivity

@[simp] theorem ok_bind (a : α) (f : α → Except String β) :
    (Except.ok a : Except String α) >>= f = f a := rfl

@[simp] theorem error_bind (e : String) (f : α → Except String β) :
    (Except.error e : Except String α) >>= f = .error e := rfl

@[simp] theorem pure_eq_ok (a : α) : (pure a : Except String α) = .ok a := rfl

@[simp] theorem chk_true {b : Bool} {msg : String} (h : b = true) : chk b msg = .ok () := by
  simp [chk, h]

theorem keyMatch_refl (top : Bool) (a : List Nat) : keyMatch top a a = true := by
  unfold keyMatch
  by_cases h : top <;> simp [h]

theorem leftFind_append_self (top : Bool) (m : List (List Nat × Nat)) (k : List Nat) (v : Nat)
    (h : leftFind top m k = none) : leftFind top (m ++ [(k, v)]) k = some v := by
  unfold leftFind at h ⊢
  rcases hf : m.find? (fun e => keyMatch top e.1 k) with _ | e
  · rw [List.find?_append, hf, List.find?_cons_of_pos _ (by simp [keyMatch_refl])]
    rfl
  · rw [hf] at h
    simp at h

/-- When the key is already present, `polytope` is the identity. -/
theorem polytope_found (t : PolytopeType) (input : List Nat) (s : Connectivity) (idx : Nat)
    (h1 : input.length > 0) (h2 : geometryDimension t > 0)
    (h3 : geometryDimension t ≤ s.maximalDimension)
    (hf : leftFind (geometryDimension t == s.maximalDimension)
      (s.index.getD (geometryDimension t) []) input = some idx) :
    polytope t input s = .ok s := by
  simp only [polytope, chk_true (decide_eq_true h1), chk_true (decide_eq_true h2),
    chk_true (decide_eq_true h3), ok_bind, bimapInsert, hf]
  simp

/-- C8: declaring a polytope whose vertex tuple was already declared is a
no-op on the whole engine state (counts per dimension and per type, index
maps, geometry lists, incidence data, dirty flags all unchanged): if
`polytope t input s` succeeded with result `s'`, then `polytope t input s'`
returns `s'` itself.  The `index`-length hypothesis only rules out an
engine whose per-dimension stores were never sized by `initialize`. -/
theorem polytope_redeclare_noop (t : PolytopeType) (input : List Nat) (s s' : Connectivity)
    (hidx : geometryDimension t < s.index.length)
    (h : polytope t input s = .ok s') :
    polytope t input s' = .ok s' := by
  by_cases h1 : input.length > 0
  · by_cases h2 : geometryDimension t > 0
    · by_cases h3 : geometryDimension t ≤ s.maximalDimension
      · rcases hf : leftFind (geometryDimension t == s.maximalDimension)
            (s.index.getD (geometryDimension t) []) input with _ | idx
        · rcases hr : ((s.index.getD (geometryDimension t) []).find?
              fun e => e.2 == s.getCount (geometryDimension t)).isSome with _ | _
          · -- a genuine insertion: the key is findable in the new state
            simp only [polytope, chk_true (decide_eq_true h1), chk_true (decide_eq_true h2),
              chk_true (decide_eq_true h3), ok_bind, bimapInsert, hf, hr] at h
            simp only [Bool.false_eq_true, if_false, if_true, pure_eq_ok,
              Except.ok.injEq] at h
            have hmax : s'.maximalDimension = s.maximalDimension := by rw [← h]
            have hind : s'.index.getD (geometryDimension t) [] =
                s.index.getD (geometryDimension t) [] ++
                  [(input, s.getCount (geometryDimension t))] := by
              rw [← h]
              exact getD_set_self _ _ _ _ hidx
            exact polytope_found t input s' (s.getCount (geometryDimension t)) h1 h2
              (hmax ▸ h3)
              (by rw [hmax, hind]; exact leftFind_append_self _ _ _ _ hf)
          · -- blocked by a value collision: the state is unchanged
            simp only [polytope, chk_true (decide_eq_true h1), chk_true (decide_eq_true h2),
              chk_true (decide_eq_true h3), ok_bind, bimapInsert, hf, hr] at h
            simp only [if_true, Bool.false_eq_true, if_false, pure_eq_ok,
              Except.ok.injEq] at h
            rw [← h]
            simp only [polytope, chk_true (decide_eq_true h1), chk_true (decide_eq_true h2),
              chk_true (decide_eq_true h3), ok_bind, bimapInsert, hf, hr]
            simp
        · -- the key was already present: the state is unchanged
          rw [polytope_found t input s idx h1 h2 h3 hf] at h
          have : s = s' := by injection h
          rw [← this]
          exact polytope_found t input s idx h1 h2 h3 hf
      · simp [polytope, chk, h1, h2, h3] at h
    · simp [polytope, chk, h1, h2] at h
  · simp [polytope, chk, h1] at h

/-- The state after re-clearing: used as the concrete witness input. -/
def c8state : Connectivity :=
  (mesh2tri.bind fun s => polytope .triangle [1, 2, 3] s).toOption.getD ctor

set_option maxRecDepth 4000 in
/-- Witness for C8 at a concrete input: re-declaring `T1 = (1,2,3)` on the
two-triangle mesh state returns that state unchanged. -/
theorem polytope_redeclare_noop_witness :
    geometryDimension .triangle < mesh2triState.index.length ∧
    polytope .triangle [1, 2, 3] mesh2triState = .ok mesh2triState ∧
    polytope .triangle [1, 2, 3] mesh2triState = .ok mesh2triState :=
  ⟨by decide, rfl, polytope_redeclare_noop .triangle [1, 2, 3] mesh2triState mesh2triState
    (by decide) rfl⟩

end Connectivity

namespace Connectivity

/-! ### Claim C9: `clear` invalidates exactly one relation entry -/

/-- C9: `clear(d, dp)` sets the dirty flag of exactly the pair `(d, dp)`
and empties exactly that stored relation; every other pair's relation and
dirty flag, the per-dimension and per-type counts, the index maps, the
geometry lists and the maximal dimension are unchanged.  (The two length
hypotheses say the dirty matrix covers the `(d, dp)` entry, as it does in
any initialized engine; the in-range conditions on `m_connectivity` are the
asserts of `clear` itself, captured by the success hypothesis.) -/
theorem clear_invalidates_exactly_one (d dp : Nat) (s s' : Connectivity)
    (hdl : d < s.dirty.length) (hdr : dp < (s.dirty.getD d []).length)
    (h : clear d dp s = .ok s') :
    s'.dirty2 d dp = true ∧ s'.incidence d dp = [] ∧
    (∀ a b, ¬ (d = a ∧ dp = b) →
      s'.dirty2 a b = s.dirty2 a b ∧ s'.incidence a b = s.incidence a b) ∧
    s'.count = s.count ∧ s'.gcount = s.gcount ∧ s'.index = s.index ∧
    s'.geometry = s.geometry ∧ s'.maximalDimension = s.maximalDimension ∧
    s'.log = s.log := by
  by_cases h1 : d < s.conn.length
  · by_cases h2 : dp < (s.conn.getD d []).length
    · simp only [clear, chk_true (decide_eq_true h1), chk_true (decide_eq_true h2),
        ok_bind, pure_eq_ok, Except.ok.injEq] at h
      rw [← h]
      refine ⟨?_, ?_, ?_, rfl, rfl, rfl, rfl, rfl, rfl⟩
      · exact get2_set2_self _ _ _ _ _ hdl hdr
      · exact get2_set2_self _ _ _ _ _ h1 h2
      · intro a b hab
        exact ⟨get2_set2_ne _ _ _ hab, get2_set2_ne _ _ _ hab⟩
    · simp only [clear, chk_true (decide_eq_true h1), ok_bind] at h
      rw [decide_eq_false h2] at h
      simp [chk] at h
  · simp only [clear] at h
    rw [decide_eq_false h1] at h
    simp [chk] at h

/-- The state after clearing `(2, 1)` on the queried two-triangle state. -/
def c9state : Connectivity := (clear 2 1 c2state).toOption.getD ctor

set_option maxRecDepth 4000 in
/-- Witness for C9 at a concrete input: clearing `(2,1)` on the queried
two-triangle state marks `(2,1)` dirty, and its frame conditions hold
there. -/
theorem clear_invalidates_exactly_one_witness :
    (2 : Nat) < c2state.dirty.length ∧ (1 : Nat) < (c2state.dirty.getD 2 []).length ∧
    c9state.dirty2 2 1 = true :=
  ⟨by decide, by decide,
    (clear_invalidates_exactly_one 2 1 c2state c9state (by decide) (by decide) rfl).1⟩

end Connectivity

namespace Connectivity

/-! ### Claim C4: deduplication keys -/

theorem keyMatch_congr (a k1 k2 : List Nat) (h : k1.toFinset = k2.toFinset) :
    keyMatch false a k1 = keyMatch false a k2 := by
  unfold keyMatch
  simp [h]

theorem leftFind_congr (m : List (List Nat × Nat)) (k1 k2 : List Nat)
    (h : k1.toFinset = k2.toFinset) :
    leftFind false m k1 = leftFind false m k2 := by
  unfold leftFind
  induction m with
  | nil => rfl
  | cons e es ih =>
    rw [List.find?_cons, List.find?_cons, keyMatch_congr e.1 k1 k2 h]
    rcases hm : keyMatch false e.1 k2 with _ | _
    · simpa [hm] using ih
    · simp [hm]

/-- The mesh whose second triangle `(3,2,1)` shares the reversed edge
`(2,1)` with the first triangle's edge `(1,2)`. -/
def c4mesh : Except String Connectivity := do
  let s ← initMesh 2 ctor
  let s ← nodes 4 s
  let s ← polytope .triangle [0, 1, 2] s
  let s ← polytope .triangle [3, 2, 1] s
  compute 2 1 s

/-- The state of `c4mesh`. -/
def c4state : Connectivity := c4mesh.toOption.getD ctor

/-- Two order-reversed but set-equal top-dimension triangles. -/
def c4top : Except String Connectivity := do
  let s ← initMesh 2 ctor
  let s ← nodes 3 s
  let s ← polytope .triangle [0, 1, 2] s
  polytope .triangle [2, 0, 1] s

set_option maxRecDepth 4000 in
/-- C4: below the top dimension the index is keyed by vertex-set content:
a freshly inserted key `k1` makes any set-equal key `k2` (any reordering)
resolve to the same identifier without a new insertion; concretely, in the
mesh with triangles `(0,1,2)` and `(3,2,1)`, the build step of
`compute(2,1)` deduplicates the oriented edges `(1,2)` and `(2,1)` to the
single identifier `1` and `count(1) = 5`.  At the top dimension the key is
the full ordered tuple: the set-equal triangles `(0,1,2)` and `(2,0,1)`
are distinct entities (`count(2) = 2`). -/
theorem subentity_dedup_by_vertex_set :
    (∀ (m : List (List Nat × Nat)) (k1 k2 : List Nat) (v v' : Nat),
      k1.toFinset = k2.toFinset →
      leftFind false m k1 = none →
      bimapInsert false (m ++ [(k1, v)]) k2 v' = (m ++ [(k1, v)], v, false)) ∧
    (c4mesh = .ok c4state ∧ c4state.getCount 1 = 5 ∧
      c4state.getIndex 1 [1, 2] = some 1 ∧ c4state.getIndex 1 [2, 1] = some 1) ∧
    (c4top.map fun s => s.getCount 2) = .ok 2 := by
  refine ⟨?_, ⟨rfl, by decide, by decide, by decide⟩, rfl⟩
  intro m k1 k2 v v' h hf
  have : leftFind false (m ++ [(k1, v)]) k2 = some v := by
    rw [← leftFind_congr _ k1 k2 h]
    exact leftFind_append_self _ _ _ _ hf
  simp [bimapInsert, this]

set_option maxRecDepth 4000 in
/-- Witness for C4 at a concrete input: inserting `[2,1]` after `[1,2]`
was freshly inserted into an empty dimension-1 index yields the existing
identifier and no insertion. -/
theorem subentity_dedup_by_vertex_set_witness :
    ([1, 2] : List Nat).toFinset = ([2, 1] : List Nat).toFinset ∧
    leftFind false [] [1, 2] = none ∧
    bimapInsert false [([1, 2], 0)] [2, 1] 7 = ([([1, 2], 0)], 0, false) :=
  ⟨by decide, rfl,
    subentity_dedup_by_vertex_set.1 [] [1, 2] [2, 1] 0 7 (by decide) rfl⟩

end Connectivity

namespace Connectivity

/-! ### Claim C5: the state after `initialize` and `nodes` -/

/-- The engine state right after `initialize(maxD)` on a fresh engine. -/
def initState (maxD : Nat) : Connectivity where
  maximalDimension := maxD
  count := 0 :: List.replicate maxD 0
  gcount := List.replicate 6 0
  index := List.replicate (maxD + 1) []
  geometry := List.replicate (maxD + 1) []
  conn := List.replicate (maxD + 1) (List.replicate (maxD + 1) [])
  dirty := List.replicate (maxD + 1) (List.replicate (maxD + 1) true)
  log := []

theorem initMesh_ctor (maxD : Nat) : initMesh maxD ctor = .ok (initState maxD) := by
  simp [initMesh, ctor, chk, initState, resizeTo, List.replicate_succ]

/-- The vertex entries `([0], 0), …, ([n-1], n-1)` of the dimension-0
index. -/
def vertexEntries (n : Nat) : List (List Nat × Nat) :=
  (List.range n).map fun i => ([i], i)

theorem keyMatch_single_ne (top : Bool) {i j : Nat} (h : j ≠ i) :
    keyMatch top [j] [i] = false := by
  unfold keyMatch
  by_cases ht : top <;> simp [ht, h]

theorem leftFind_vertexEntries_none (top : Bool) (n : Nat) {i : Nat} (h : n ≤ i) :
    leftFind top (vertexEntries n) [i] = none := by
  unfold leftFind
  have : (vertexEntries n).find? (fun e => keyMatch top e.1 [i]) = none := by
    refine List.find?_eq_none.mpr ?_
    intro e he
    simp only [vertexEntries, List.mem_map, List.mem_range] at he
    obtain ⟨j, hj, rfl⟩ := he
    have hne : j ≠ i := by omega
    simp only [keyMatch_single_ne top hne]
    exact Bool.false_ne_true
  rw [this]
  rfl

theorem rightFind_vertexEntries_none (n : Nat) {i : Nat} (h : n ≤ i) :
    ((vertexEntries n).find? fun e => e.2 == i).isSome = false := by
  have : (vertexEntries n).find? (fun e => e.2 == i) = none := by
    refine List.find?_eq_none.mpr ?_
    intro e he
    simp only [vertexEntries, List.mem_map, List.mem_range] at he
    obtain ⟨j, hj, rfl⟩ := he
    intro hc
    rw [beq_iff_eq] at hc
    omega
  rw [this]
  rfl

theorem leftFind_vertexEntries_some (top : Bool) (n : Nat) {i : Nat} (h : i < n) :
    leftFind top (vertexEntries n) [i] = some i := by
  induction n with
  | zero => omega
  | succ n ih =>
    have : vertexEntries (n + 1) = vertexEntries n ++ [([n], n)] := by
      simp [vertexEntries, List.range_succ]
    rw [this]
    by_cases hi : i < n
    · unfold leftFind at ih ⊢
      rw [List.find?_append]
      rcases hm : (vertexEntries n).find? (fun e => keyMatch top e.1 [i]) with _ | e
      · rw [hm] at ih
        simp at ih
        omega
      · rw [hm] at ih
        simp at ih
        rw [hm]
        show Option.map (fun e => e.2) (some e) = some i
        simp [ih hi]
    · have hin : i = n := by omega
      rw [hin]
      exact leftFind_append_self top _ _ _ (leftFind_vertexEntries_none top n (le_refl n))

/-- The nodes-registration fold of `nodes`, characterized: starting from an
engine whose dimension-0 index is empty, it succeeds and fills in exactly
the vertex entries. -/
theorem nodes_fold (A : Connectivity) (maxD : Nat)
    (hA : A.index = List.replicate (maxD + 1) []) (n : Nat) :
    (List.range n).foldlM (fun s i => do
        let (m, _, inserted) :=
          bimapInsert (0 == s.maximalDimension) (s.index.getD 0 []) [i] i
        chk inserted "assert node inserted"
        pure { s with index := s.index.set 0 m }) A =
      .ok { A with index := vertexEntries n :: List.replicate maxD [] } := by
  induction n with
  | zero =>
    rw [List.range_zero, List.foldlM_nil]
    have : A = { A with index := vertexEntries 0 :: List.replicate maxD [] } := by
      obtain ⟨a1, a2, a3, a4, a5, a6, a7, a8⟩ := A
      simp only at hA
      simp [hA, vertexEntries, List.replicate_succ]
    rw [← this]
    rfl
  | succ n ih =>
    rw [List.range_succ, List.foldlM_append, ih]
    simp only [ok_bind, List.foldlM_cons, List.foldlM_nil]
    have hins : bimapInsert (0 == A.maximalDimension) (vertexEntries n) [n] n =
        (vertexEntries n ++ [([n], n)], n, true) := by
      unfold bimapInsert
      rw [leftFind_vertexEntries_none _ n (le_refl n),
        rightFind_vertexEntries_none n (le_refl n)]
      simp
    show (match bimapInsert (0 == A.maximalDimension) (vertexEntries n) [n] n with
      | (m, _, inserted) => do
        chk inserted "assert node inserted"
        pure { ({ A with index := vertexEntries n :: List.replicate maxD [] } :
            Connectivity) with
          index := (vertexEntries n :: List.replicate maxD []).set 0 m }) >>=
        (fun s => pure s) = _
    rw [hins]
    simp only [chk_true, ok_bind, pure_eq_ok, List.set_cons_zero]
    have : vertexEntries n ++ [([n], n)] = vertexEntries (n + 1) := by
      simp [vertexEntries, List.range_succ]
    rw [this]

/-- The engine state after `initialize(maxD)` and `nodes(n)`. -/
def vertexState (maxD n : Nat) : Connectivity :=
  { initState maxD with
    count := n :: List.replicate maxD 0
    gcount := n :: List.replicate 5 0
    index := vertexEntries n :: List.replicate maxD [] }

/-- Initialization followed by vertex declaration lands in
`vertexState`. -/
theorem initNodes_ok (maxD n : Nat) :
    (initMesh maxD ctor >>= nodes n) = .ok (vertexState maxD n) := by
  rw [initMesh_ctor]
  simp only [ok_bind]
  unfold nodes
  exact nodes_fold _ maxD rfl n

/-- The `(0,0)` dirty flag of the vertices-only state is `true`. -/
theorem vertexState_dirty00 (maxD n : Nat) : (vertexState maxD n).dirty2 0 0 = true := by
  simp [dirty2, get2, vertexState, initState, List.replicate_succ]

/-- C5 (amended): after `initialize(maxD)` and `nodes(n)` on a fresh
engine, the dimension-0 count is `n` and every vertex `i < n` maps to
identifier `i` under `getIndex(0, [i])` — but the dirty flag of the pair
`(0, 0)` remains `true` (`nodes` does not touch `m_dirty`; the pair is
only marked clean by a later `compute`). -/
theorem nodes_registers_vertices (maxD n : Nat) :
    (initMesh maxD ctor >>= nodes n) = .ok (vertexState maxD n) ∧
      (vertexState maxD n).getCount 0 = n ∧
      (∀ i, i < n → (vertexState maxD n).getIndex 0 [i] = some i) ∧
      (vertexState maxD n).dirty2 0 0 = true := by
  refine ⟨initNodes_ok maxD n, rfl, ?_, vertexState_dirty00 maxD n⟩
  intro i hi
  simp only [getIndex]
  exact leftFind_vertexEntries_some _ n hi

set_option maxRecDepth 4000 in
/-- Witness for C5 at a concrete input: with `maxD = 2`, `n = 4`, vertex
`3` maps to identifier `3` and `(0,0)` stays dirty. -/
theorem nodes_registers_vertices_witness :
    (initMesh 2 ctor >>= nodes 4) = .ok (vertexState 2 4) ∧
      (vertexState 2 4).getIndex 0 [3] = some 3 ∧
      (vertexState 2 4).dirty2 0 0 = true :=
  ⟨(nodes_registers_vertices 2 4).1,
    (nodes_registers_vertices 2 4).2.2.1 3 (by decide),
    (nodes_registers_vertices 2 4).2.2.2⟩

end Connectivity

namespace Connectivity

/-! ### Claim C3 (amended): queries on a vertices-only mesh -/

theorem vertexState_meshDim (n : Nat) : (vertexState 2 n).getMeshDimension = 0 := by
  simp [getMeshDimension, vertexState, initState, meshDimAux, List.getD]

/-- One-step early return of `compute`: the `(D, 0)` ground-truth case. -/
theorem computeF_early (fuel d dp : Nat) (s : Connectivity)
    (h : (d == s.getMeshDimension && dp == 0) = true) :
    computeF (fuel + 1) d dp s = .ok s := by
  unfold computeF
  simp only [h, if_true]
  rfl

/-- One-step failure of `compute` when the `(D, D)` derivation's
transpose aborts. -/
theorem computeF_err_DD (fuel d dp : Nat) (s : Connectivity) (msg : String)
    (hc : (d == s.getMeshDimension && dp == 0) = false)
    (hdd : s.dirty2 s.getMeshDimension s.getMeshDimension = true)
    (herr : transpose 0 s.getMeshDimension s = .error msg) :
    computeF (fuel + 1) d dp s = .error msg := by
  unfold computeF
  simp only [hc, Bool.false_eq_true, if_false, hdd, if_true, herr, error_bind]

/-- C3 (amended): on an engine initialized with maximal dimension 2 and
populated with `n` vertices but zero cells, only the query `compute(0,0)`
succeeds (trivially, by the `(D, 0)` early return, with the `(0,0)`
relation empty); every other query `compute(d, dp)` aborts on the
assertion `d < dp` of `transpose(0, 0)` while trying to derive
`(D, D) = (0, 0)`. -/
theorem zero_cells_queries (n d dp : Nat) :
    (d = 0 ∧ dp = 0 → compute d dp (vertexState 2 n) = .ok (vertexState 2 n) ∧
      (vertexState 2 n).incidence 0 0 = []) ∧
    (¬ (d = 0 ∧ dp = 0) →
      compute d dp (vertexState 2 n) = .error "assert transpose d lt dp") := by
  have hD := vertexState_meshDim n
  have hdirty := vertexState_dirty00 2 n
  constructor
  · rintro ⟨rfl, rfl⟩
    refine ⟨?_, rfl⟩
    exact computeF_early 7 0 0 _ (by rw [hD]; rfl)
  · intro hne
    have hcond : (d == (vertexState 2 n).getMeshDimension && dp == 0) = false := by
      rw [hD]
      rcases Nat.eq_zero_or_pos d with hd | hd
      · rcases Nat.eq_zero_or_pos dp with hdp | hdp
        · exact absurd ⟨hd, hdp⟩ hne
        · subst hd
          simp
          omega
      · simp
        omega
    refine computeF_err_DD 7 d dp _ _ hcond ?_ ?_
    · rw [hD]
      exact hdirty
    · rw [hD]
      simp [transpose, chk]

set_option maxRecDepth 4000 in
/-- Witness for C3 (amended) at concrete inputs: with 4 vertices,
`compute(0,0)` succeeds with an empty relation and `compute(1,1)`
aborts. -/
theorem zero_cells_queries_witness :
    (compute 0 0 (vertexState 2 4) = .ok (vertexState 2 4) ∧
      (vertexState 2 4).incidence 0 0 = []) ∧
    compute 1 1 (vertexState 2 4) = .error "assert transpose d lt dp" :=
  ⟨(zero_cells_queries 4 0 0).1 ⟨rfl, rfl⟩,
    (zero_cells_queries 4 1 1).2 (by decide)⟩

end Connectivity

namespace Connectivity

/-! ### Effect characterizations of the primitive operations -/

/-- Success characterization of `transpose`. -/
theorem transpose_ok {d dp : Nat} {s s' : Connectivity} (h : transpose d dp s = .ok s') :
    d < dp ∧ d < s.conn.length ∧ dp < (s.conn.getD d []).length ∧
    s' = { s with conn := set2 s.conn d dp (transposedRows s d dp),
                  dirty := set2 s.dirty d dp false } := by
  by_cases h1 : d < dp
  · by_cases h2 : d < s.conn.length
    · by_cases h3 : dp < (s.conn.getD d []).length
      · refine ⟨h1, h2, h3, ?_⟩
        simp only [transpose, chk_true (decide_eq_true h1), chk_true (decide_eq_true h2),
          chk_true (decide_eq_true h3), ok_bind, pure_eq_ok, Except.ok.injEq] at h
        exact h.symm
      · simp only [transpose, chk_true (decide_eq_true h1), chk_true (decide_eq_true h2),
          ok_bind] at h
        rw [decide_eq_false h3] at h
        simp [chk] at h
    · simp only [transpose, chk_true (decide_eq_true h1), ok_bind] at h
      rw [decide_eq_false h2] at h
      simp [chk] at h
  · simp only [transpose] at h
    rw [decide_eq_false h1] at h
    simp [chk] at h

/-- Success characterization of `intersection`. -/
theorem intersection_ok {d dp dpp : Nat} {s s' : Connectivity}
    (h : intersection d dp dpp s = .ok s') :
    dp ≤ d ∧
    s' = { s with conn := set2 s.conn d dp (intersectionRows s d dp dpp),
                  dirty := set2 s.dirty d dp false,
                  log := s.log ++ [(d, dp, dpp)] } := by
  by_cases h1 : dp ≤ d
  · refine ⟨h1, ?_⟩
    simp only [intersection, chk_true (decide_eq_true h1), ok_bind, pure_eq_ok,
      Except.ok.injEq] at h
    exact h.symm
  · simp only [intersection] at h
    rw [decide_eq_false h1] at h
    simp [chk] at h

/-! ### Mesh-dimension stability -/

theorem meshDimAux_le (c : List Nat) (m : Nat) : meshDimAux c m ≤ m := by
  induction m with
  | zero => simp [meshDimAux]
  | succ m ih =>
    unfold meshDimAux
    split
    · exact le_refl _
    · omega

theorem meshDimAux_pos_mem (c : List Nat) (m : Nat) (h : 0 < meshDimAux c m) :
    c.getD (meshDimAux c m) 0 > 0 := by
  induction m with
  | zero => simp [meshDimAux] at h
  | succ m ih =>
    unfold meshDimAux at h ⊢
    by_cases hc : c.getD (m + 1) 0 > 0
    · rw [if_pos hc] at h ⊢
      exact hc
    · rw [if_neg hc] at h ⊢
      exact ih h

theorem meshDimAux_above_zero (c : List Nat) (m : Nat) :
    ∀ i, meshDimAux c m < i → i ≤ m → c.getD i 0 = 0 := by
  induction m with
  | zero =>
    intro i h1 h2
    simp [meshDimAux] at h1
    omega
  | succ m ih =>
    intro i h1 h2
    unfold meshDimAux at h1
    by_cases hc : c.getD (m + 1) 0 > 0
    · rw [if_pos hc] at h1
      omega
    · rw [if_neg hc] at h1
      rcases Nat.lt_or_ge i (m + 1) with hi | hi
      · exact ih i h1 (by omega)
      · have : i = m + 1 := by omega
        rw [this]
        omega

theorem meshDimAux_det (c : List Nat) (m k : Nat) (hk : k ≤ m) (hpos : c.getD k 0 > 0)
    (habove : ∀ i, k < i → i ≤ m → c.getD i 0 = 0) : meshDimAux c m = k := by
  induction m with
  | zero =>
    simp [meshDimAux]
    omega
  | succ m ih =>
    unfold meshDimAux
    by_cases hc : c.getD (m + 1) 0 > 0
    · rw [if_pos hc]
      by_contra hne
      have hlt : k < m + 1 := by omega
      have := habove (m + 1) (by omega) (le_refl _)
      omega
    · rw [if_neg hc]
      have hk' : k ≤ m := by
        rcases Nat.lt_or_ge k (m + 1) with h | h
        · omega
        · have : k = m + 1 := by omega
          rw [this] at hpos
          omega
      exact ih hk' (fun i h1 h2 => habove i h1 (by omega))

/-- The downward scan in closed form. -/
theorem getMeshDimension_eq (s : Connectivity) :
    s.getMeshDimension = meshDimAux s.count (s.count.length - 1) := by
  unfold getMeshDimension
  rcases hL : s.count.length with _ | m
  · rw [show (0 : Nat) - 1 = 0 from rfl]
    simp [meshDimAux]
  · rfl

/-- Any state whose count vector has the same length and agrees at and
above the current positive mesh dimension has the same mesh dimension. -/
theorem getMeshDimension_eq_of_agree_above (s s' : Connectivity)
    (hpos : 0 < s.getMeshDimension)
    (hlen : s'.count.length = s.count.length)
    (hagree : ∀ i, s.getMeshDimension ≤ i → s'.count.getD i 0 = s.count.getD i 0) :
    s'.getMeshDimension = s.getMeshDimension := by
  rw [getMeshDimension_eq] at hpos hagree ⊢
  rw [getMeshDimension_eq, hlen]
  set m := s.count.length - 1 with hm
  have hle := meshDimAux_le s.count m
  have hmem := meshDimAux_pos_mem s.count m hpos
  have habove := meshDimAux_above_zero s.count m
  refine meshDimAux_det _ m _ hle ?_ ?_
  · rw [hagree _ (le_refl _)]
    exact hmem
  · intro i h1 h2
    rw [hagree _ (by omega)]
    exact habove i h1 h2

end Connectivity

namespace Connectivity

/-- Inversion of a successful `Except` bind. -/
theorem bind_eq_ok {α β : Type} {x : Except String α} {f : α → Except String β} {b : β}
    (h : x >>= f = .ok b) : ∃ a, x = .ok a ∧ f a = .ok b := by
  cases x with
  | error e => simp at h
  | ok a => exact ⟨a, rfl, h⟩

/-- Fields of the state that `localFold` never changes, and the count
entries away from `d`. -/
theorem localFold_fields (d D : Nat) (subs : List (PolytopeType × List Nat)) :
    ∀ acc : Connectivity × Finset Nat,
      (subs.foldl (localFold d D) acc).1.log = acc.1.log ∧
      (subs.foldl (localFold d D) acc).1.maximalDimension = acc.1.maximalDimension ∧
      (subs.foldl (localFold d D) acc).1.count.length = acc.1.count.length ∧
      (∀ i, i ≠ d → (subs.foldl (localFold d D) acc).1.count.getD i 0 =
        acc.1.count.getD i 0) := by
  induction subs with
  | nil => exact fun acc => ⟨rfl, rfl, rfl, fun i _ => rfl⟩
  | cons gp subs ih =>
    intro acc
    rw [List.foldl_cons]
    have hstep : (localFold d D acc gp).1.log = acc.1.log ∧
        (localFold d D acc gp).1.maximalDimension = acc.1.maximalDimension ∧
        (localFold d D acc gp).1.count.length = acc.1.count.length ∧
        (∀ i, i ≠ d → (localFold d D acc gp).1.count.getD i 0 =
          acc.1.count.getD i 0) := by
      obtain ⟨s, sset⟩ := acc
      obtain ⟨g, vertices⟩ := gp
      rcases hbi : bimapInsert (d == s.maximalDimension) (s.index.getD d [])
          vertices (s.getCount d) with ⟨m, idx, ins⟩
      simp only [localFold, hbi]
      rcases ins with _ | _
      · exact ⟨rfl, rfl, rfl, fun i _ => rfl⟩
      · refine ⟨rfl, rfl, ?_, ?_⟩
        · by_cases hdD : (d == D || d == 0) = true
          · simp only [hdD, if_true]
          · simp only [hdD, Bool.false_eq_true, if_false]
            simp
        · intro i hi
          by_cases hdD : (d == D || d == 0) = true
          · simp only [hdD, if_true]
          · simp only [hdD, Bool.false_eq_true, if_false]
            exact getD_set_ne _ _ _ (fun hc => hi hc.symm)
    obtain ⟨ih1, ih2, ih3, ih4⟩ := ih (localFold d D acc gp)
    obtain ⟨t1, t2, t3, t4⟩ := hstep
    exact ⟨ih1.trans t1, ih2.trans t2, ih3.trans t3,
      fun i hi => (ih4 i hi).trans (t4 i hi)⟩

/-- Success characterization of `localStep`, restricted to the fields used
by the frame arguments: the log, the maximal dimension and the mesh
dimension are preserved. -/
theorem localStep_fields {i d : Nat} {s s' : Connectivity}
    (h : localStep i d s = .ok s') :
    s'.log = s.log ∧ s'.maximalDimension = s.maximalDimension ∧
    s'.getMeshDimension = s.getMeshDimension := by
  by_cases h1 : d > 0
  · by_cases h2 : d < s.getMeshDimension
    · rcases hsub : s.getSubPolytopes i d with e | subs
      · simp [localStep, chk_true (decide_eq_true h1), chk_true (decide_eq_true h2),
          hsub] at h
      · simp only [localStep, chk_true (decide_eq_true h1), chk_true (decide_eq_true h2),
          ok_bind, hsub, pure_eq_ok, Except.ok.injEq] at h
        obtain ⟨f1, f2, f3, f4⟩ := localFold_fields d s.getMeshDimension subs (s, ∅)
        have hlog : s'.log = s.log := by rw [← h]; exact f1
        have hmax : s'.maximalDimension = s.maximalDimension := by rw [← h]; exact f2
        refine ⟨hlog, hmax, ?_⟩
        refine getMeshDimension_eq_of_agree_above s s' (by omega) ?_ ?_
        · rw [← h]
          exact f3
        · intro j hj
          rw [← h]
          exact f4 j (by omega)
    · simp only [localStep, chk_true (decide_eq_true h1), ok_bind] at h
      rw [decide_eq_false h2] at h
      simp [chk] at h
  · simp only [localStep] at h
    rw [decide_eq_false h1] at h
    simp [chk] at h

/-- The `local` fold of `build` preserves log, maximal dimension and mesh
dimension. -/
theorem buildFold_fields {d : Nat} (l : List Nat) :
    ∀ {s s' : Connectivity},
      l.foldlM (fun s i => localStep i d s) s = .ok s' →
      s'.log = s.log ∧ s'.maximalDimension = s.maximalDimension ∧
      s'.getMeshDimension = s.getMeshDimension := by
  induction l with
  | nil =>
    intro s s' h
    simp only [List.foldlM_nil, pure_eq_ok, Except.ok.injEq] at h
    rw [← h]
    exact ⟨rfl, rfl, rfl⟩
  | cons j l ih =>
    intro s s' h
    rw [List.foldlM_cons] at h
    obtain ⟨s1, hs1, hrest⟩ := bind_eq_ok h
    obtain ⟨a1, a2, a3⟩ := localStep_fields hs1
    obtain ⟨b1, b2, b3⟩ := ih hrest
    exact ⟨b1.trans a1, b2.trans a2, b3.trans a3⟩

/-- Success characterization of `build`, for the frame fields. -/
theorem build_fields {d : Nat} {s s' : Connectivity} (h : build d s = .ok s') :
    s'.log = s.log ∧ s'.maximalDimension = s.maximalDimension ∧
    s'.getMeshDimension = s.getMeshDimension := by
  by_cases h1 : d > 0
  · by_cases h2 : d < s.getMeshDimension
    · by_cases h3 : s.dirty2 s.getMeshDimension 0 = false
      · have e3 : (!s.dirty2 s.getMeshDimension 0) = true := by rw [h3]; rfl
        by_cases h4 : s.dirty2 s.getMeshDimension s.getMeshDimension = false
        · have e4 : (!s.dirty2 s.getMeshDimension s.getMeshDimension) = true := by
            rw [h4]; rfl
          simp only [build, chk_true (decide_eq_true h1), chk_true (decide_eq_true h2),
            chk_true e3, chk_true e4, ok_bind] at h
          obtain ⟨s1, hs1, hlast⟩ := bind_eq_ok h
          simp only [pure_eq_ok, Except.ok.injEq] at hlast
          obtain ⟨b1, b2, b3⟩ := buildFold_fields _ hs1
          rw [← hlast]
          exact ⟨b1, b2, b3⟩
        · have h4' : s.dirty2 s.getMeshDimension s.getMeshDimension = true := by
            revert h4
            cases s.dirty2 s.getMeshDimension s.getMeshDimension <;> simp
          have e4 : (!s.dirty2 s.getMeshDimension s.getMeshDimension) = false := by
            rw [h4']; rfl
          simp only [build, chk_true (decide_eq_true h1), chk_true (decide_eq_true h2),
            chk_true e3, ok_bind] at h
          rw [e4] at h
          simp [chk] at h
      · have h3' : s.dirty2 s.getMeshDimension 0 = true := by
          revert h3
          cases s.dirty2 s.getMeshDimension 0 <;> simp
        have e3 : (!s.dirty2 s.getMeshDimension 0) = false := by rw [h3']; rfl
        simp only [build, chk_true (decide_eq_true h1), chk_true (decide_eq_true h2),
          ok_bind] at h
        rw [e3] at h
        simp [chk] at h
    · simp only [build, chk_true (decide_eq_true h1), ok_bind] at h
      rw [decide_eq_false h2] at h
      simp [chk] at h
  · simp only [build] at h
    rw [decide_eq_false h1] at h
    simp [chk] at h

end Connectivity

namespace Connectivity

/-- The mesh dimension only depends on the count vector. -/
theorem getMeshDimension_congr {s s' : Connectivity} (h : s'.count = s.count) :
    s'.getMeshDimension = s.getMeshDimension := by
  unfold getMeshDimension
  rw [h]

theorem transpose_fields {d dp : Nat} {s s' : Connectivity}
    (h : transpose d dp s = .ok s') :
    s'.count = s.count ∧ s'.log = s.log ∧ s'.maximalDimension = s.maximalDimension ∧
    s'.getMeshDimension = s.getMeshDimension := by
  obtain ⟨-, -, -, rfl⟩ := transpose_ok h
  exact ⟨rfl, rfl, rfl, getMeshDimension_congr rfl⟩

theorem intersection_fields {d dp dpp : Nat} {s s' : Connectivity}
    (h : intersection d dp dpp s = .ok s') :
    s'.count = s.count ∧ s'.log = s.log ++ [(d, dp, dpp)] ∧
    s'.maximalDimension = s.maximalDimension ∧
    s'.getMeshDimension = s.getMeshDimension := by
  obtain ⟨-, rfl⟩ := intersection_ok h
  exact ⟨rfl, rfl, rfl, getMeshDimension_congr rfl⟩

theorem if_bool_true {α : Type} {c : Bool} (h : c = true) (a b : α) :
    (if c = true then a else b) = a := by
  rw [h]
  rfl

theorem if_bool_false {α : Type} {c : Bool} (h : c = false) (a b : α) :
    (if c = true then a else b) = b := by
  rw [h]
  exact if_neg Bool.false_ne_true

/-- The event logged by the `(D, D)` base-case derivation obeys the pivot
rule. -/
theorem ddEvent_rule (D : Nat) (e : Nat × Nat × Nat) (he : e = (D, D, 0)) :
    e.2.2 = (if e.1 = 0 ∧ e.2.1 = 0 then D else 0) := by
  subst he
  by_cases hD : D = 0
  · subst hD
    simp
  · simp [hD]

/-- Frame facts for the `(D, D)` preparation step of `compute`. -/
theorem stepDD_frame {s s1 : Connectivity}
    (h : (if s.dirty2 s.getMeshDimension s.getMeshDimension then
        transpose 0 s.getMeshDimension s >>=
          intersection s.getMeshDimension s.getMeshDimension 0
      else pure s) = .ok s1) :
    s1.getMeshDimension = s.getMeshDimension ∧ s1.maximalDimension = s.maximalDimension ∧
    ∀ e, e ∈ s1.log → e ∈ s.log ∨
      e.2.2 = (if e.1 = 0 ∧ e.2.1 = 0 then s.getMeshDimension else 0) := by
  by_cases hd : s.dirty2 s.getMeshDimension s.getMeshDimension = true
  · rw [if_bool_true hd] at h
    obtain ⟨sa, hta, hia⟩ := bind_eq_ok h
    obtain ⟨hc1, hl1, hm1, hD1⟩ := transpose_fields hta
    obtain ⟨hc2, hl2, hm2, hD2⟩ := intersection_fields hia
    refine ⟨hD2.trans hD1, hm2.trans hm1, ?_⟩
    intro e he
    rw [hl2, hl1] at he
    rcases List.mem_append.mp he with h1 | h2
    · exact Or.inl h1
    · right
      simp only [List.mem_singleton] at h2
      exact ddEvent_rule _ e (by rw [h2])
  · rw [Bool.not_eq_true] at hd
    rw [if_bool_false hd] at h
    simp only [pure_eq_ok, Except.ok.injEq] at h
    rw [← h]
    exact ⟨rfl, rfl, fun e he => Or.inl he⟩

/-- Frame facts for the conditional build steps of `compute`. -/
theorem stepBuild_frame {b : Bool} {x : Nat} {s s1 : Connectivity}
    (h : (if b then build x s else pure s) = .ok s1) :
    s1.getMeshDimension = s.getMeshDimension ∧ s1.maximalDimension = s.maximalDimension ∧
    s1.log = s.log := by
  by_cases hb : b = true
  · rw [if_bool_true hb] at h
    obtain ⟨l, m, d⟩ := build_fields h
    exact ⟨d, m, l⟩
  · rw [Bool.not_eq_true] at hb
    rw [if_bool_false hb] at h
    simp only [pure_eq_ok, Except.ok.injEq] at h
    rw [← h]
    exact ⟨rfl, rfl, rfl⟩

/-- Discharge a `chk` step in a successful bind chain. -/
theorem chk_bind_ok {b : Bool} {msg : String} {f : Unit → Except String α} {r : α}
    (h : (chk b msg >>= f) = .ok r) : f () = .ok r := by
  obtain ⟨u, hu, hf⟩ := bind_eq_ok h
  cases u
  exact hf

/-- Frame facts of `compute`: a successful `computeF` preserves the mesh
dimension and the maximal dimension, and every intersection event it adds
to the log pivots through dimension `0`, except a `(0, 0)` event, which
pivots through the mesh dimension. -/
theorem computeF_frame : ∀ (fuel d dp : Nat) (s s' : Connectivity),
    computeF fuel d dp s = .ok s' →
    s'.getMeshDimension = s.getMeshDimension ∧
    s'.maximalDimension = s.maximalDimension ∧
    ∀ e, e ∈ s'.log → e ∈ s.log ∨
      e.2.2 = (if e.1 = 0 ∧ e.2.1 = 0 then s.getMeshDimension else 0) := by
  intro fuel
  induction fuel with
  | zero =>
    intro d dp s s' h
    simp [computeF] at h
  | succ fuel ih =>
    intro d dp s s' h
    unfold computeF at h
    by_cases hc : (d == s.getMeshDimension && dp == 0) = true
    · rw [if_bool_true hc] at h
      simp only [pure_eq_ok, Except.ok.injEq] at h
      rw [← h]
      exact ⟨rfl, rfl, fun e he => Or.inl he⟩
    · rw [Bool.not_eq_true] at hc
      rw [if_bool_false hc] at h
      obtain ⟨s1, h1, h⟩ := bind_eq_ok h
      obtain ⟨d1, m1, l1⟩ := stepDD_frame h1
      replace h := chk_bind_ok h
      obtain ⟨s2, h2, h⟩ := bind_eq_ok h
      obtain ⟨d2, m2, l2⟩ := stepBuild_frame h2
      replace h := chk_bind_ok h
      replace h := chk_bind_ok h
      obtain ⟨s3, h3, h⟩ := bind_eq_ok h
      obtain ⟨d3, m3, l3⟩ := stepBuild_frame h3
      replace h := chk_bind_ok h
      replace h := chk_bind_ok h
      obtain ⟨s4, h4, h⟩ := bind_eq_ok h
      simp only [pure_eq_ok, Except.ok.injEq] at h
      have hD3 : s3.getMeshDimension = s.getMeshDimension := by rw [d3, d2, d1]
      have hM3 : s3.maximalDimension = s.maximalDimension := by rw [m3, m2, m1]
      have hL3 : ∀ e, e ∈ s3.log → e ∈ s.log ∨
          e.2.2 = (if e.1 = 0 ∧ e.2.1 = 0 then s.getMeshDimension else 0) := by
        intro e he
        rw [l3, l2] at he
        exact l1 e he
      have main : s4.getMeshDimension = s.getMeshDimension ∧
          s4.maximalDimension = s.maximalDimension ∧
          ∀ e, e ∈ s4.log → e ∈ s.log ∨
            e.2.2 = (if e.1 = 0 ∧ e.2.1 = 0 then s.getMeshDimension else 0) := by
        by_cases hdirty : s3.dirty2 d dp = true
        · rw [if_bool_true hdirty] at h4
          by_cases hlt : d < dp
          · rw [if_pos hlt] at h4
            obtain ⟨sa, hca, hta⟩ := bind_eq_ok h4
            obtain ⟨da, ma, la⟩ := ih dp d s3 sa hca
            obtain ⟨hcb, hlb, hmb, hDb⟩ := transpose_fields hta
            refine ⟨hDb.trans (da.trans hD3), hmb.trans (ma.trans hM3), ?_⟩
            intro e he
            rw [hlb] at he
            rcases la e he with h | h
            · exact hL3 e h
            · right
              rw [h, hD3]
          · rw [if_neg hlt] at h4
            obtain ⟨sa, hca, h4⟩ := bind_eq_ok h4
            obtain ⟨da, ma, la⟩ := ih d (pivotDim s.getMeshDimension d dp) s3 sa hca
            obtain ⟨sb, hcb, h4⟩ := bind_eq_ok h4
            obtain ⟨db, mb, lb⟩ := ih (pivotDim s.getMeshDimension d dp) dp sa sb hcb
            obtain ⟨hcc, hlc, hmc, hDc⟩ := intersection_fields h4
            have hDa : sa.getMeshDimension = s.getMeshDimension := da.trans hD3
            have hDb : sb.getMeshDimension = s.getMeshDimension := db.trans hDa
            refine ⟨hDc.trans hDb, hmc.trans (mb.trans (ma.trans hM3)), ?_⟩
            intro e he
            rw [hlc] at he
            rcases List.mem_append.mp he with he | he
            · rcases lb e he with h | h
              · rcases la e h with h' | h'
                · exact hL3 e h'
                · right
                  rw [h']
                  rw [d1] at d2
                  rw [d2] at d3
                  rw [d3]
              · right
                rw [h]
                rw [hDa]
            · right
              simp only [List.mem_singleton] at he
              subst he
              simp only [pivotDim]
              by_cases hz : (d == 0 && dp == 0) = true
              · rw [if_bool_true hz]
                simp only [Bool.and_eq_true, beq_iff_eq] at hz
                simp [hz.1, hz.2]
              · rw [Bool.not_eq_true] at hz
                rw [if_bool_false hz]
                have hnot : ¬ (d = 0 ∧ dp = 0) := by
                  intro hcon
                  rcases Bool.and_eq_false_iff.mp hz with hb | hb <;>
                    simp [hcon.1, hcon.2] at hb
                simp [hnot]
        · rw [Bool.not_eq_true] at hdirty
          rw [if_bool_false hdirty] at h4
          simp only [pure_eq_ok, Except.ok.injEq] at h4
          rw [← h4]
          exact ⟨hD3, hM3, hL3⟩
      rw [← h]
      obtain ⟨q1, q2, q3⟩ := main
      exact ⟨getMeshDimension_congr rfl |>.trans q1, q2, q3⟩

/-- C1 (amended): whenever `compute(d, dp)` derives a relation by pivot
intersection, the pivot `dpp` is `0` — except for the pair `(0, 0)`, which
pivots through the mesh dimension `D`: every intersection event a
successful `compute` appends to the log obeys this rule. -/
theorem compute_pivot_dimension (fuel d dp : Nat) (s s' : Connectivity)
    (h : computeF fuel d dp s = .ok s') :
    ∀ e, e ∈ s'.log → e ∈ s.log ∨
      e.2.2 = (if e.1 = 0 ∧ e.2.1 = 0 then s.getMeshDimension else 0) :=
  (computeF_frame fuel d dp s s' h).2.2

/-- The state of the two-triangle mesh after the query `compute(0, 0)`. -/
def c1zzState : Connectivity :=
  (mesh2tri.bind fun s => compute 0 0 s).toOption.getD ctor

set_option maxRecDepth 4000 in
/-- Witness for C1 (amended) at a concrete input: the `(0,0)` query on the
two-triangle mesh logs the intersection event `(0, 0, 2)`, whose pivot is
the mesh dimension `2`. -/
theorem compute_pivot_dimension_witness :
    computeF 8 0 0 mesh2triState = .ok c1zzState ∧
    ((0, 0, 2) : Nat × Nat × Nat) ∈ c1zzState.log ∧
    (((0, 0, 2) : Nat × Nat × Nat) ∈ mesh2triState.log ∨
      ((0, 0, 2) : Nat × Nat × Nat).2.2 =
        (if ((0, 0, 2) : Nat × Nat × Nat).1 = 0 ∧ ((0, 0, 2) : Nat × Nat × Nat).2.1 = 0 then
          mesh2triState.getMeshDimension else 0)) :=
  ⟨rfl, by decide,
    compute_pivot_dimension 8 0 0 mesh2triState c1zzState rfl (0, 0, 2) (by decide)⟩

end Connectivity

namespace Connectivity

/-! ### The engine invariant for compute-only evolutions

`Inv maxD n s` captures the state of an engine that was initialized with
maximal dimension `maxD`, populated with `n` vertices and at least one
top-dimension cell, and then evolved by `compute` queries only. -/

structure Inv (maxD n : Nat) (s : Connectivity) : Prop where
  hmax : s.maximalDimension = maxD
  hmaxd1 : 1 ≤ maxD
  hcountlen : s.count.length = maxD + 1
  hconnlen : s.conn.length = maxD + 1
  hconnrow : ∀ a, a ≤ maxD → (s.conn.getD a []).length = maxD + 1
  hdirtylen : s.dirty.length = maxD + 1
  hdirtyrow : ∀ a, a ≤ maxD → (s.dirty.getD a []).length = maxD + 1
  hindexlen : s.index.length = maxD + 1
  hgeomlen : s.geometry.length = maxD + 1
  htop : 0 < s.getCount maxD
  hn : s.getCount 0 = n
  hD0 : s.dirty2 maxD 0 = false
  hL : ∀ d, 0 < d → d < maxD → s.dirty2 maxD d = s.dirty2 d 0
  hU : ∀ a b, a < b → s.dirty2 a b = false → s.dirty2 b a = false
  hB : ∀ a b, s.dirty2 a b = false →
    (0 < a → a < maxD → s.dirty2 a 0 = false) ∧ (0 < b → b < maxD → s.dirty2 b 0 = false)
  hEmpty : ∀ a b, s.dirty2 a b = true → s.incidence a b = []
  hLen : ∀ a b, s.dirty2 a b = false → (s.incidence a b).length = s.getCount a
  hBound : ∀ a b, s.dirty2 a b = false → ∀ i j, j ∈ s.incid a b i → j < s.getCount b
  hSym : ∀ a b, a ≠ b → s.dirty2 a b = false → s.dirty2 b a = false →
    ∀ i j, j ∈ s.incid a b i ↔ i ∈ s.incid b a j
  hSub : ∀ a b, b < a → 0 < b → s.dirty2 a b = false →
    ∀ i j, j ∈ s.incid a b i → s.incid b 0 j ⊆ s.incid a 0 i
  hIdxVal : ∀ a, a ≤ maxD → ∀ e ∈ s.index.getD a [], e.2 < s.getCount a
  hIdxRow : ∀ a, 0 < a → a ≤ maxD → ∀ e ∈ s.index.getD a [],
    (s.incidence a 0).getD e.2 ∅ = e.1.toFinset ∧ ∀ v ∈ e.1, v < n
  hGeomLen : ∀ a, 0 < a → a ≤ maxD → (s.geometry.getD a []).length = s.getCount a
  hConn0Len : ∀ a, 0 < a → a ≤ maxD → (s.incidence a 0).length = s.getCount a
  hCnt0 : ∀ a, 0 < a → a < maxD → s.dirty2 a 0 = true → s.getCount a = 0
  hCell : ∀ i, i < s.getCount maxD → ∃ p,
    rightAt (s.index.getD maxD []) i = some p ∧
    geometryDimension ((s.geometry.getD maxD []).getD i .point) = maxD ∧
    p.length = typeVertexCount ((s.geometry.getD maxD []).getD i .point) ∧
    (∀ v ∈ p, v < n) ∧
    (s.incidence maxD 0).getD i ∅ = p.toFinset

theorem Inv.meshDim {maxD n : Nat} {s : Connectivity} (h : Inv maxD n s) :
    s.getMeshDimension = maxD := by
  rw [getMeshDimension_eq, h.hcountlen]
  simp only [Nat.add_sub_cancel]
  refine meshDimAux_det _ maxD maxD (le_refl _) h.htop ?_
  intro i h1 h2
  omega

/-- Dirty entries above the stored matrix are `true` by default, so a clean
flag pins both coordinates under `maxD`. -/
theorem Inv.clean_le {maxD n : Nat} {s : Connectivity} (h : Inv maxD n s) {a b : Nat}
    (hc : s.dirty2 a b = false) : a ≤ maxD ∧ b ≤ maxD := by
  by_cases ha : a ≤ maxD
  · by_cases hb : b ≤ maxD
    · exact ⟨ha, hb⟩
    · exfalso
      have hrow := h.hdirtyrow a ha
      unfold dirty2 get2 at hc
      rw [List.getD_eq_default _ _ (by omega : (s.dirty.getD a []).length ≤ b)] at hc
      exact Bool.true_eq_false.mp hc
  · exfalso
    have := h.hdirtylen
    unfold dirty2 get2 at hc
    rw [List.getD_eq_default _ _ (by omega : s.dirty.length ≤ a)] at hc
    simp at hc

end Connectivity

namespace Connectivity

/-! ### Membership characterizations of the row computations -/

theorem mem_sortedList (s : Finset Nat) (x : Nat) : x ∈ sortedList s ↔ x ∈ s := by
  unfold sortedList
  rcases s with ⟨v, nd⟩
  induction v using Quotient.inductionOn with
  | h l =>
    exact ⟨fun h => (List.perm_insertionSort _ l).mem_iff.mp h,
      fun h => (List.perm_insertionSort _ l).mem_iff.mpr h⟩

theorem length_bulkInsert (ps : List (Nat × Nat)) :
    ∀ rows : List (Finset Nat), (bulkInsert rows ps).length = rows.length := by
  induction ps with
  | nil => intro rows; rfl
  | cons p ps ih =>
    intro rows
    show (bulkInsert (rows.set p.1 (insert p.2 (rows.getD p.1 ∅))) ps).length = rows.length
    rw [ih]
    simp

theorem mem_bulkInsert (ps : List (Nat × Nat)) :
    ∀ (rows : List (Finset Nat)) (i j : Nat),
      j ∈ (bulkInsert rows ps).getD i ∅ ↔
        j ∈ rows.getD i ∅ ∨ ((i, j) ∈ ps ∧ i < rows.length) := by
  induction ps with
  | nil =>
    intro rows i j
    simp [bulkInsert]
  | cons p ps ih =>
    intro rows i j
    obtain ⟨a, b⟩ := p
    show j ∈ (bulkInsert (rows.set a (insert b (rows.getD a ∅))) ps).getD i ∅ ↔ _
    rw [ih]
    simp only [List.length_set, List.mem_cons, Prod.mk.injEq]
    by_cases hp : a < rows.length
    · by_cases hip : a = i
      · subst hip
        rw [getD_set_self _ _ _ _ hp]
        simp only [Finset.mem_insert]
        constructor
        · rintro (h | h)
          · rcases h with h | h
            · exact Or.inr ⟨Or.inl (by simp [h]), hp⟩
            · exact Or.inl h
          · exact Or.inr ⟨Or.inr h.1, h.2⟩
        · rintro (h | ⟨h1 | h1, h2⟩)
          · exact Or.inl (Or.inr h)
          · refine Or.inl (Or.inl ?_)
            aesop
          · exact Or.inr ⟨h1, h2⟩
      · rw [getD_set_ne _ _ _ hip]
        constructor
        · rintro (h | h)
          · exact Or.inl h
          · exact Or.inr ⟨Or.inr h.1, h.2⟩
        · rintro (h | ⟨h1 | h1, h2⟩)
          · exact Or.inl h
          · exfalso
            omega
          · exact Or.inr ⟨h1, h2⟩
    · rw [List.set_eq_of_length_le (Nat.not_lt.mp hp)]
      constructor
      · rintro (h | h)
        · exact Or.inl h
        · exact Or.inr ⟨Or.inr h.1, h.2⟩
      · rintro (h | ⟨h1 | h1, h2⟩)
        · exact Or.inl h
        · exfalso
          omega
        · exact Or.inr ⟨h1, h2⟩

theorem length_resizeTo (l : List α) (m : Nat) (d : α) :
    (resizeTo l m d).length = m := by
  unfold resizeTo
  simp
  omega

theorem getD_resizeTo (l : List (Finset Nat)) (m i : Nat) :
    (resizeTo l m ∅).getD i ∅ = if i < l.length ∧ i < m then l.getD i ∅ else ∅ := by
  unfold resizeTo
  by_cases h1 : i < m
  · by_cases h2 : i < l.length
    · rw [if_pos ⟨h2, h1⟩]
      rw [List.getD_eq_getElem?_getD, List.getElem?_append_left (by simp; omega),
        List.getElem?_take_of_lt h1, ← List.getD_eq_getElem?_getD]
    · rw [if_neg (fun hc => h2 hc.1)]
      rw [List.getD_eq_getElem?_getD]
      rcases Nat.lt_or_ge i (l.take m).length with hi | hi
      · simp at hi
        omega
      · rw [List.getElem?_append_right hi]
        simp only [List.getElem?_replicate]
        split <;> rfl
  · rw [if_neg (fun hc => h1 hc.2)]
    rw [List.getD_eq_default]
    simp
    omega

theorem mem_transposePairs (s : Connectivity) (d dp i j : Nat) :
    (i, j) ∈ transposePairs s d dp ↔ j < s.getCount dp ∧ i ∈ s.incid dp d j := by
  unfold transposePairs
  simp only [List.mem_flatMap, List.mem_range, List.mem_map]
  constructor
  · rintro ⟨j', hj', i', hi', he⟩
    have h1 : i' = i := congrArg Prod.fst he
    have h2 : j' = j := congrArg Prod.snd he
    subst h1
    subst h2
    exact ⟨hj', (mem_sortedList _ _).mp hi'⟩
  · rintro ⟨hj, hi⟩
    exact ⟨j, hj, i, (mem_sortedList _ _).mpr hi, rfl⟩

theorem intersection_cond_iff (s : Connectivity) (d dp i j : Nat) :
    ((d == dp && i != j)
      || (dp < d && decide (s.incid dp 0 j ⊆ s.incid d 0 i))) = true ↔
    ((d = dp ∧ i ≠ j) ∨ (dp < d ∧ s.incid dp 0 j ⊆ s.incid d 0 i)) := by
  simp [Bool.or_eq_true, Bool.and_eq_true]

theorem mem_intersectionPairs (s : Connectivity) (d dp dpp i j : Nat) :
    (i, j) ∈ intersectionPairs s d dp dpp ↔
      i < s.getCount d ∧ ∃ k, k ∈ s.incid d dpp i ∧ j ∈ s.incid dpp dp k ∧
        ((d = dp ∧ i ≠ j) ∨ (dp < d ∧ s.incid dp 0 j ⊆ s.incid d 0 i)) := by
  unfold intersectionPairs
  simp only [List.mem_flatMap, List.mem_range, List.mem_filterMap]
  constructor
  · rintro ⟨i', hi', k, hk, j', hj', hcond⟩
    by_cases hc : ((d == dp && i' != j')
        || (dp < d && decide (s.incid dp 0 j' ⊆ s.incid d 0 i'))) = true
    · rw [if_bool_true hc] at hcond
      have h1 : i' = i := congrArg Prod.fst (Option.some.inj hcond)
      have h2 : j' = j := congrArg Prod.snd (Option.some.inj hcond)
      rw [h1] at hi' hk hc
      rw [h2] at hj' hc
      exact ⟨hi', k, (mem_sortedList _ _).mp hk, (mem_sortedList _ _).mp hj',
        (intersection_cond_iff s d dp i j).mp hc⟩
    · rw [Bool.not_eq_true] at hc
      rw [if_bool_false hc] at hcond
      exact absurd hcond (by simp)
  · rintro ⟨hi, k, hk, hj, hcond⟩
    refine ⟨i, hi, k, (mem_sortedList _ _).mpr hk, j, (mem_sortedList _ _).mpr hj, ?_⟩
    rw [if_bool_true ((intersection_cond_iff s d dp i j).mpr hcond)]

end Connectivity

namespace Connectivity

/-! ### Updating a single incidence slot -/

/-- Facts about the state after writing relation slot `(d, dp)` and
clearing its dirty flag, as `transpose` and `intersection` both do. -/
theorem slot_update_facts {maxD n : Nat} {s : Connectivity} (hinv : Inv maxD n s)
    {d dp : Nat} (hd : d ≤ maxD) (hdp : dp ≤ maxD)
    {R : List (Finset Nat)} {L : List (Nat × Nat × Nat)} {s' : Connectivity}
    (hs : s' = { s with conn := set2 s.conn d dp R, dirty := set2 s.dirty d dp false, log := L }) :
    s'.dirty2 d dp = false ∧
    (∀ a b, ¬ (d = a ∧ dp = b) → s'.dirty2 a b = s.dirty2 a b) ∧
    s'.incidence d dp = R ∧
    (∀ a b, ¬ (d = a ∧ dp = b) → s'.incidence a b = s.incidence a b) ∧
    s'.maximalDimension = s.maximalDimension ∧ s'.count = s.count ∧
    s'.gcount = s.gcount ∧ s'.index = s.index ∧ s'.geometry = s.geometry ∧
    s'.log = L := by
  subst hs
  refine ⟨?_, ?_, ?_, ?_, rfl, rfl, rfl, rfl, rfl, rfl⟩
  · exact get2_set2_self _ _ _ _ _ (by rw [hinv.hdirtylen]; omega)
      (by rw [hinv.hdirtyrow d hd]; omega)
  · intro a b hab
    exact get2_set2_ne _ _ _ hab
  · exact get2_set2_self _ _ _ _ _ (by rw [hinv.hconnlen]; omega)
      (by rw [hinv.hconnrow d hd]; omega)
  · intro a b hab
    exact get2_set2_ne _ _ _ hab

/-- Rows beyond the stored length are empty. -/
theorem incid_eq_empty_of_le {s : Connectivity} {a b i : Nat}
    (h : (s.incidence a b).length ≤ i) : s.incid a b i = ∅ := by
  unfold incid
  rw [List.getD_eq_default _ _ h]

/-- The transposed rows, when the old slot is empty. -/
theorem mem_transposedRows_empty {s : Connectivity} {d dp : Nat}
    (hold : s.incidence d dp = []) (i j : Nat) :
    j ∈ (transposedRows s d dp).getD i ∅ ↔
      i < s.getCount d ∧ j < s.getCount dp ∧ i ∈ s.incid dp d j := by
  unfold transposedRows
  rw [mem_bulkInsert, mem_transposePairs, getD_resizeTo, length_resizeTo, hold]
  simp only [List.length_nil]
  constructor
  · rintro (h | h)
    · exfalso
      revert h
      split
      · rename_i hcon
        omega
      · simp
    · exact ⟨h.2, h.1⟩
  · rintro ⟨h1, h2, h3⟩
    exact Or.inr ⟨⟨h2, h3⟩, h1⟩

theorem length_transposedRows (s : Connectivity) (d dp : Nat) :
    (transposedRows s d dp).length = s.getCount d := by
  unfold transposedRows
  rw [length_bulkInsert, length_resizeTo]

/-- The transposed rows, when the old slot already holds the transpose
(recomputation of a clean pair): the values are unchanged. -/
theorem mem_transposedRows_clean {maxD n : Nat} {s : Connectivity} (hinv : Inv maxD n s)
    {d dp : Nat} (hne : d ≠ dp)
    (hclean : s.dirty2 d dp = false) (hsrc : s.dirty2 dp d = false) (i j : Nat) :
    (j ∈ (transposedRows s d dp).getD i ∅ ↔ j ∈ s.incid d dp i) := by
  unfold transposedRows
  rw [mem_bulkInsert, mem_transposePairs, getD_resizeTo, length_resizeTo,
    hinv.hLen d dp hclean]
  constructor
  · rintro (h | h)
    · revert h
      split
      · exact fun h => h
      · simp
    · exact (hinv.hSym dp d (Ne.symm hne) hsrc hclean j i).mp h.1.2
  · intro h
    have hi : i < s.getCount d := by
      by_contra hcon
      rw [incid_eq_empty_of_le (by rw [hinv.hLen d dp hclean]; omega)] at h
      exact absurd h (Finset.not_mem_empty j)
    exact Or.inl (by rw [if_pos ⟨hi, hi⟩]; exact h)

end Connectivity

namespace Connectivity

/-- Raw field equations for the slot update. -/
theorem slot_update_fields {s : Connectivity} {d dp : Nat}
    {R : List (Finset Nat)} {L : List (Nat × Nat × Nat)} {s' : Connectivity}
    (hs : s' = { s with conn := set2 s.conn d dp R, dirty := set2 s.dirty d dp false, log := L }) :
    s'.conn = set2 s.conn d dp R ∧ s'.dirty = set2 s.dirty d dp false := by
  subst hs
  exact ⟨rfl, rfl⟩

/-- `transpose d dp` from a state with a clean `(dp, d)` slot preserves the
invariant, cleans `(d, dp)`, and changes no other flag or slot. -/
theorem transpose_inv {maxD n d dp : Nat} {s s' : Connectivity} (hinv : Inv maxD n s)
    (hsrc : s.dirty2 dp d = false)
    (h : transpose d dp s = .ok s') :
    Inv maxD n s' ∧
    s'.dirty2 d dp = false ∧
    (∀ a b, ¬ (d = a ∧ dp = b) → s'.dirty2 a b = s.dirty2 a b) ∧
    (∀ a b, ¬ (d = a ∧ dp = b) → s'.incidence a b = s.incidence a b) ∧
    s'.count = s.count ∧ s'.log = s.log := by
  obtain ⟨hlt, hc2, hc3, hs⟩ := transpose_ok h
  obtain ⟨hdpm, hdm⟩ := hinv.clean_le hsrc
  have hs' : s' = { s with conn := set2 s.conn d dp (transposedRows s d dp), dirty := set2 s.dirty d dp false, log := s.log } := by rw [hs]
  obtain ⟨hF0, hFf, hRd, hCf, hMx, hCt, hGc, hIxe, hGme, hLg⟩ :=
    slot_update_facts hinv hdm hdpm hs'
  obtain ⟨hConnF, hDirtyF⟩ := slot_update_fields hs'
  have hnd : d ≠ dp := Nat.ne_of_lt hlt
  have hdp0 : 0 < dp := lt_of_le_of_lt (Nat.zero_le d) hlt
  have hdlt : d < maxD := lt_of_lt_of_le hlt hdpm
  have hcnt : ∀ a, s'.getCount a = s.getCount a := by
    intro a
    unfold getCount
    rw [hCt]
  have hicf : ∀ a b, ¬ (d = a ∧ dp = b) → ∀ i, s'.incid a b i = s.incid a b i := by
    intro a b hab i
    unfold incid
    rw [hCf a b hab]
  have hfr1 : ¬ (d = dp ∧ dp = d) := fun hx => hnd hx.1
  have h0fr : ∀ a : Nat, ¬ (d = a ∧ dp = 0) := fun a hx => by omega
  have hjlt : ∀ i j, i ∈ s.incid dp d j → j < s.getCount dp := by
    intro i j hij
    by_contra hcon
    rw [incid_eq_empty_of_le (by rw [hinv.hLen dp d hsrc]; omega)] at hij
    exact absurd hij (Finset.not_mem_empty i)
  have hilt : ∀ i j, i ∈ s.incid dp d j → i < s.getCount d :=
    fun i j hij => hinv.hBound dp d hsrc j i hij
  have hkey : ∀ i j, j ∈ s'.incid d dp i ↔ i ∈ s.incid dp d j := by
    intro i j
    unfold incid
    rw [hRd]
    by_cases hT : s.dirty2 d dp = true
    · rw [mem_transposedRows_empty (hinv.hEmpty d dp hT)]
      exact ⟨fun hx => hx.2.2, fun hx => ⟨hilt i j hx, hjlt i j hx, hx⟩⟩
    · have hfalse : s.dirty2 d dp = false := by
        revert hT
        cases s.dirty2 d dp <;> simp
      rw [mem_transposedRows_clean hinv hnd hfalse hsrc i j]
      exact hinv.hSym d dp hnd hfalse hsrc i j
  refine ⟨?_, hF0, hFf, hCf, hCt, hLg⟩
  refine Inv.mk ?_ hinv.hmaxd1 ?_ ?_ ?_ ?_ ?_ ?_ ?_ ?_ ?_ ?_ ?_ ?_ ?_ ?_ ?_ ?_ ?_ ?_ ?_ ?_ ?_ ?_ ?_ ?_
  · rw [hMx]
    exact hinv.hmax
  · rw [hCt]
    exact hinv.hcountlen
  · rw [hConnF, length_set2]
    exact hinv.hconnlen
  · intro a ha
    rw [hConnF, row_length_set2]
    exact hinv.hconnrow a ha
  · rw [hDirtyF, length_set2]
    exact hinv.hdirtylen
  · intro a ha
    rw [hDirtyF, row_length_set2]
    exact hinv.hdirtyrow a ha
  · rw [hIxe]
    exact hinv.hindexlen
  · rw [hGme]
    exact hinv.hgeomlen
  · rw [hcnt]
    exact hinv.htop
  · rw [hcnt]
    exact hinv.hn
  · rw [hFf maxD 0 (h0fr maxD)]
    exact hinv.hD0
  · intro x hx1 hx2
    rw [hFf maxD x (fun hy => by omega), hFf x 0 (h0fr x)]
    exact hinv.hL x hx1 hx2
  · intro a b hab hclean
    by_cases hA : d = a ∧ dp = b
    · obtain ⟨h5, h6⟩ := hA
      rw [← h5, ← h6, hFf dp d hfr1]
      exact hsrc
    · rw [hFf a b hA] at hclean
      rw [hFf b a (fun hy => by omega)]
      exact hinv.hU a b hab hclean
  · intro a b hclean
    by_cases hA : d = a ∧ dp = b
    · obtain ⟨h5, h6⟩ := hA
      rw [← h5, ← h6, hFf d 0 (h0fr d), hFf dp 0 (h0fr dp)]
      obtain ⟨hP1, hP2⟩ := hinv.hB dp d hsrc
      exact ⟨hP2, hP1⟩
    · rw [hFf a b hA] at hclean
      rw [hFf a 0 (h0fr a), hFf b 0 (h0fr b)]
      exact hinv.hB a b hclean
  · intro a b hdirt
    by_cases hA : d = a ∧ dp = b
    · obtain ⟨h5, h6⟩ := hA
      rw [← h5, ← h6, hF0] at hdirt
      exact absurd hdirt (by simp)
    · rw [hFf a b hA] at hdirt
      rw [hCf a b hA]
      exact hinv.hEmpty a b hdirt
  · intro a b hclean
    by_cases hA : d = a ∧ dp = b
    · obtain ⟨h5, h6⟩ := hA
      rw [← h5, ← h6, hRd, length_transposedRows, hcnt]
    · rw [hFf a b hA] at hclean
      rw [hCf a b hA, hcnt]
      exact hinv.hLen a b hclean
  · intro a b hclean i j hj
    by_cases hA : d = a ∧ dp = b
    · obtain ⟨h5, h6⟩ := hA
      rw [← h5] at hj
      rw [← h6] at hj ⊢
      rw [hcnt]
      exact hjlt i j ((hkey i j).mp hj)
    · rw [hFf a b hA] at hclean
      rw [hicf a b hA i] at hj
      rw [hcnt]
      exact hinv.hBound a b hclean i j hj
  · intro a b hab hcl1 hcl2 i j
    by_cases hA : d = a ∧ dp = b
    · obtain ⟨h5, h6⟩ := hA
      rw [← h5, ← h6, hicf dp d hfr1 j]
      exact hkey i j
    · by_cases hB2 : d = b ∧ dp = a
      · obtain ⟨h5, h6⟩ := hB2
        rw [← h5, ← h6, hicf dp d hfr1 i]
        exact (hkey j i).symm
      · rw [hicf a b hA i, hicf b a hB2 j]
        rw [hFf a b hA] at hcl1
        rw [hFf b a hB2] at hcl2
        exact hinv.hSym a b hab hcl1 hcl2 i j
  · intro a b hba hb0 hclean i j hj
    by_cases hA : d = a ∧ dp = b
    · exfalso
      omega
    · rw [hFf a b hA] at hclean
      rw [hicf a b hA i] at hj
      rw [hicf b 0 (h0fr b) j, hicf a 0 (h0fr a) i]
      exact hinv.hSub a b hba hb0 hclean i j hj
  · intro a ha e he
    rw [hIxe] at he
    rw [hcnt]
    exact hinv.hIdxVal a ha e he
  · intro a ha0 ha e he
    rw [hIxe] at he
    unfold incidence
    rw [show get2 s'.conn a 0 [] = s'.incidence a 0 from rfl, hCf a 0 (h0fr a)]
    exact hinv.hIdxRow a ha0 ha e he
  · intro a ha0 ha
    rw [hGme, hcnt]
    exact hinv.hGeomLen a ha0 ha
  · intro a ha0 ha
    rw [hCf a 0 (h0fr a), hcnt]
    exact hinv.hConn0Len a ha0 ha
  · intro a ha0 ha hd0
    rw [hFf a 0 (h0fr a)] at hd0
    rw [hcnt]
    exact hinv.hCnt0 a ha0 ha hd0
  · intro i hi
    rw [hcnt] at hi
    obtain ⟨p, hp1, hp2, hp3, hp4, hp5⟩ := hinv.hCell i hi
    refine ⟨p, ?_, ?_, ?_, hp4, ?_⟩
    · rw [hIxe]
      exact hp1
    · rw [hGme]
      exact hp2
    · rw [hGme]
      exact hp3
    · rw [show (s'.incidence maxD 0) = get2 s'.conn maxD 0 [] from rfl,
        show get2 s'.conn maxD 0 [] = s'.incidence maxD 0 from rfl, hCf maxD 0 (h0fr maxD)]
      exact hp5

end Connectivity

namespace Connectivity

theorem length_intersectionRows (s : Connectivity) (d dp dpp : Nat) :
    (intersectionRows s d dp dpp).length = s.getCount d := by
  unfold intersectionRows
  rw [length_bulkInsert, length_resizeTo]

/-- The intersection rows, when the old slot is empty. -/
theorem mem_intersectionRows_empty {s : Connectivity} {d dp dpp : Nat}
    (hold : s.incidence d dp = []) (i j : Nat) :
    j ∈ (intersectionRows s d dp dpp).getD i ∅ ↔
      (i, j) ∈ intersectionPairs s d dp dpp := by
  unfold intersectionRows
  rw [mem_bulkInsert, getD_resizeTo, length_resizeTo, hold]
  simp only [List.length_nil]
  constructor
  · rintro (h | h)
    · exfalso
      revert h
      split
      · rename_i hcon
        omega
      · simp
    · exact h.1
  · intro h
    exact Or.inr ⟨h, ((mem_intersectionPairs s d dp dpp i j).mp h).1⟩

/-- `intersection d dp dpp` from a state with a dirty `(d, dp)` slot, clean
`(d, dpp)` and `(dpp, dp)` sources, and a target pair of one of the shapes
the compute pivot produces, preserves the invariant, cleans `(d, dp)`, and
changes no other flag or slot. -/
theorem intersection_inv {maxD n d dp dpp : Nat} {s s' : Connectivity} (hinv : Inv maxD n s)
    (htarget : s.dirty2 d dp = true)
    (hsrc1 : s.dirty2 d dpp = false) (hsrc2 : s.dirty2 dpp dp = false)
    (hshape : (0 < dp ∧ dp ≤ d ∧ d < maxD) ∨ (d = maxD ∧ dp = maxD) ∨ (d = 0 ∧ dp = 0))
    (h : intersection d dp dpp s = .ok s') :
    Inv maxD n s' ∧
    s'.dirty2 d dp = false ∧
    (∀ a b, ¬ (d = a ∧ dp = b) → s'.dirty2 a b = s.dirty2 a b) ∧
    (∀ a b, ¬ (d = a ∧ dp = b) → s'.incidence a b = s.incidence a b) ∧
    s'.count = s.count ∧ s'.log = s.log ++ [(d, dp, dpp)] := by
  obtain ⟨hdple, hs⟩ := intersection_ok h
  have hdm : d ≤ maxD := (hinv.clean_le hsrc1).1
  have hdpm : dp ≤ maxD := (hinv.clean_le hsrc2).2
  have hmaxd1 := hinv.hmaxd1
  obtain ⟨hF0, hFf, hRd, hCf, hMx, hCt, hGc, hIxe, hGme, hLg⟩ :=
    slot_update_facts hinv hdm hdpm hs
  obtain ⟨hConnF, hDirtyF⟩ := slot_update_fields hs
  have hcnt : ∀ a, s'.getCount a = s.getCount a := by
    intro a
    unfold getCount
    rw [hCt]
  have hicf : ∀ a b, ¬ (d = a ∧ dp = b) → ∀ i, s'.incid a b i = s.incid a b i := by
    intro a b hab i
    unfold incid
    rw [hCf a b hab]
  have hchar : ∀ i j, j ∈ s'.incid d dp i ↔
      (i < s.getCount d ∧ ∃ k, k ∈ s.incid d dpp i ∧ j ∈ s.incid dpp dp k ∧
        ((d = dp ∧ i ≠ j) ∨ (dp < d ∧ s.incid dp 0 j ⊆ s.incid d 0 i))) := by
    intro i j
    have hrow : s'.incid d dp i = (intersectionRows s d dp dpp).getD i ∅ := by
      unfold incid
      rw [hRd]
    rw [hrow, mem_intersectionRows_empty (hinv.hEmpty d dp htarget),
      mem_intersectionPairs]
  refine ⟨?_, hF0, hFf, hCf, hCt, hLg⟩
  refine Inv.mk ?_ hinv.hmaxd1 ?_ ?_ ?_ ?_ ?_ ?_ ?_ ?_ ?_ ?_ ?_ ?_ ?_ ?_ ?_ ?_ ?_ ?_ ?_ ?_ ?_ ?_ ?_ ?_
  · rw [hMx]
    exact hinv.hmax
  · rw [hCt]
    exact hinv.hcountlen
  · rw [hConnF, length_set2]
    exact hinv.hconnlen
  · intro a ha
    rw [hConnF, row_length_set2]
    exact hinv.hconnrow a ha
  · rw [hDirtyF, length_set2]
    exact hinv.hdirtylen
  · intro a ha
    rw [hDirtyF, row_length_set2]
    exact hinv.hdirtyrow a ha
  · rw [hIxe]
    exact hinv.hindexlen
  · rw [hGme]
    exact hinv.hgeomlen
  · rw [hcnt]
    exact hinv.htop
  · rw [hcnt]
    exact hinv.hn
  · rw [hFf maxD 0 (by rcases hshape with hS | hS | hS <;> omega)]
    exact hinv.hD0
  · intro x hx1 hx2
    rw [hFf maxD x (by rcases hshape with hS | hS | hS <;> omega),
      hFf x 0 (by rcases hshape with hS | hS | hS <;> omega)]
    exact hinv.hL x hx1 hx2
  · intro a b hab hclean
    by_cases hA : d = a ∧ dp = b
    · exfalso
      omega
    · rw [hFf a b hA] at hclean
      by_cases hB2 : d = b ∧ dp = a
      · exfalso
        obtain ⟨h5, h6⟩ := hB2
        rw [← h5, ← h6] at hclean
        have hclean2 := hinv.hU dp d (by omega) hclean
        rw [hclean2] at htarget
        exact absurd htarget (by simp)
      · rw [hFf b a hB2]
        exact hinv.hU a b hab hclean
  · intro a b hclean
    by_cases hA : d = a ∧ dp = b
    · obtain ⟨h5, h6⟩ := hA
      rw [← h5, ← h6]
      constructor
      · intro hd0' hdlt'
        rcases hshape with hS | hS | hS
        · rw [hFf d 0 (by omega)]
          exact (hinv.hB d dpp hsrc1).1 hd0' hdlt'
        · omega
        · omega
      · intro hdp0' hdplt'
        rcases hshape with hS | hS | hS
        · rw [hFf dp 0 (by omega)]
          exact (hinv.hB dpp dp hsrc2).2 hdp0' hdplt'
        · omega
        · omega
    · rw [hFf a b hA] at hclean
      constructor
      · intro ha0 halt
        rw [hFf a 0 (by rcases hshape with hS | hS | hS <;> omega)]
        exact (hinv.hB a b hclean).1 ha0 halt
      · intro hb0 hblt
        rw [hFf b 0 (by rcases hshape with hS | hS | hS <;> omega)]
        exact (hinv.hB a b hclean).2 hb0 hblt
  · intro a b hdirt
    by_cases hA : d = a ∧ dp = b
    · obtain ⟨h5, h6⟩ := hA
      rw [← h5, ← h6, hF0] at hdirt
      exact absurd hdirt (by simp)
    · rw [hFf a b hA] at hdirt
      rw [hCf a b hA]
      exact hinv.hEmpty a b hdirt
  · intro a b hclean
    by_cases hA : d = a ∧ dp = b
    · obtain ⟨h5, h6⟩ := hA
      rw [← h5, ← h6, hRd, length_intersectionRows, hcnt]
    · rw [hFf a b hA] at hclean
      rw [hCf a b hA, hcnt]
      exact hinv.hLen a b hclean
  · intro a b hclean i j hj
    by_cases hA : d = a ∧ dp = b
    · obtain ⟨h5, h6⟩ := hA
      rw [← h5] at hj
      rw [← h6] at hj ⊢
      rw [hcnt]
      obtain ⟨hi, k, hk1, hk2, hcond⟩ := (hchar i j).mp hj
      exact hinv.hBound dpp dp hsrc2 k j hk2
    · rw [hFf a b hA] at hclean
      rw [hicf a b hA i] at hj
      rw [hcnt]
      exact hinv.hBound a b hclean i j hj
  · intro a b hab hcl1 hcl2 i j
    by_cases hA : d = a ∧ dp = b
    · exfalso
      obtain ⟨h5, h6⟩ := hA
      rw [← h5, ← h6] at hcl2
      rw [hFf dp d (fun hy => by omega)] at hcl2
      have hclean2 := hinv.hU dp d (by omega) hcl2
      rw [hclean2] at htarget
      exact absurd htarget (by simp)
    · by_cases hB2 : d = b ∧ dp = a
      · exfalso
        obtain ⟨h5, h6⟩ := hB2
        rw [← h5, ← h6] at hcl1
        rw [hFf dp d (fun hy => by omega)] at hcl1
        have hclean2 := hinv.hU dp d (by omega) hcl1
        rw [hclean2] at htarget
        exact absurd htarget (by simp)
      · rw [hicf a b hA i, hicf b a hB2 j]
        rw [hFf a b hA] at hcl1
        rw [hFf b a hB2] at hcl2
        exact hinv.hSym a b hab hcl1 hcl2 i j
  · intro a b hba hb0 hclean i j hj
    by_cases hA : d = a ∧ dp = b
    · obtain ⟨h5, h6⟩ := hA
      rw [← h5] at hj ⊢
      rw [← h6] at hj ⊢
      obtain ⟨hi, k, hk1, hk2, hcond⟩ := (hchar i j).mp hj
      rcases hcond with ⟨heq, _⟩ | ⟨_, hsub⟩
      · exfalso
        omega
      · rw [hicf dp 0 (fun hy => by omega) j, hicf d 0 (fun hy => by omega) i]
        exact hsub
    · rw [hFf a b hA] at hclean
      rw [hicf a b hA i] at hj
      rw [hicf b 0 (by rcases hshape with hS | hS | hS <;> omega) j,
        hicf a 0 (by rcases hshape with hS | hS | hS <;> omega) i]
      exact hinv.hSub a b hba hb0 hclean i j hj
  · intro a ha e he
    rw [hIxe] at he
    rw [hcnt]
    exact hinv.hIdxVal a ha e he
  · intro a ha0 ha e he
    rw [hIxe] at he
    rw [hCf a 0 (by rcases hshape with hS | hS | hS <;> omega)]
    exact hinv.hIdxRow a ha0 ha e he
  · intro a ha0 ha
    rw [hGme, hcnt]
    exact hinv.hGeomLen a ha0 ha
  · intro a ha0 ha
    rw [hCf a 0 (by rcases hshape with hS | hS | hS <;> omega), hcnt]
    exact hinv.hConn0Len a ha0 ha
  · intro a ha0 ha hd0
    rw [hFf a 0 (by rcases hshape with hS | hS | hS <;> omega)] at hd0
    rw [hcnt]
    exact hinv.hCnt0 a ha0 ha hd0
  · intro i hi
    rw [hcnt] at hi
    obtain ⟨p, hp1, hp2, hp3, hp4, hp5⟩ := hinv.hCell i hi
    refine ⟨p, ?_, ?_, ?_, hp4, ?_⟩
    · rw [hIxe]
      exact hp1
    · rw [hGme]
      exact hp2
    · rw [hGme]
      exact hp3
    · rw [hCf maxD 0 (by rcases hshape with hS | hS | hS <;> omega)]
      exact hp5

end Connectivity

namespace Connectivity

/-! ### Sub-polytope tuples draw their vertices from the cell tuple -/

theorem chk_ok_inv {b : Bool} {msg : String} {f : Unit → Except String α} {r : α}
    (h : (chk b msg >>= f) = .ok r) : b = true ∧ f () = .ok r := by
  cases hb : b
  · rw [hb] at h
    simp [chk] at h
  · rw [chk_true hb, ok_bind] at h
    exact ⟨rfl, h⟩

theorem beq_false_of_ne {a b : Nat} (h : a ≠ b) : (a == b) = false := by
  cases hq : a == b
  · rfl
  · exact absurd (show a = b by simpa using hq) h

theorem getD_mem_of_lt {l : List Nat} {m : Nat} (h : m < l.length) : l.getD m 0 ∈ l := by
  rw [List.getD_eq_getElem l 0 h]
  exact List.getElem_mem h

theorem tuple_mem (ms : List Nat) {p : List Nat} (hms : ∀ m ∈ ms, m < p.length) :
    ∀ v ∈ ms.map fun m => p.getD m 0, v ∈ p := by
  intro v hv
  obtain ⟨m, hm, rfl⟩ := List.mem_map.mp hv
  exact getD_mem_of_lt (hms m hm)

/-- Every vertex of every sub-polytope returned by `getSubPolytopes` for a
positive dimension is a vertex of the cell's own tuple. -/
theorem getSubPolytopes_mem {s : Connectivity} {i dim : Nat}
    {subs : List (PolytopeType × List Nat)} {p : List Nat}
    (hp : s.getPolytope s.getMeshDimension i = some p)
    (hdim : 0 < dim)
    (h : s.getSubPolytopes i dim = .ok subs) :
    ∀ gv ∈ subs, ∀ v ∈ gv.2, v ∈ p := by
  simp only [getSubPolytopes, hp, ok_bind, pure_eq_ok] at h
  cases hgty : (s.geometry.getD s.getMeshDimension []).getD i PolytopeType.point <;>
    simp only [hgty] at h
  case point =>
    obtain ⟨hb, h⟩ := chk_ok_inv h
    exact absurd (show dim = 0 by simpa using hb) (by omega)
  case segment =>
    obtain ⟨hb1, h⟩ := chk_ok_inv h
    obtain ⟨hb2, h⟩ := chk_ok_inv h
    have hplen : p.length = 2 := by simpa using hb2
    rw [if_bool_false (beq_false_of_ne (by omega))] at h
    by_cases hd1 : dim = 1
    · rw [if_bool_true (by rw [hd1]; rfl)] at h
      simp only [pure_eq_ok, Except.ok.injEq] at h
      rw [← h]
      intro gv hgv
      fin_cases hgv
      exact fun v hv => hv
    · rw [if_bool_false (beq_false_of_ne hd1)] at h
      simp at h
  case triangle =>
    obtain ⟨hb1, h⟩ := chk_ok_inv h
    obtain ⟨hb2, h⟩ := chk_ok_inv h
    have hplen : p.length = 3 := by simpa using hb2
    rw [if_bool_false (beq_false_of_ne (by omega))] at h
    by_cases hd1 : dim = 1
    · rw [if_bool_true (by rw [hd1]; rfl)] at h
      simp only [pure_eq_ok, Except.ok.injEq] at h
      rw [← h]
      intro gv hgv
      fin_cases hgv
      · exact tuple_mem [0, 1] (by intro m hm; simp at hm; omega)
      · exact tuple_mem [1, 2] (by intro m hm; simp at hm; omega)
      · exact tuple_mem [2, 0] (by intro m hm; simp at hm; omega)
    · rw [if_bool_false (beq_false_of_ne hd1)] at h
      by_cases hd2 : dim = 2
      · rw [if_bool_true (by rw [hd2]; rfl)] at h
        simp only [pure_eq_ok, Except.ok.injEq] at h
        rw [← h]
        intro gv hgv
        fin_cases hgv
        exact fun v hv => hv
      · rw [if_bool_false (beq_false_of_ne hd2)] at h
        simp at h
  case quadrilateral =>
    obtain ⟨hb1, h⟩ := chk_ok_inv h
    obtain ⟨hb2, h⟩ := chk_ok_inv h
    have hplen : p.length = 4 := by simpa using hb2
    rw [if_bool_false (beq_false_of_ne (by omega))] at h
    by_cases hd1 : dim = 1
    · rw [if_bool_true (by rw [hd1]; rfl)] at h
      simp only [pure_eq_ok, Except.ok.injEq] at h
      rw [← h]
      intro gv hgv
      fin_cases hgv
      · exact tuple_mem [0, 1] (by intro m hm; simp at hm; omega)
      · exact tuple_mem [1, 3] (by intro m hm; simp at hm; omega)
      · exact tuple_mem [3, 2] (by intro m hm; simp at hm; omega)
      · exact tuple_mem [2, 0] (by intro m hm; simp at hm; omega)
    · rw [if_bool_false (beq_false_of_ne hd1)] at h
      by_cases hd2 : dim = 2
      · rw [if_bool_true (by rw [hd2]; rfl)] at h
        simp only [pure_eq_ok, Except.ok.injEq] at h
        rw [← h]
        intro gv hgv
        fin_cases hgv
        exact fun v hv => hv
      · rw [if_bool_false (beq_false_of_ne hd2)] at h
        simp at h
  case tetrahedron =>
    obtain ⟨hb1, h⟩ := chk_ok_inv h
    obtain ⟨hb2, h⟩ := chk_ok_inv h
    have hplen : p.length = 4 := by simpa using hb2
    rw [if_bool_false (beq_false_of_ne (by omega))] at h
    by_cases hd1 : dim = 1
    · rw [if_bool_true (by rw [hd1]; rfl)] at h
      simp only [pure_eq_ok, Except.ok.injEq] at h
      rw [← h]
      intro gv hgv
      fin_cases hgv
      · exact tuple_mem [0, 1] (by intro m hm; simp at hm; omega)
      · exact tuple_mem [0, 2] (by intro m hm; simp at hm; omega)
      · exact tuple_mem [1, 2] (by intro m hm; simp at hm; omega)
      · exact tuple_mem [1, 3] (by intro m hm; simp at hm; omega)
      · exact tuple_mem [2, 3] (by intro m hm; simp at hm; omega)
      · exact tuple_mem [3, 0] (by intro m hm; simp at hm; omega)
    · rw [if_bool_false (beq_false_of_ne hd1)] at h
      by_cases hd2 : dim = 2
      · rw [if_bool_true (by rw [hd2]; rfl)] at h
        simp only [pure_eq_ok, Except.ok.injEq] at h
        rw [← h]
        intro gv hgv
        fin_cases hgv
        · exact tuple_mem [0, 1, 3] (by intro m hm; simp at hm; omega)
        · exact tuple_mem [0, 1, 2] (by intro m hm; simp at hm; omega)
        · exact tuple_mem [0, 2, 3] (by intro m hm; simp at hm; omega)
        · exact tuple_mem [1, 2, 3] (by intro m hm; simp at hm; omega)
      · rw [if_bool_false (beq_false_of_ne hd2)] at h
        by_cases hd3 : dim = 3
        · rw [if_bool_true (by rw [hd3]; rfl)] at h
          simp only [pure_eq_ok, Except.ok.injEq] at h
          rw [← h]
          intro gv hgv
          fin_cases hgv
          exact fun v hv => hv
        · rw [if_bool_false (beq_false_of_ne hd3)] at h
          simp at h
  case triangularPrism =>
    obtain ⟨hb1, h⟩ := chk_ok_inv h
    obtain ⟨hb2, h⟩ := chk_ok_inv h
    have hplen : p.length = 6 := by simpa using hb2
    rw [if_bool_false (beq_false_of_ne (by omega))] at h
    by_cases hd1 : dim = 1
    · rw [if_bool_true (by rw [hd1]; rfl)] at h
      simp only [pure_eq_ok, Except.ok.injEq] at h
      rw [← h]
      intro gv hgv
      fin_cases hgv
      · exact tuple_mem [0, 1] (by intro m hm; simp at hm; omega)
      · exact tuple_mem [0, 2] (by intro m hm; simp at hm; omega)
      · exact tuple_mem [0, 3] (by intro m hm; simp at hm; omega)
      · exact tuple_mem [1, 2] (by intro m hm; simp at hm; omega)
      · exact tuple_mem [1, 4] (by intro m hm; simp at hm; omega)
      · exact tuple_mem [2, 5] (by intro m hm; simp at hm; omega)
      · exact tuple_mem [3, 4] (by intro m hm; simp at hm; omega)
      · exact tuple_mem [3, 5] (by intro m hm; simp at hm; omega)
      · exact tuple_mem [4, 5] (by intro m hm; simp at hm; omega)
    · rw [if_bool_false (beq_false_of_ne hd1)] at h
      by_cases hd2 : dim = 2
      · rw [if_bool_true (by rw [hd2]; rfl)] at h
        simp only [pure_eq_ok, Except.ok.injEq] at h
        rw [← h]
        intro gv hgv
        fin_cases hgv
        · exact tuple_mem [0, 1, 2] (by intro m hm; simp at hm; omega)
        · exact tuple_mem [0, 1, 3, 4] (by intro m hm; simp at hm; omega)
        · exact tuple_mem [1, 2, 4, 5] (by intro m hm; simp at hm; omega)
        · exact tuple_mem [2, 0, 5, 3] (by intro m hm; simp at hm; omega)
        · exact tuple_mem [3, 4, 5] (by intro m hm; simp at hm; omega)
      · rw [if_bool_false (beq_false_of_ne hd2)] at h
        by_cases hd3 : dim = 3
        · rw [if_bool_true (by rw [hd3]; rfl)] at h
          simp only [pure_eq_ok, Except.ok.injEq] at h
          rw [← h]
          intro gv hgv
          fin_cases hgv
          exact fun v hv => hv
        · rw [if_bool_false (beq_false_of_ne hd3)] at h
          simp at h

end Connectivity

namespace Connectivity

/-! ### The state invariant maintained while `build d` registers entities -/

theorem getD_snoc (l : List α) (v : α) (i : Nat) (dflt : α) :
    (l ++ [v]).getD i dflt =
      if i < l.length then l.getD i dflt else if i = l.length then v else dflt := by
  rcases Nat.lt_trichotomy i l.length with h | h | h
  · rw [if_pos h, List.getD_append _ _ _ _ h]
  · rw [if_neg (by omega), if_pos h]
    subst h
    rw [List.getD_append_right _ _ _ _ (le_refl _)]
    simp
  · rw [if_neg (by omega), if_neg (by omega)]
    rw [List.getD_eq_default _ _ (by simp; omega)]

theorem getD_append_lt (l l' : List α) (i : Nat) (dflt : α) (h : i < l.length) :
    (l ++ l').getD i dflt = l.getD i dflt :=
  List.getD_append _ _ _ _ h

theorem leftFind_some {top : Bool} {m : List (List Nat × Nat)} {k : List Nat} {idx : Nat}
    (h : leftFind top m k = some idx) :
    ∃ e ∈ m, keyMatch top e.1 k = true ∧ e.2 = idx := by
  unfold leftFind at h
  cases hf : m.find? fun e => keyMatch top e.1 k with
  | none =>
    rw [hf] at h
    simp at h
  | some e =>
    rw [hf] at h
    simp at h
    have hpe : keyMatch top e.1 k = true := by
      have hq := List.find?_some hf
      simpa using hq
    exact ⟨e, List.mem_of_find?_eq_some hf, hpe, h⟩

theorem keyMatch_set_eq {a b : List Nat} (h : keyMatch false a b = true) :
    a.toFinset = b.toFinset := by
  unfold keyMatch at h
  simp at h
  exact h

/-- The mesh dimension of any state whose count vector has `maxD + 1`
entries with a nonzero top entry. -/
theorem getMeshDimension_of_top {maxD : Nat} {s : Connectivity}
    (hlen : s.count.length = maxD + 1) (htop : 0 < s.getCount maxD) :
    s.getMeshDimension = maxD := by
  rw [getMeshDimension_eq, hlen]
  simp only [Nat.add_sub_cancel]
  refine meshDimAux_det _ maxD maxD (le_refl _) htop ?_
  intro i h1 h2
  omega

/-- The part of the `build d` loop invariant that constrains the state:
away from the `(maxD, d)` and `(d, 0)` slots everything agrees with the
entry state `s`, and the dimension-`d` registry (count, vertex rows,
geometry row, bimap) is internally consistent. -/
structure DimQ (maxD n d : Nat) (s t : Connectivity) : Prop where
  qmax : t.maximalDimension = s.maximalDimension
  qcountlen : t.count.length = s.count.length
  qcount : ∀ x, x ≠ d → t.count.getD x 0 = s.count.getD x 0
  qdirty : t.dirty = s.dirty
  qlog : t.log = s.log
  qgclen : t.gcount.length = s.gcount.length
  qconnlen : t.conn.length = s.conn.length
  qconnrow : ∀ a, (t.conn.getD a []).length = (s.conn.getD a []).length
  qconn : ∀ a b, ¬ (a = maxD ∧ b = d) → ¬ (a = d ∧ b = 0) → t.incidence a b = s.incidence a b
  qindexlen : t.index.length = s.index.length
  qindex : ∀ x, x ≠ d → t.index.getD x [] = s.index.getD x []
  qgeomlen : t.geometry.length = s.geometry.length
  qgeom : ∀ x, x ≠ d → t.geometry.getD x [] = s.geometry.getD x []
  qd0len : (t.incidence d 0).length = t.getCount d
  qgdlen : (t.geometry.getD d []).length = t.getCount d
  qidx : ∀ e ∈ t.index.getD d [], e.2 < t.getCount d ∧
    (t.incidence d 0).getD e.2 ∅ = e.1.toFinset ∧ ∀ v ∈ e.1, v < n
  qvert : ∀ i j, j ∈ (t.incidence d 0).getD i ∅ → j < n

end Connectivity

namespace Connectivity

/-- One sub-polytope registration (`localFold`) preserves `DimQ`, leaves the
`(maxD, d)` slot and the existing `(d, 0)` rows untouched, grows the count
monotonically, and adds to the accumulator an identifier whose ground-truth
row is exactly the registered vertex set. -/
theorem localFold_reg {maxD n d : Nat} {s t t' : Connectivity} {out : Finset Nat}
    {g : PolytopeType} {vertices : List Nat} {sset : Finset Nat}
    (hinv : Inv maxD n s) (hq : DimQ maxD n d s t)
    (hd0 : 0 < d) (hdD : d < maxD)
    (hvn : ∀ v ∈ vertices, v < n)
    (hr : localFold d maxD (t, sset) (g, vertices) = (t', out)) :
    DimQ maxD n d s t' ∧
    t'.incidence maxD d = t.incidence maxD d ∧
    t.getCount d ≤ t'.getCount d ∧
    (∀ j, j < t.getCount d → (t'.incidence d 0).getD j ∅ = (t.incidence d 0).getD j ∅) ∧
    ∃ idx, out = insert idx sset ∧ idx < t'.getCount d ∧
      (t'.incidence d 0).getD idx ∅ = vertices.toFinset := by
  have htmax : t.maximalDimension = maxD := hq.qmax.trans hinv.hmax
  have hbeq : (d == t.maximalDimension) = false := beq_false_of_ne (by omega)
  have hcountlen : t.count.length = maxD + 1 := hq.qcountlen.trans hinv.hcountlen
  have hconnlen : t.conn.length = maxD + 1 := hq.qconnlen.trans hinv.hconnlen
  have hconnrow : ∀ a, a ≤ maxD → (t.conn.getD a []).length = maxD + 1 :=
    fun a ha => (hq.qconnrow a).trans (hinv.hconnrow a ha)
  have hgeomlen : t.geometry.length = maxD + 1 := hq.qgeomlen.trans hinv.hgeomlen
  have hindexlen : t.index.length = maxD + 1 := hq.qindexlen.trans hinv.hindexlen
  rcases hlf : leftFind (d == t.maximalDimension) (t.index.getD d []) vertices with _ | idx0
  · -- no key match: fresh registration
    have hrf : (t.index.getD d []).find? (fun e => e.2 == t.getCount d) = none := by
      apply List.find?_eq_none.mpr
      intro e he hbe
      have h1 := (hq.qidx e he).1
      have h2 : e.2 = t.getCount d := by simpa using hbe
      omega
    have hbm : bimapInsert (d == t.maximalDimension) (t.index.getD d []) vertices
        (t.getCount d) =
        (t.index.getD d [] ++ [(vertices, t.getCount d)], t.getCount d, true) := by
      unfold bimapInsert
      rw [hlf, hrf]
      rfl
    have hdD2 : (d == maxD || d == 0) = false := by
      have e1 : (d == maxD) = false := beq_false_of_ne (by omega)
      have e2 : (d == 0) = false := beq_false_of_ne (by omega)
      rw [e1, e2]
      rfl
    simp only [localFold, hbm, if_true, if_bool_false hdD2, Prod.mk.injEq] at hr
    obtain ⟨ht', hout⟩ := hr
    have hconn' : t'.conn = set2 t.conn d 0 (t.incidence d 0 ++ [vertices.toFinset]) := by
      rw [← ht']
    have hcount' : t'.count = t.count.set d (t.getCount d + 1) := by
      rw [← ht']
    have hindex' : t'.index = t.index.set d (t.index.getD d [] ++ [(vertices, t.getCount d)]) := by
      rw [← ht']
    have hgeom' : t'.geometry = t.geometry.set d (t.geometry.getD d [] ++ [g]) := by
      rw [← ht']
    have hmax' : t'.maximalDimension = t.maximalDimension := by rw [← ht']
    have hdirty' : t'.dirty = t.dirty := by rw [← ht']
    have hlog' : t'.log = t.log := by rw [← ht']
    have hcnt' : t'.getCount d = t.getCount d + 1 := by
      unfold getCount
      rw [hcount']
      exact getD_set_self _ _ _ _ (by omega)
    have hcntx : ∀ x, x ≠ d → t'.getCount x = t.getCount x := by
      intro x hx
      unfold getCount
      rw [hcount']
      exact getD_set_ne _ _ _ (fun hc => hx hc.symm)
    have hrow' : t'.incidence d 0 = t.incidence d 0 ++ [vertices.toFinset] := by
      unfold incidence
      rw [hconn']
      exact get2_set2_self _ _ _ _ _ (by omega) (by rw [hconnrow d (by omega)]; omega)
    have hrowx : ∀ a b, ¬ (a = d ∧ b = 0) → t'.incidence a b = t.incidence a b := by
      intro a b hab
      unfold incidence
      rw [hconn']
      exact get2_set2_ne _ _ _ (fun hc => hab ⟨hc.1.symm, hc.2.symm⟩)
    have hidxrow' : t'.index.getD d [] = t.index.getD d [] ++ [(vertices, t.getCount d)] := by
      rw [hindex']
      exact getD_set_self _ _ _ _ (by omega)
    have hgeomrow' : t'.geometry.getD d [] = t.geometry.getD d [] ++ [g] := by
      rw [hgeom']
      exact getD_set_self _ _ _ _ (by omega)
    refine ⟨?_, ?_, ?_, ?_, ?_⟩
    · refine DimQ.mk ?_ ?_ ?_ ?_ ?_ ?_ ?_ ?_ ?_ ?_ ?_ ?_ ?_ ?_ ?_ ?_ ?_
      · rw [hmax']
        exact hq.qmax
      · rw [hcount', List.length_set]
        exact hq.qcountlen
      · intro x hx
        rw [hcount', getD_set_ne _ _ _ (fun hc => hx hc.symm)]
        exact hq.qcount x hx
      · rw [hdirty']
        exact hq.qdirty
      · rw [hlog']
        exact hq.qlog
      · have hgc' : t'.gcount = t.gcount.set (tindex g) (t.gcount.getD (tindex g) 0 + 1) := by
          rw [← ht']
        rw [hgc', List.length_set]
        exact hq.qgclen
      · rw [hconn', length_set2]
        exact hq.qconnlen
      · intro a
        rw [hconn', row_length_set2]
        exact hq.qconnrow a
      · intro a b ha hb
        rw [hrowx a b (fun hc => hb ⟨hc.1, hc.2⟩)]
        exact hq.qconn a b ha hb
      · rw [hindex', List.length_set]
        exact hq.qindexlen
      · intro x hx
        rw [hindex', getD_set_ne _ _ _ (fun hc => hx hc.symm)]
        exact hq.qindex x hx
      · rw [hgeom', List.length_set]
        exact hq.qgeomlen
      · intro x hx
        rw [hgeom', getD_set_ne _ _ _ (fun hc => hx hc.symm)]
        exact hq.qgeom x hx
      · rw [hrow', hcnt', List.length_append, hq.qd0len]
        rfl
      · rw [hgeomrow', hcnt', List.length_append, hq.qgdlen]
        rfl
      · intro e he
        rw [hidxrow'] at he
        rw [List.mem_append] at he
        rcases he with he | he
        · obtain ⟨e1, e2, e3⟩ := hq.qidx e he
          refine ⟨by omega, ?_, e3⟩
          rw [hrow', getD_append_lt _ _ _ _ (by rw [hq.qd0len]; omega)]
          exact e2
        · rw [List.mem_singleton] at he
          subst he
          refine ⟨by simp [hcnt'], ?_, hvn⟩
          rw [hrow', getD_snoc, hq.qd0len]
          rw [if_neg (by omega), if_pos rfl]
      · intro i j hj
        rw [hrow', getD_snoc] at hj
        split at hj
        · exact hq.qvert i j hj
        · split at hj
          · rw [List.mem_toFinset] at hj
            exact hvn j hj
          · exact absurd hj (Finset.not_mem_empty j)
    · exact hrowx maxD d (fun hc => by omega)
    · omega
    · intro j hjlt
      rw [hrow', getD_append_lt _ _ _ _ (by rw [hq.qd0len]; omega)]
    · refine ⟨t.getCount d, hout.symm, by omega, ?_⟩
      rw [hrow', getD_snoc, hq.qd0len, if_neg (by omega), if_pos rfl]
  · -- key matched an existing entry: no state change
    have hbm : bimapInsert (d == t.maximalDimension) (t.index.getD d []) vertices
        (t.getCount d) = (t.index.getD d [], idx0, false) := by
      unfold bimapInsert
      rw [hlf]
    simp only [localFold, hbm, Bool.false_eq_true, if_false, Prod.mk.injEq] at hr
    obtain ⟨ht', hout⟩ := hr
    obtain ⟨e, he, hkey, hidx⟩ := leftFind_some hlf
    have hkey2 : e.1.toFinset = vertices.toFinset := by
      rw [hbeq] at hkey
      exact keyMatch_set_eq hkey
    obtain ⟨e1, e2, _⟩ := hq.qidx e he
    rw [← ht']
    refine ⟨hq, rfl, le_refl _, fun j _ => rfl, idx0, hout.symm, by omega, ?_⟩
    rw [← hidx, e2, hkey2]

end Connectivity

namespace Connectivity

/-- The sub-polytope registration fold of one `local(i, d)` call: `DimQ` is
preserved, the `(maxD, d)` slot and the pre-existing `(d, 0)` rows are
untouched, the count grows monotonically, and every identifier in the
accumulated set points at a ground-truth row included in `p0`. -/
theorem localFold_reg_list {maxD n d : Nat} {s : Connectivity} {p0 : Finset Nat}
    (hinv : Inv maxD n s) (hd0 : 0 < d) (hdD : d < maxD) :
    ∀ (subs : List (PolytopeType × List Nat)) (t : Connectivity) (sset : Finset Nat),
      DimQ maxD n d s t →
      (∀ gv ∈ subs, (∀ v ∈ gv.2, v < n) ∧ gv.2.toFinset ⊆ p0) →
      (∀ j ∈ sset, j < t.getCount d ∧ (t.incidence d 0).getD j ∅ ⊆ p0) →
      DimQ maxD n d s (subs.foldl (localFold d maxD) (t, sset)).1 ∧
      (subs.foldl (localFold d maxD) (t, sset)).1.incidence maxD d = t.incidence maxD d ∧
      t.getCount d ≤ (subs.foldl (localFold d maxD) (t, sset)).1.getCount d ∧
      (∀ j, j < t.getCount d →
        ((subs.foldl (localFold d maxD) (t, sset)).1.incidence d 0).getD j ∅ =
          (t.incidence d 0).getD j ∅) ∧
      (∀ j ∈ (subs.foldl (localFold d maxD) (t, sset)).2,
        j < (subs.foldl (localFold d maxD) (t, sset)).1.getCount d ∧
        ((subs.foldl (localFold d maxD) (t, sset)).1.incidence d 0).getD j ∅ ⊆ p0) := by
  intro subs
  induction subs with
  | nil =>
    intro t sset hq _ hset
    exact ⟨hq, rfl, le_refl _, fun j _ => rfl, hset⟩
  | cons gv subs ih =>
    intro t sset hq hsubs hset
    rw [List.foldl_cons]
    obtain ⟨hv1, hv2⟩ := hsubs gv (List.mem_cons_self gv subs)
    rcases hstep : localFold d maxD (t, sset) gv with ⟨t1, out1⟩
    have hgv : localFold d maxD (t, sset) (gv.1, gv.2) = (t1, out1) := by
      rw [show ((gv.1, gv.2) : PolytopeType × List Nat) = gv from rfl]
      exact hstep
    obtain ⟨hq1, hDd1, hle1, hrows1, idx, hout1, hidxlt, hidxrow⟩ :=
      localFold_reg hinv hq hd0 hdD hv1 hgv
    have hset1 : ∀ j ∈ out1, j < t1.getCount d ∧ (t1.incidence d 0).getD j ∅ ⊆ p0 := by
      intro j hj
      rw [hout1] at hj
      rcases Finset.mem_insert.mp hj with rfl | hj
      · exact ⟨hidxlt, by rw [hidxrow]; exact hv2⟩
      · obtain ⟨hjlt, hjsub⟩ := hset j hj
        refine ⟨by omega, ?_⟩
        rw [hrows1 j hjlt]
        exact hjsub
    obtain ⟨r1, r2, r3, r4, r5⟩ := ih t1 out1 hq1
      (fun g hg => hsubs g (List.mem_cons_of_mem gv hg)) hset1
    refine ⟨r1, r2.trans hDd1, le_trans hle1 r3, ?_, r5⟩
    intro j hjlt
    rw [r4 j (by omega), hrows1 j hjlt]

end Connectivity

namespace Connectivity

/-- `local(k, d)` under the build invariant: `DimQ` is preserved, one row
is appended to the `(maxD, d)` slot, and every row of that slot keeps
pointing at registered entities whose ground-truth vertex rows are included
in the owning cell's ground-truth vertex set. -/
theorem localStep_inv {maxD n d k : Nat} {s t t' : Connectivity}
    (hinv : Inv maxD n s) (hq : DimQ maxD n d s t)
    (hd0 : 0 < d) (hdD : d < maxD)
    (hlen : (t.incidence maxD d).length = k)
    (hDd : ∀ i j, j ∈ (t.incidence maxD d).getD i ∅ →
      j < t.getCount d ∧ (t.incidence d 0).getD j ∅ ⊆ (s.incidence maxD 0).getD i ∅)
    (hk : k < s.getCount maxD)
    (h : localStep k d t = .ok t') :
    DimQ maxD n d s t' ∧ (t'.incidence maxD d).length = k + 1 ∧
    (∀ i j, j ∈ (t'.incidence maxD d).getD i ∅ →
      j < t'.getCount d ∧ (t'.incidence d 0).getD j ∅ ⊆ (s.incidence maxD 0).getD i ∅) := by
  have htopt : 0 < t.getCount maxD := by
    unfold getCount
    rw [hq.qcount maxD (by omega)]
    exact hinv.htop
  have hDt : t.getMeshDimension = maxD :=
    getMeshDimension_of_top (hq.qcountlen.trans hinv.hcountlen) htopt
  obtain ⟨p, hp1, hp2, hp3, hp4, hp5⟩ := hinv.hCell k hk
  simp only [localStep, hDt] at h
  obtain ⟨u1, hc1, h⟩ := bind_eq_ok h
  obtain ⟨u2, hc2, h⟩ := bind_eq_ok h
  obtain ⟨subs, hsubs, h⟩ := bind_eq_ok h
  have hpT : t.getPolytope t.getMeshDimension k = some p := by
    unfold getPolytope
    rw [hDt, hq.qindex maxD (by omega)]
    exact hp1
  have hmem := getSubPolytopes_mem hpT hd0 hsubs
  have hsubv : ∀ gv ∈ subs, (∀ v ∈ gv.2, v < n) ∧
      gv.2.toFinset ⊆ (s.incidence maxD 0).getD k ∅ := by
    intro gv hg
    refine ⟨fun v hv => hp4 v (hmem gv hg v hv), ?_⟩
    intro x hx
    rw [List.mem_toFinset] at hx
    rw [hp5, List.mem_toFinset]
    exact hmem gv hg x hx
  rcases hfold : subs.foldl (localFold d maxD) (t, (∅ : Finset Nat)) with ⟨t1, sset⟩
  obtain ⟨r1, r2, r3, r4, r5⟩ := localFold_reg_list hinv hd0 hdD subs t ∅ hq hsubv
    (fun j hj => absurd hj (Finset.not_mem_empty j))
  rw [hfold] at r1 r2 r3 r4 r5
  dsimp only at r1 r2 r3 r4 r5
  rw [hfold] at h
  simp only [pure_eq_ok, Except.ok.injEq] at h
  have hconn' : t'.conn = set2 t1.conn maxD d (t1.incidence maxD d ++ [sset]) := by
    rw [← h]
  have hcount' : t'.count = t1.count := by rw [← h]
  have hdirty' : t'.dirty = t1.dirty := by rw [← h]
  have hlog' : t'.log = t1.log := by rw [← h]
  have hgc' : t'.gcount = t1.gcount := by rw [← h]
  have hindex' : t'.index = t1.index := by rw [← h]
  have hgeom' : t'.geometry = t1.geometry := by rw [← h]
  have hmax' : t'.maximalDimension = t1.maximalDimension := by rw [← h]
  have hcnt1 : ∀ x, t'.getCount x = t1.getCount x := by
    intro x
    unfold getCount
    rw [hcount']
  have hconnlen1 : t1.conn.length = maxD + 1 := r1.qconnlen.trans hinv.hconnlen
  have hconnrow1 : ∀ a, a ≤ maxD → (t1.conn.getD a []).length = maxD + 1 :=
    fun a ha => (r1.qconnrow a).trans (hinv.hconnrow a ha)
  have hrowDd : t'.incidence maxD d = t1.incidence maxD d ++ [sset] := by
    unfold incidence
    rw [hconn']
    exact get2_set2_self _ _ _ _ _ (by omega) (by rw [hconnrow1 maxD (le_refl _)]; omega)
  have hrowx : ∀ a b, ¬ (a = maxD ∧ b = d) → t'.incidence a b = t1.incidence a b := by
    intro a b hab
    unfold incidence
    rw [hconn']
    exact get2_set2_ne _ _ _ (fun hc => hab ⟨hc.1.symm, hc.2.symm⟩)
  have hlen1 : (t1.incidence maxD d).length = k := by
    rw [r2]
    exact hlen
  refine ⟨?_, ?_, ?_⟩
  · refine DimQ.mk ?_ ?_ ?_ ?_ ?_ ?_ ?_ ?_ ?_ ?_ ?_ ?_ ?_ ?_ ?_ ?_ ?_
    · rw [hmax']
      exact r1.qmax
    · rw [hcount']
      exact r1.qcountlen
    · intro x hx
      rw [hcount']
      exact r1.qcount x hx
    · rw [hdirty']
      exact r1.qdirty
    · rw [hlog']
      exact r1.qlog
    · rw [hgc']
      exact r1.qgclen
    · rw [hconn', length_set2]
      exact r1.qconnlen
    · intro a
      rw [hconn', row_length_set2]
      exact r1.qconnrow a
    · intro a b ha hb
      rw [hrowx a b ha]
      exact r1.qconn a b ha hb
    · rw [hindex']
      exact r1.qindexlen
    · intro x hx
      rw [hindex']
      exact r1.qindex x hx
    · rw [hgeom']
      exact r1.qgeomlen
    · intro x hx
      rw [hgeom']
      exact r1.qgeom x hx
    · rw [hrowx d 0 (fun hc => by omega), hcnt1]
      exact r1.qd0len
    · rw [hgeom', hcnt1]
      exact r1.qgdlen
    · intro e he
      rw [hindex'] at he
      obtain ⟨e1, e2, e3⟩ := r1.qidx e he
      refine ⟨by rw [hcnt1]; exact e1, ?_, e3⟩
      rw [hrowx d 0 (fun hc => by omega)]
      exact e2
    · intro i j hj
      rw [hrowx d 0 (fun hc => by omega)] at hj
      exact r1.qvert i j hj
  · rw [hrowDd, List.length_append, hlen1]
    rfl
  · intro i j hj
    rw [hrowDd, getD_snoc, hlen1] at hj
    split at hj
    · rename_i hik
      rw [r2] at hj
      obtain ⟨hjlt, hjsub⟩ := hDd i j hj
      refine ⟨by rw [hcnt1]; omega, ?_⟩
      rw [hrowx d 0 (fun hc => by omega), r4 j hjlt]
      exact hjsub
    · split at hj
      · rename_i hik
        obtain ⟨hjlt, hjsub⟩ := r5 j hj
        refine ⟨by rw [hcnt1]; exact hjlt, ?_⟩
        rw [hrowx d 0 (fun hc => by omega), hik]
        exact hjsub
      · exact absurd hj (Finset.not_mem_empty j)

end Connectivity

namespace Connectivity

/-- The cell loop of `build d`, over any tail `range' k m` of the cell
range, under the build invariant. -/
theorem buildFold_inv {maxD n d : Nat} {s : Connectivity}
    (hinv : Inv maxD n s) (hd0 : 0 < d) (hdD : d < maxD) :
    ∀ (m k : Nat) {t t' : Connectivity},
      k + m ≤ s.getCount maxD →
      DimQ maxD n d s t →
      (t.incidence maxD d).length = k →
      (∀ i j, j ∈ (t.incidence maxD d).getD i ∅ →
        j < t.getCount d ∧ (t.incidence d 0).getD j ∅ ⊆ (s.incidence maxD 0).getD i ∅) →
      (List.range' k m).foldlM (fun acc i => localStep i d acc) t = .ok t' →
      DimQ maxD n d s t' ∧ (t'.incidence maxD d).length = k + m ∧
      (∀ i j, j ∈ (t'.incidence maxD d).getD i ∅ →
        j < t'.getCount d ∧ (t'.incidence d 0).getD j ∅ ⊆ (s.incidence maxD 0).getD i ∅) := by
  intro m
  induction m with
  | zero =>
    intro k t t' _ hq hlen hDd h
    simp only [List.range', List.foldlM_nil, pure_eq_ok, Except.ok.injEq] at h
    rw [← h]
    exact ⟨hq, by omega, hDd⟩
  | succ m ih =>
    intro k t t' hle hq hlen hDd h
    rw [List.range'_succ, List.foldlM_cons] at h
    obtain ⟨t1, h1, hrest⟩ := bind_eq_ok h
    obtain ⟨q1, l1, c1⟩ := localStep_inv hinv hq hd0 hdD hlen hDd (by omega) h1
    obtain ⟨a1, a2, a3⟩ := ih (k + 1) (by omega) q1 l1 c1 hrest
    exact ⟨a1, a2.trans (by omega), a3⟩

/-- `build d` from a state where the `(maxD, d)` and `(d, 0)` slots are
dirty preserves the invariant, cleans exactly those two slots, and changes
no other flag, relation slot, or count entry. -/
theorem build_inv {maxD n d : Nat} {s s' : Connectivity}
    (hinv : Inv maxD n s) (hd0 : 0 < d) (hdD : d < maxD)
    (hDdirty : s.dirty2 maxD d = true) (h0dirty : s.dirty2 d 0 = true)
    (h : build d s = .ok s') :
    Inv maxD n s' ∧
    s'.dirty2 maxD d = false ∧ s'.dirty2 d 0 = false ∧
    (∀ a b, ¬ (a = maxD ∧ b = d) → ¬ (a = d ∧ b = 0) → s'.dirty2 a b = s.dirty2 a b) ∧
    (∀ a b, ¬ (a = maxD ∧ b = d) → ¬ (a = d ∧ b = 0) → s'.incidence a b = s.incidence a b) ∧
    (∀ x, x ≠ d → s'.count.getD x 0 = s.count.getD x 0) ∧
    s'.count.length = s.count.length ∧ s'.log = s.log := by
  have hmaxd1 := hinv.hmaxd1
  simp only [build, Inv.meshDim hinv] at h
  obtain ⟨u1, hc1, h⟩ := bind_eq_ok h
  obtain ⟨u2, hc2, h⟩ := bind_eq_ok h
  obtain ⟨u3, hc3, h⟩ := bind_eq_ok h
  obtain ⟨u4, hc4, h⟩ := bind_eq_ok h
  obtain ⟨t1, hfold, hfin⟩ := bind_eq_ok h
  simp only [pure_eq_ok, Except.ok.injEq] at hfin
  rw [List.range_eq_range'] at hfold
  have hq0 : DimQ maxD n d s s := by
    refine DimQ.mk rfl rfl (fun _ _ => rfl) rfl rfl rfl rfl (fun _ => rfl)
      (fun _ _ _ _ => rfl) rfl (fun _ _ => rfl) rfl (fun _ _ => rfl) ?_ ?_ ?_ ?_
    · rw [hinv.hEmpty d 0 h0dirty, hinv.hCnt0 d hd0 hdD h0dirty]
      rfl
    · rw [hinv.hGeomLen d hd0 (by omega)]
    · intro e he
      exact absurd (hinv.hIdxVal d (by omega) e he)
        (by rw [hinv.hCnt0 d hd0 hdD h0dirty]; omega)
    · intro i j hj
      rw [hinv.hEmpty d 0 h0dirty] at hj
      simp at hj
  obtain ⟨qf, lf, cf⟩ := buildFold_inv hinv hd0 hdD (s.getCount maxD) 0 (by omega) hq0
    (by rw [hinv.hEmpty maxD d hDdirty]; rfl)
    (by intro i j hj; rw [hinv.hEmpty maxD d hDdirty] at hj; simp at hj) hfold
  have hsd : s'.dirty = set2 (set2 s.dirty maxD d false) d 0 false := by
    rw [← hfin]
    show set2 (set2 t1.dirty maxD d false) d 0 false = _
    rw [qf.qdirty]
  have hdl : s.dirty.length = maxD + 1 := hinv.hdirtylen
  have hdrow : ∀ a, a ≤ maxD → (s.dirty.getD a []).length = maxD + 1 := hinv.hdirtyrow
  have sd0 : s'.dirty2 d 0 = false := by
    unfold dirty2
    rw [hsd]
    exact get2_set2_self _ _ _ _ _ (by rw [length_set2, hdl]; omega)
      (by rw [row_length_set2, hdrow d (by omega)]; omega)
  have sd1 : s'.dirty2 maxD d = false := by
    unfold dirty2
    rw [hsd, get2_set2_ne _ _ _ (fun hc => by omega)]
    exact get2_set2_self _ _ _ _ _ (by rw [hdl]; omega) (by rw [hdrow maxD (le_refl _)]; omega)
  have sframe : ∀ a b, ¬ (a = maxD ∧ b = d) → ¬ (a = d ∧ b = 0) →
      s'.dirty2 a b = s.dirty2 a b := by
    intro a b h1 h2
    unfold dirty2
    rw [hsd, get2_set2_ne _ _ _ (fun hc => h2 ⟨hc.1.symm, hc.2.symm⟩),
      get2_set2_ne _ _ _ (fun hc => h1 ⟨hc.1.symm, hc.2.symm⟩)]
  have hmono : ∀ a b, s.dirty2 a b = false → s'.dirty2 a b = false := by
    intro a b hab
    by_cases h1 : a = maxD ∧ b = d
    · rw [h1.1, h1.2]
      exact sd1
    · by_cases h2 : a = d ∧ b = 0
      · rw [h2.1, h2.2]
        exact sd0
      · rw [sframe a b h1 h2]
        exact hab
  have hinv' : ∀ a b, s'.dirty2 a b = false →
      (a = maxD ∧ b = d) ∨ (a = d ∧ b = 0) ∨ s.dirty2 a b = false := by
    intro a b hab
    by_cases h1 : a = maxD ∧ b = d
    · exact Or.inl h1
    · by_cases h2 : a = d ∧ b = 0
      · exact Or.inr (Or.inl h2)
      · rw [sframe a b h1 h2] at hab
        exact Or.inr (Or.inr hab)
  have hnod : ∀ a b, s.dirty2 a b = false → a ≠ d ∧ b ≠ d := by
    intro a b hab
    constructor
    · intro hc
      rw [hc] at hab
      exact absurd ((hinv.hB d b hab).1 hd0 hdD)
        (by rw [h0dirty]; simp)
    · intro hc
      rw [hc] at hab
      exact absurd ((hinv.hB a d hab).2 hd0 hdD)
        (by rw [h0dirty]; simp)
  have hsconn : s'.conn = t1.conn := by rw [← hfin]
  have hsincid : ∀ a b, s'.incidence a b = t1.incidence a b := by
    intro a b
    unfold incidence
    rw [hsconn]
  have hsincid2 : ∀ a b, ¬ (a = maxD ∧ b = d) → ¬ (a = d ∧ b = 0) →
      s'.incidence a b = s.incidence a b := by
    intro a b h1 h2
    rw [hsincid a b]
    exact qf.qconn a b h1 h2
  have hscount : s'.count = t1.count := by rw [← hfin]
  have hcnt : ∀ x, s'.getCount x = t1.getCount x := by
    intro x
    unfold getCount
    rw [hscount]
  have hcnts : ∀ x, x ≠ d → s'.getCount x = s.getCount x := by
    intro x hx
    unfold getCount
    rw [hscount]
    exact qf.qcount x hx
  have hsindex : s'.index = t1.index := by rw [← hfin]
  have hsgeom : s'.geometry = t1.geometry := by rw [← hfin]
  have hslog : s'.log = s.log := by
    rw [← hfin]
    show t1.log = s.log
    exact qf.qlog
  have hsmax : s'.maximalDimension = t1.maximalDimension := by rw [← hfin]
  refine ⟨?_, sd1, sd0, sframe, hsincid2, ?_, ?_, hslog⟩
  · refine Inv.mk ?_ hinv.hmaxd1 ?_ ?_ ?_ ?_ ?_ ?_ ?_ ?_ ?_ ?_ ?_ ?_ ?_ ?_ ?_ ?_ ?_ ?_ ?_ ?_ ?_ ?_ ?_ ?_
    · rw [hsmax, qf.qmax]
      exact hinv.hmax
    · rw [hscount, qf.qcountlen]
      exact hinv.hcountlen
    · rw [hsconn, qf.qconnlen]
      exact hinv.hconnlen
    · intro a ha
      rw [hsconn, qf.qconnrow a]
      exact hinv.hconnrow a ha
    · rw [hsd, length_set2, length_set2]
      exact hdl
    · intro a ha
      rw [hsd, row_length_set2, row_length_set2]
      exact hdrow a ha
    · rw [hsindex, qf.qindexlen]
      exact hinv.hindexlen
    · rw [hsgeom, qf.qgeomlen]
      exact hinv.hgeomlen
    · rw [hcnts maxD (by omega)]
      exact hinv.htop
    · rw [hcnts 0 (by omega)]
      exact hinv.hn
    · rw [sframe maxD 0 (fun hc => by omega) (fun hc => by omega)]
      exact hinv.hD0
    · intro x hx1 hx2
      by_cases hxd : x = d
      · rw [hxd, sd1, sd0]
      · rw [sframe maxD x (fun hc => hxd hc.2) (fun hc => by omega),
          sframe x 0 (fun hc => by omega) (fun hc => hxd hc.1)]
        exact hinv.hL x hx1 hx2
    · intro a b hab hcl
      rcases hinv' a b hcl with ⟨h1, h2⟩ | ⟨h1, h2⟩ | hs
      · exfalso
        omega
      · exfalso
        omega
      · exact hmono b a (hinv.hU a b hab hs)
    · intro a b hcl
      rcases hinv' a b hcl with ⟨h1, h2⟩ | ⟨h1, h2⟩ | hs
      · rw [h1, h2]
        exact ⟨fun _ hx => absurd hx (by omega), fun _ _ => sd0⟩
      · rw [h1, h2]
        exact ⟨fun _ _ => sd0, fun hx => absurd hx (by omega)⟩
      · obtain ⟨p1, p2⟩ := hinv.hB a b hs
        exact ⟨fun x1 x2 => hmono a 0 (p1 x1 x2), fun x1 x2 => hmono b 0 (p2 x1 x2)⟩
    · intro a b hdirt
      by_cases h1 : a = maxD ∧ b = d
      · rw [h1.1, h1.2, sd1] at hdirt
        exact absurd hdirt (by simp)
      · by_cases h2 : a = d ∧ b = 0
        · rw [h2.1, h2.2, sd0] at hdirt
          exact absurd hdirt (by simp)
        · rw [sframe a b h1 h2] at hdirt
          rw [hsincid2 a b h1 h2]
          exact hinv.hEmpty a b hdirt
    · intro a b hcl
      rcases hinv' a b hcl with ⟨h1, h2⟩ | ⟨h1, h2⟩ | hs
      · rw [h1, h2, hsincid maxD d, hcnts maxD (by omega), lf]
        omega
      · rw [h1, h2, hsincid d 0, hcnt d]
        exact qf.qd0len
      · obtain ⟨ha, hb⟩ := hnod a b hs
        rw [hsincid2 a b (fun hc => hb hc.2) (fun hc => ha hc.1), hcnts a ha]
        exact hinv.hLen a b hs
    · intro a b hcl i j hj
      rcases hinv' a b hcl with ⟨h1, h2⟩ | ⟨h1, h2⟩ | hs
      · rw [h1, h2] at hj
        rw [h2, hcnt d]
        rw [show s'.incid maxD d i = (t1.incidence maxD d).getD i ∅ from by
          unfold incid; rw [hsincid maxD d]] at hj
        exact (cf i j hj).1
      · rw [h1, h2] at hj
        rw [h2, hcnts 0 (by omega), hinv.hn]
        rw [show s'.incid d 0 i = (t1.incidence d 0).getD i ∅ from by
          unfold incid; rw [hsincid d 0]] at hj
        exact qf.qvert i j hj
      · obtain ⟨ha, hb⟩ := hnod a b hs
        rw [show s'.incid a b i = s.incid a b i from by
          unfold incid; rw [hsincid2 a b (fun hc => hb hc.2) (fun hc => ha hc.1)]] at hj
        rw [hcnts b hb]
        exact hinv.hBound a b hs i j hj
    · intro a b hab hcl1 hcl2 i j
      rcases hinv' a b hcl1 with ⟨h1, h2⟩ | ⟨h1, h2⟩ | hs
      · exfalso
        rcases hinv' b a hcl2 with ⟨g1, g2⟩ | ⟨g1, g2⟩ | gs
        · omega
        · omega
        · exact absurd h2 (hnod b a gs).1
      · exfalso
        rcases hinv' b a hcl2 with ⟨g1, g2⟩ | ⟨g1, g2⟩ | gs
        · omega
        · omega
        · exact absurd h1 (hnod b a gs).2
      · obtain ⟨ha, hb⟩ := hnod a b hs
        rcases hinv' b a hcl2 with ⟨g1, g2⟩ | ⟨g1, g2⟩ | gs
        · exact absurd g2 ha
        · exact absurd g1 hb
        · rw [show s'.incid a b i = s.incid a b i from by
            unfold incid; rw [hsincid2 a b (fun hc => hb hc.2) (fun hc => ha hc.1)],
            show s'.incid b a j = s.incid b a j from by
            unfold incid; rw [hsincid2 b a (fun hc => ha hc.2) (fun hc => hb hc.1)]]
          exact hinv.hSym a b hab hs gs i j
    · intro a b hba hb0 hcl i j hj
      rcases hinv' a b hcl with ⟨h1, h2⟩ | ⟨h1, h2⟩ | hs
      · rw [h1, h2] at hj
        rw [show s'.incid maxD d i = (t1.incidence maxD d).getD i ∅ from by
          unfold incid; rw [hsincid maxD d]] at hj
        obtain ⟨_, hsub⟩ := cf i j hj
        rw [h1, h2]
        rw [show s'.incid d 0 j = (t1.incidence d 0).getD j ∅ from by
          unfold incid; rw [hsincid d 0],
          show s'.incid maxD 0 i = (s.incidence maxD 0).getD i ∅ from by
          unfold incid; rw [hsincid2 maxD 0 (fun hc => by omega) (fun hc => by omega)]]
        exact hsub
      · exfalso
        omega
      · obtain ⟨ha, hb⟩ := hnod a b hs
        rw [show s'.incid a b i = s.incid a b i from by
          unfold incid; rw [hsincid2 a b (fun hc => hb hc.2) (fun hc => ha hc.1)]] at hj
        rw [show s'.incid b 0 j = s.incid b 0 j from by
          unfold incid; rw [hsincid2 b 0 (fun hc => by omega) (fun hc => hb hc.1)],
          show s'.incid a 0 i = s.incid a 0 i from by
          unfold incid; rw [hsincid2 a 0 (fun hc => by omega) (fun hc => ha hc.1)]]
        exact hinv.hSub a b hba hb0 hs i j hj
    · intro a ha e he
      by_cases had : a = d
      · rw [had] at he ⊢
        rw [hsindex] at he
        rw [hcnt d]
        exact (qf.qidx e he).1
      · rw [hsindex, qf.qindex a had] at he
        rw [hcnts a had]
        exact hinv.hIdxVal a ha e he
    · intro a ha0 ha e he
      by_cases had : a = d
      · rw [had] at he ⊢
        rw [hsindex] at he
        obtain ⟨_, row, bnd⟩ := qf.qidx e he
        refine ⟨?_, bnd⟩
        rw [show s'.incidence d 0 = t1.incidence d 0 from hsincid d 0]
        exact row
      · rw [hsindex, qf.qindex a had] at he
        rw [hsincid2 a 0 (fun hc => by omega) (fun hc => had hc.1)]
        exact hinv.hIdxRow a ha0 ha e he
    · intro a ha0 ha
      by_cases had : a = d
      · rw [had, hsgeom, hcnt d]
        exact qf.qgdlen
      · rw [hsgeom, qf.qgeom a had, hcnts a had]
        exact hinv.hGeomLen a ha0 ha
    · intro a ha0 ha
      by_cases had : a = d
      · rw [had, hsincid d 0, hcnt d]
        exact qf.qd0len
      · rw [hsincid2 a 0 (fun hc => by omega) (fun hc => had hc.1), hcnts a had]
        exact hinv.hConn0Len a ha0 ha
    · intro a ha0 halt hdirt
      by_cases had : a = d
      · rw [had, sd0] at hdirt
        exact absurd hdirt (by simp)
      · rw [sframe a 0 (fun hc => by omega) (fun hc => had hc.1)] at hdirt
        rw [hcnts a had]
        exact hinv.hCnt0 a ha0 halt hdirt
    · intro i hi
      rw [hcnts maxD (by omega)] at hi
      obtain ⟨p, hp1, hp2, hp3, hp4, hp5⟩ := hinv.hCell i hi
      refine ⟨p, ?_, ?_, ?_, hp4, ?_⟩
      · rw [hsindex, qf.qindex maxD (by omega)]
        exact hp1
      · rw [hsgeom, qf.qgeom maxD (by omega)]
        exact hp2
      · rw [hsgeom, qf.qgeom maxD (by omega)]
        exact hp3
      · rw [hsincid2 maxD 0 (fun hc => by omega) (fun hc => by omega)]
        exact hp5
  · intro x hx
    rw [hscount]
    exact qf.qcount x hx
  · rw [hscount, qf.qcountlen]

end Connectivity

namespace Connectivity

/-- `Inv` only depends on the dirty matrix through its sizes and its
`dirty2` values. -/
theorem Inv_dirty_rewrite {maxD n : Nat} {s s' : Connectivity} (hinv : Inv maxD n s)
    (hmax : s'.maximalDimension = s.maximalDimension) (hcount : s'.count = s.count)
    (hconn : s'.conn = s.conn) (hindex : s'.index = s.index)
    (hgeom : s'.geometry = s.geometry)
    (hdlen : s'.dirty.length = s.dirty.length)
    (hdrow : ∀ a, (s'.dirty.getD a []).length = (s.dirty.getD a []).length)
    (hflags : ∀ a b, s'.dirty2 a b = s.dirty2 a b) : Inv maxD n s' := by
  have hincid : ∀ a b, s'.incidence a b = s.incidence a b := by
    intro a b
    unfold incidence
    rw [hconn]
  have hic : ∀ a b i, s'.incid a b i = s.incid a b i := by
    intro a b i
    unfold incid
    rw [hincid]
  have hgc : ∀ x, s'.getCount x = s.getCount x := by
    intro x
    unfold getCount
    rw [hcount]
  refine Inv.mk ?_ hinv.hmaxd1 ?_ ?_ ?_ ?_ ?_ ?_ ?_ ?_ ?_ ?_ ?_ ?_ ?_ ?_ ?_ ?_ ?_ ?_ ?_ ?_ ?_ ?_ ?_ ?_
  · rw [hmax]
    exact hinv.hmax
  · rw [hcount]
    exact hinv.hcountlen
  · rw [hconn]
    exact hinv.hconnlen
  · intro a ha
    rw [hconn]
    exact hinv.hconnrow a ha
  · rw [hdlen]
    exact hinv.hdirtylen
  · intro a ha
    rw [hdrow a]
    exact hinv.hdirtyrow a ha
  · rw [hindex]
    exact hinv.hindexlen
  · rw [hgeom]
    exact hinv.hgeomlen
  · rw [hgc]
    exact hinv.htop
  · rw [hgc]
    exact hinv.hn
  · rw [hflags]
    exact hinv.hD0
  · intro x h1 h2
    rw [hflags, hflags]
    exact hinv.hL x h1 h2
  · intro a b hab hcl
    rw [hflags] at hcl
    rw [hflags]
    exact hinv.hU a b hab hcl
  · intro a b hcl
    rw [hflags] at hcl
    obtain ⟨p1, p2⟩ := hinv.hB a b hcl
    exact ⟨fun x1 x2 => by rw [hflags]; exact p1 x1 x2,
      fun x1 x2 => by rw [hflags]; exact p2 x1 x2⟩
  · intro a b hd
    rw [hflags] at hd
    rw [hincid]
    exact hinv.hEmpty a b hd
  · intro a b hcl
    rw [hflags] at hcl
    rw [hincid, hgc]
    exact hinv.hLen a b hcl
  · intro a b hcl i j hj
    rw [hflags] at hcl
    rw [hic] at hj
    rw [hgc]
    exact hinv.hBound a b hcl i j hj
  · intro a b hab hcl1 hcl2 i j
    rw [hflags] at hcl1 hcl2
    rw [hic, hic]
    exact hinv.hSym a b hab hcl1 hcl2 i j
  · intro a b hba hb0 hcl i j hj
    rw [hflags] at hcl
    rw [hic] at hj
    rw [hic, hic]
    exact hinv.hSub a b hba hb0 hcl i j hj
  · intro a ha e he
    rw [hindex] at he
    rw [hgc]
    exact hinv.hIdxVal a ha e he
  · intro a ha0 ha e he
    rw [hindex] at he
    rw [hincid]
    exact hinv.hIdxRow a ha0 ha e he
  · intro a ha0 ha
    rw [hgeom, hgc]
    exact hinv.hGeomLen a ha0 ha
  · intro a ha0 ha
    rw [hincid, hgc]
    exact hinv.hConn0Len a ha0 ha
  · intro a ha0 ha hd
    rw [hflags] at hd
    rw [hgc]
    exact hinv.hCnt0 a ha0 ha hd
  · intro i hi
    rw [hgc] at hi
    obtain ⟨p, hp1, hp2, hp3, hp4, hp5⟩ := hinv.hCell i hi
    refine ⟨p, ?_, ?_, ?_, hp4, ?_⟩
    · rw [hindex]
      exact hp1
    · rw [hgeom]
      exact hp2
    · rw [hgeom]
      exact hp3
    · rw [hincid]
      exact hp5

/-- Re-setting an already clean flag preserves the invariant and every
flag value (the final write of `compute(d, dp)` when the relation was
derived, or was clean all along). -/
theorem redundant_flag_inv {maxD n d dp : Nat} {s : Connectivity} (hinv : Inv maxD n s)
    (hv : s.dirty2 d dp = false) :
    Inv maxD n { s with dirty := set2 s.dirty d dp false } ∧
    (∀ a b, ({ s with dirty := set2 s.dirty d dp false } : Connectivity).dirty2 a b =
      s.dirty2 a b) := by
  have hflags : ∀ a b,
      ({ s with dirty := set2 s.dirty d dp false } : Connectivity).dirty2 a b =
        s.dirty2 a b := by
    intro a b
    show get2 (set2 s.dirty d dp false) a b true = get2 s.dirty a b true
    exact get2_set2_same_val _ _ _ _ _ hv a b
  refine ⟨Inv_dirty_rewrite hinv rfl rfl rfl rfl rfl ?_ ?_ hflags, hflags⟩
  · exact length_set2 _ _ _ _
  · intro a
    exact row_length_set2 _ _ _ _ _

end Connectivity

namespace Connectivity

/-- The dimension pairs whose dirty flag a `compute(d, dp)` call may
newly clear. -/
def Uset (maxD d dp a b : Nat) : Prop :=
  (a = 0 ∧ b = maxD) ∨ (a = maxD ∧ b = maxD) ∨
  (a = d ∧ b = dp) ∨ (a = dp ∧ b = d) ∨
  ((d = 0 ∧ dp = 0 ∨ 0 < d ∧ d < maxD ∨ 0 < dp ∧ dp < maxD) ∧ a = 0 ∧ b = 0) ∨
  (0 < d ∧ d < maxD ∧ ((a = maxD ∧ b = d) ∨ (a = d ∧ b = 0) ∨ (a = 0 ∧ b = d))) ∨
  (0 < dp ∧ dp < maxD ∧ ((a = maxD ∧ b = dp) ∨ (a = dp ∧ b = 0) ∨ (a = 0 ∧ b = dp)))

/-- The `(D, D)` repair phase at the head of `compute`: the invariant is
preserved, `(maxD, maxD)` ends clean, and only `(0, maxD)` and
`(maxD, maxD)` may be newly cleaned. -/
theorem ddPhase_inv {maxD n : Nat} {s0 s1 : Connectivity} (hinv : Inv maxD n s0)
    (h : (if s0.dirty2 maxD maxD = true then
        transpose 0 maxD s0 >>= intersection maxD maxD 0
      else pure s0) = .ok s1) :
    Inv maxD n s1 ∧ s1.dirty2 maxD maxD = false ∧
    (∀ a b, s0.dirty2 a b = false → s1.dirty2 a b = false) ∧
    (∀ a b, s1.dirty2 a b = false → s0.dirty2 a b = false ∨
      (a = 0 ∧ b = maxD) ∨ (a = maxD ∧ b = maxD)) := by
  have hmaxd1 := hinv.hmaxd1
  by_cases hdd : s0.dirty2 maxD maxD = true
  · rw [if_bool_true hdd] at h
    obtain ⟨sa, hta, hia⟩ := bind_eq_ok h
    obtain ⟨hinvA, hAdd, hAframe, hAconn, hAcount, hAlog⟩ :=
      transpose_inv hinv hinv.hD0 hta
    have htarget : sa.dirty2 maxD maxD = true := by
      rw [hAframe maxD maxD (fun hc => by omega)]
      exact hdd
    have hsrc1 : sa.dirty2 maxD 0 = false := by
      rw [hAframe maxD 0 (fun hc => by omega)]
      exact hinv.hD0
    obtain ⟨hinvB, hBdd, hBframe, hBconn, hBcount, hBlog⟩ :=
      intersection_inv hinvA htarget hsrc1 hAdd (Or.inr (Or.inl ⟨rfl, rfl⟩)) hia
    refine ⟨hinvB, hBdd, ?_, ?_⟩
    · intro a b hab
      by_cases hA : a = 0 ∧ b = maxD
      · rw [hA.1, hA.2]
        by_cases hB : (maxD : Nat) = 0
        · rw [hBframe 0 maxD (fun hc => by omega)]
          exact hAdd
        · rw [hBframe 0 maxD (fun hc => by omega)]
          exact hAdd
      · by_cases hB : a = maxD ∧ b = maxD
        · rw [hB.1, hB.2]
          exact hBdd
        · rw [hBframe a b (fun hc => hB ⟨hc.1.symm, hc.2.symm⟩),
            hAframe a b (fun hc => hA ⟨hc.1.symm, hc.2.symm⟩)]
          exact hab
    · intro a b hab
      by_cases hB : a = maxD ∧ b = maxD
      · exact Or.inr (Or.inr hB)
      · rw [hBframe a b (fun hc => hB ⟨hc.1.symm, hc.2.symm⟩)] at hab
        by_cases hA : a = 0 ∧ b = maxD
        · exact Or.inr (Or.inl hA)
        · rw [hAframe a b (fun hc => hA ⟨hc.1.symm, hc.2.symm⟩)] at hab
          exact Or.inl hab
  · have hdd' : s0.dirty2 maxD maxD = false := by
      revert hdd
      cases s0.dirty2 maxD maxD <;> simp
    rw [if_bool_false hdd'] at h
    simp only [pure_eq_ok, Except.ok.injEq] at h
    rw [← h]
    exact ⟨hinv, hdd', fun a b hab => hab, fun a b hab => Or.inl hab⟩

/-- One conditional `build` phase of `compute`: the invariant is preserved
and only the interior pair `(maxD, x)`, `(x, 0)` may be newly cleaned. -/
theorem buildPhase_inv {maxD n x : Nat} {s1 s2 : Connectivity} (hinv : Inv maxD n s1)
    (hx : x ≤ maxD)
    (h : (if x != maxD && x != 0 && (s1.dirty2 maxD x || s1.dirty2 x 0) then
        build x s1 else pure s1) = .ok s2) :
    Inv maxD n s2 ∧
    (∀ a b, s1.dirty2 a b = false → s2.dirty2 a b = false) ∧
    (∀ a b, s2.dirty2 a b = false → s1.dirty2 a b = false ∨
      (0 < x ∧ x < maxD ∧ ((a = maxD ∧ b = x) ∨ (a = x ∧ b = 0)))) := by
  by_cases hcond : (x != maxD && x != 0 && (s1.dirty2 maxD x || s1.dirty2 x 0)) = true
  · rw [if_bool_true hcond] at h
    simp only [Bool.and_eq_true, bne_iff_ne, ne_eq, Bool.or_eq_true] at hcond
    obtain ⟨⟨hne1, hne2⟩, hor⟩ := hcond
    have hx0 : 0 < x := Nat.pos_of_ne_zero hne2
    have hxlt : x < maxD := lt_of_le_of_ne hx hne1
    have hboth : s1.dirty2 maxD x = true ∧ s1.dirty2 x 0 = true := by
      have hLx := hinv.hL x hx0 hxlt
      rcases hor with h1 | h1
      · exact ⟨h1, by rw [← hLx]; exact h1⟩
      · exact ⟨by rw [hLx]; exact h1, h1⟩
    obtain ⟨hinv2, hc1, hc2, hframe, hconnf, hcountf, hclen, hlog⟩ :=
      build_inv hinv hx0 hxlt hboth.1 hboth.2 h
    refine ⟨hinv2, ?_, ?_⟩
    · intro a b hab
      by_cases hA : a = maxD ∧ b = x
      · rw [hA.1, hA.2]
        exact hc1
      · by_cases hB : a = x ∧ b = 0
        · rw [hB.1, hB.2]
          exact hc2
        · rw [hframe a b hA hB]
          exact hab
    · intro a b hab
      by_cases hA : a = maxD ∧ b = x
      · exact Or.inr ⟨hx0, hxlt, Or.inl hA⟩
      · by_cases hB : a = x ∧ b = 0
        · exact Or.inr ⟨hx0, hxlt, Or.inr hB⟩
        · rw [hframe a b hA hB] at hab
          exact Or.inl hab
  · rw [if_bool_false (by revert hcond; cases (x != maxD && x != 0 &&
      (s1.dirty2 maxD x || s1.dirty2 x 0)) <;> simp)] at h
    simp only [pure_eq_ok, Except.ok.injEq] at h
    rw [← h]
    exact ⟨hinv, fun a b hab => hab, fun a b hab => Or.inl hab⟩

end Connectivity

namespace Connectivity

theorem Uset_mk1 {maxD d dp a b : Nat} (h : a = 0 ∧ b = maxD) : Uset maxD d dp a b :=
  Or.inl h

theorem Uset_mk2 {maxD d dp a b : Nat} (h : a = maxD ∧ b = maxD) : Uset maxD d dp a b :=
  Or.inr (Or.inl h)

theorem Uset_mk4 {maxD d dp a b : Nat} (h : a = dp ∧ b = d) : Uset maxD d dp a b :=
  Or.inr (Or.inr (Or.inr (Or.inl h)))

theorem Uset_mk5 {maxD d dp a b : Nat}
    (h : (d = 0 ∧ dp = 0 ∨ 0 < d ∧ d < maxD ∨ 0 < dp ∧ dp < maxD) ∧ a = 0 ∧ b = 0) :
    Uset maxD d dp a b :=
  Or.inr (Or.inr (Or.inr (Or.inr (Or.inl h))))

theorem Uset_mk6 {maxD d dp a b : Nat}
    (h : 0 < d ∧ d < maxD ∧ ((a = maxD ∧ b = d) ∨ (a = d ∧ b = 0) ∨ (a = 0 ∧ b = d))) :
    Uset maxD d dp a b :=
  Or.inr (Or.inr (Or.inr (Or.inr (Or.inr (Or.inl h)))))

theorem Uset_mk7 {maxD d dp a b : Nat}
    (h : 0 < dp ∧ dp < maxD ∧ ((a = maxD ∧ b = dp) ∨ (a = dp ∧ b = 0) ∨ (a = 0 ∧ b = dp))) :
    Uset maxD d dp a b :=
  Or.inr (Or.inr (Or.inr (Or.inr (Or.inr (Or.inr h)))))

theorem Uset_of_dd {maxD d dp a b : Nat}
    (h : (a = 0 ∧ b = maxD) ∨ (a = maxD ∧ b = maxD)) : Uset maxD d dp a b :=
  h.elim Uset_mk1 Uset_mk2

theorem Uset_of_bd {maxD d dp a b : Nat} (h1 : 0 < d) (h2 : d < maxD)
    (h : (a = maxD ∧ b = d) ∨ (a = d ∧ b = 0)) : Uset maxD d dp a b :=
  Uset_mk6 ⟨h1, h2, h.imp id Or.inl⟩

theorem Uset_of_bdp {maxD d dp a b : Nat} (h1 : 0 < dp) (h2 : dp < maxD)
    (h : (a = maxD ∧ b = dp) ∨ (a = dp ∧ b = 0)) : Uset maxD d dp a b :=
  Uset_mk7 ⟨h1, h2, h.imp id Or.inl⟩

theorem Uset_target {maxD d dp a b : Nat} (h1 : d = a) (h2 : dp = b) :
    Uset maxD d dp a b :=
  Or.inr (Or.inr (Or.inl ⟨h1.symm, h2.symm⟩))

theorem Uset_symmetric {maxD d dp a b : Nat} (h : Uset maxD dp d a b) :
    Uset maxD d dp a b := by
  rcases h with h | h | h | h | ⟨hc, ha, hb⟩ | h | h
  · exact Uset_mk1 h
  · exact Uset_mk2 h
  · exact Uset_mk4 h
  · exact Uset_target h.1.symm h.2.symm
  · refine Uset_mk5 ⟨?_, ha, hb⟩
    rcases hc with ⟨x, y⟩ | x | x
    · exact Or.inl ⟨y, x⟩
    · exact Or.inr (Or.inr x)
    · exact Or.inr (Or.inl x)
  · exact Uset_mk7 h
  · exact Uset_mk6 h

theorem Uset_pivot_left {maxD d dp a b : Nat} (h1 : 0 < d) (h2 : d < maxD)
    (h : Uset maxD d 0 a b) : Uset maxD d dp a b := by
  rcases h with h | h | h | h | ⟨hc, ha, hb⟩ | h | h
  · exact Uset_mk1 h
  · exact Uset_mk2 h
  · exact Uset_mk6 ⟨h1, h2, Or.inr (Or.inl h)⟩
  · exact Uset_mk6 ⟨h1, h2, Or.inr (Or.inr h)⟩
  · exact Uset_mk5 ⟨Or.inr (Or.inl ⟨h1, h2⟩), ha, hb⟩
  · exact Uset_mk6 h
  · exact absurd h.1 (lt_irrefl 0)

theorem Uset_pivot_right {maxD d dp a b : Nat} (h1 : 0 < dp) (h2 : dp < maxD)
    (h : Uset maxD 0 dp a b) : Uset maxD d dp a b := by
  rcases h with h | h | h | h | ⟨hc, ha, hb⟩ | h | h
  · exact Uset_mk1 h
  · exact Uset_mk2 h
  · exact Uset_mk7 ⟨h1, h2, Or.inr (Or.inr h)⟩
  · exact Uset_mk7 ⟨h1, h2, Or.inr (Or.inl h)⟩
  · exact Uset_mk5 ⟨Or.inr (Or.inr ⟨h1, h2⟩), ha, hb⟩
  · exact absurd h.1 (lt_irrefl 0)
  · exact Uset_mk7 h

theorem Uset_zz_left {maxD a b : Nat} (hm : 1 ≤ maxD) (h : Uset maxD 0 maxD a b) :
    (a = maxD ∧ b = 0) ∨ Uset maxD 0 0 a b := by
  rcases h with h | h | h | h | ⟨hc, ha, hb⟩ | h | h
  · exact Or.inr (Uset_mk1 h)
  · exact Or.inr (Uset_mk2 h)
  · exact Or.inr (Uset_mk1 h)
  · exact Or.inl h
  · rcases hc with ⟨x, y⟩ | ⟨x, y⟩ | ⟨x, y⟩
    · exact absurd y (by omega)
    · exact absurd x (lt_irrefl 0)
    · exact absurd y (lt_irrefl maxD)
  · exact absurd h.1 (lt_irrefl 0)
  · exact absurd h.2.1 (lt_irrefl maxD)

theorem Uset_zz_right {maxD a b : Nat} (hm : 1 ≤ maxD) (h : Uset maxD maxD 0 a b) :
    (a = maxD ∧ b = 0) ∨ Uset maxD 0 0 a b := by
  rcases h with h | h | h | h | ⟨hc, ha, hb⟩ | h | h
  · exact Or.inr (Uset_mk1 h)
  · exact Or.inr (Uset_mk2 h)
  · exact Or.inl h
  · exact Or.inr (Uset_mk1 h)
  · rcases hc with ⟨x, y⟩ | ⟨x, y⟩ | ⟨x, y⟩
    · exact absurd x (by omega)
    · exact absurd y (lt_irrefl maxD)
    · exact absurd x (lt_irrefl 0)
  · exact absurd h.2.1 (lt_irrefl maxD)
  · exact absurd h.1 (lt_irrefl 0)

theorem Uset_nz1 {maxD : Nat} (hm : 1 ≤ maxD) : ¬ Uset maxD 0 maxD 0 0 := by
  intro h
  rcases h with ⟨x1, x2⟩ | ⟨x1, x2⟩ | ⟨x1, x2⟩ | ⟨x1, x2⟩ |
    ⟨⟨x1, x2⟩ | ⟨x1, x2⟩ | ⟨x1, x2⟩, x3, x4⟩ |
    ⟨x1, x2, ⟨x3, x4⟩ | ⟨x3, x4⟩ | ⟨x3, x4⟩⟩ |
    ⟨x1, x2, ⟨x3, x4⟩ | ⟨x3, x4⟩ | ⟨x3, x4⟩⟩ <;> omega

theorem Uset_nz2 {maxD : Nat} (hm : 1 ≤ maxD) : ¬ Uset maxD maxD 0 0 0 := by
  intro h
  rcases h with ⟨x1, x2⟩ | ⟨x1, x2⟩ | ⟨x1, x2⟩ | ⟨x1, x2⟩ |
    ⟨⟨x1, x2⟩ | ⟨x1, x2⟩ | ⟨x1, x2⟩, x3, x4⟩ |
    ⟨x1, x2, ⟨x3, x4⟩ | ⟨x3, x4⟩ | ⟨x3, x4⟩⟩ |
    ⟨x1, x2, ⟨x3, x4⟩ | ⟨x3, x4⟩ | ⟨x3, x4⟩⟩ <;> omega

theorem Uset_dzero_ne {maxD d dp : Nat} (h1 : 0 < d) (h2 : d < maxD) (h3 : 0 < dp) :
    ¬ Uset maxD d 0 d dp := by
  intro h
  rcases h with ⟨x1, x2⟩ | ⟨x1, x2⟩ | ⟨x1, x2⟩ | ⟨x1, x2⟩ |
    ⟨⟨x1, x2⟩ | ⟨x1, x2⟩ | ⟨x1, x2⟩, x3, x4⟩ |
    ⟨x1, x2, ⟨x3, x4⟩ | ⟨x3, x4⟩ | ⟨x3, x4⟩⟩ |
    ⟨x1, x2, ⟨x3, x4⟩ | ⟨x3, x4⟩ | ⟨x3, x4⟩⟩ <;> omega

theorem Uset_zdp_ne {maxD d dp : Nat} (h1 : 0 < d) (h2 : d < maxD) (h3 : 0 < dp) :
    ¬ Uset maxD 0 dp d dp := by
  intro h
  rcases h with ⟨x1, x2⟩ | ⟨x1, x2⟩ | ⟨x1, x2⟩ | ⟨x1, x2⟩ |
    ⟨⟨x1, x2⟩ | ⟨x1, x2⟩ | ⟨x1, x2⟩, x3, x4⟩ |
    ⟨x1, x2, ⟨x3, x4⟩ | ⟨x3, x4⟩ | ⟨x3, x4⟩⟩ |
    ⟨x1, x2, ⟨x3, x4⟩ | ⟨x3, x4⟩ | ⟨x3, x4⟩⟩ <;> omega

/-- `compute(d, dp)` preserves the invariant, leaves the target pair clean,
never re-dirties a clean pair, and newly cleans only pairs in
`Uset maxD d dp`. -/
theorem computeF_inv : ∀ (fuel : Nat) {maxD n d dp : Nat} {s s' : Connectivity},
    Inv maxD n s → d ≤ maxD → dp ≤ maxD →
    computeF fuel d dp s = .ok s' →
    Inv maxD n s' ∧ s'.dirty2 d dp = false ∧
    (∀ a b, s.dirty2 a b = false → s'.dirty2 a b = false) ∧
    (∀ a b, s'.dirty2 a b = false → s.dirty2 a b = false ∨ Uset maxD d dp a b) := by
  intro fuel
  induction fuel with
  | zero =>
    intro maxD n d dp s s' hinv hd hdp h
    simp [computeF] at h
  | succ fuel ih =>
    intro maxD n d dp s s' hinv hd hdp h
    have hmaxd1 := hinv.hmaxd1
    unfold computeF at h
    rw [hinv.meshDim] at h
    by_cases hc : (d == maxD && dp == 0) = true
    · rw [if_bool_true hc] at h
      simp only [pure_eq_ok, Except.ok.injEq] at h
      simp only [Bool.and_eq_true, beq_iff_eq] at hc
      rw [← h]
      refine ⟨hinv, ?_, fun a b hab => hab, fun a b hab => Or.inl hab⟩
      rw [hc.1, hc.2]
      exact hinv.hD0
    · rw [Bool.not_eq_true] at hc
      rw [if_bool_false hc] at h
      obtain ⟨s1, h1, h⟩ := bind_eq_ok h
      obtain ⟨hinv1, hdd1, mono1, frame1⟩ := ddPhase_inv hinv h1
      replace h := chk_bind_ok h
      obtain ⟨s2, h2, h⟩ := bind_eq_ok h
      obtain ⟨hinv2, mono2, frame2⟩ := buildPhase_inv hinv1 hd h2
      obtain ⟨hbd, h⟩ := chk_ok_inv h
      obtain ⟨hbd0, h⟩ := chk_ok_inv h
      obtain ⟨s3, h3, h⟩ := bind_eq_ok h
      obtain ⟨hinv3, mono3, frame3⟩ := buildPhase_inv hinv2 hdp h3
      obtain ⟨hbdp, h⟩ := chk_ok_inv h
      obtain ⟨hbdp0, h⟩ := chk_ok_inv h
      obtain ⟨s4, h4, h⟩ := bind_eq_ok h
      simp only [pure_eq_ok, Except.ok.injEq] at h
      have cDd2 : s2.dirty2 maxD d = false := by simpa using hbd
      have cD02 : (s2.dirty2 d 0 = false ∨ d = maxD) ∨ d = 0 := by simpa using hbd0
      have cDdp3 : s3.dirty2 maxD dp = false := by simpa using hbdp
      have monoP : ∀ a b, s.dirty2 a b = false → s3.dirty2 a b = false :=
        fun a b hab => mono3 _ _ (mono2 _ _ (mono1 _ _ hab))
      have frameP : ∀ a b, s3.dirty2 a b = false →
          s.dirty2 a b = false ∨ Uset maxD d dp a b := by
        intro a b hab
        rcases frame3 a b hab with hab | hU
        · rcases frame2 a b hab with hab | hU
          · rcases frame1 a b hab with hab | hU
            · exact Or.inl hab
            · exact Or.inr (Uset_of_dd hU)
          · exact Or.inr (Uset_of_bd hU.1 hU.2.1 hU.2.2)
        · exact Or.inr (Uset_of_bdp hU.1 hU.2.1 hU.2.2)
      by_cases hdirty : s3.dirty2 d dp = true
      · rw [if_bool_true hdirty] at h4
        by_cases hlt : d < dp
        · rw [if_pos hlt] at h4
          obtain ⟨sa, hca, hta⟩ := bind_eq_ok h4
          obtain ⟨hinvA, hAdd, monoA, frameA⟩ := ih hinv3 hdp hd hca
          obtain ⟨hinvB, hBdd, frameB, hBconn, hBcount, hBlog⟩ := transpose_inv hinvA hAdd hta
          obtain ⟨hinvF, flagsF⟩ := redundant_flag_inv hinvB hBdd
          rw [h] at hinvF flagsF
          refine ⟨hinvF, by rw [flagsF]; exact hBdd, ?_, ?_⟩
          · intro a b hab
            rw [flagsF]
            have hsac := monoA _ _ (monoP _ _ hab)
            by_cases hT : d = a ∧ dp = b
            · rw [← hT.1, ← hT.2]
              exact hBdd
            · rw [frameB a b hT]
              exact hsac
          · intro a b hab
            rw [flagsF a b] at hab
            by_cases hT : d = a ∧ dp = b
            · exact Or.inr (Uset_target hT.1 hT.2)
            · rw [frameB a b hT] at hab
              rcases frameA a b hab with hab | hU
              · exact frameP a b hab
              · exact Or.inr (Uset_symmetric hU)
        · rw [if_neg hlt] at h4
          obtain ⟨sa, hca, h4⟩ := bind_eq_ok h4
          obtain ⟨sb, hcb, h4⟩ := bind_eq_ok h4
          have hdne : d ≠ maxD := by
            intro hcon
            rw [hcon] at hdirty
            rw [cDdp3] at hdirty
            exact absurd hdirty (by simp)
          have hdlt : d < maxD := lt_of_le_of_ne hd hdne
          have hdpled : dp ≤ d := Nat.le_of_not_lt hlt
          by_cases hz : d = 0
          · subst hz
            have hdpz : dp = 0 := Nat.le_zero.mp hdpled
            subst hdpz
            have hp : pivotDim maxD 0 0 = maxD := rfl
            rw [hp] at hca hcb h4
            obtain ⟨hinvA, hAt, monoA, frameA⟩ := ih hinv3 (Nat.zero_le maxD) (le_refl maxD) hca
            obtain ⟨hinvB2, hBt, monoB2, frameB2⟩ := ih hinvA (le_refl maxD) (Nat.zero_le maxD) hcb
            have htarget : sb.dirty2 0 0 = true := by
              by_contra hcon
              have hcb0 : sb.dirty2 0 0 = false := by
                revert hcon
                cases sb.dirty2 0 0 <;> simp
              rcases frameB2 0 0 hcb0 with hA | hU
              · rcases frameA 0 0 hA with hA2 | hU
                · rw [hA2] at hdirty
                  exact absurd hdirty (by simp)
                · exact absurd hU (Uset_nz1 hmaxd1)
              · exact absurd hU (Uset_nz2 hmaxd1)
            have hsrc1 : sb.dirty2 0 maxD = false := monoB2 _ _ hAt
            obtain ⟨hinvC, hCt, frameC, hCconn, hCcount, hClog⟩ :=
              intersection_inv hinvB2 htarget hsrc1 hBt (Or.inr (Or.inr ⟨rfl, rfl⟩)) h4
            obtain ⟨hinvF, flagsF⟩ := redundant_flag_inv hinvC hCt
            rw [h] at hinvF flagsF
            refine ⟨hinvF, by rw [flagsF]; exact hCt, ?_, ?_⟩
            · intro a b hab
              rw [flagsF]
              have hsbc := monoB2 _ _ (monoA _ _ (monoP _ _ hab))
              by_cases hT : (0 : Nat) = a ∧ (0 : Nat) = b
              · rw [← hT.1, ← hT.2]
                exact hCt
              · rw [frameC a b hT]
                exact hsbc
            · intro a b hab
              rw [flagsF a b] at hab
              by_cases hT : (0 : Nat) = a ∧ (0 : Nat) = b
              · exact Or.inr (Uset_target hT.1 hT.2)
              · rw [frameC a b hT] at hab
                rcases frameB2 a b hab with hab | hU
                · rcases frameA a b hab with hab | hU
                  · exact frameP a b hab
                  · rcases Uset_zz_left hmaxd1 hU with h9 | h9
                    · left
                      rw [h9.1, h9.2]
                      exact hinv.hD0
                    · exact Or.inr h9
                · rcases Uset_zz_right hmaxd1 hU with h9 | h9
                  · left
                    rw [h9.1, h9.2]
                    exact hinv.hD0
                  · exact Or.inr h9
          · have hd1 : 0 < d := Nat.pos_of_ne_zero hz
            have hdp1 : 0 < dp := by
              by_contra hcon
              have hdpz : dp = 0 := Nat.eq_zero_of_not_pos hcon
              rw [hdpz] at hdirty
              have hcl : s3.dirty2 d 0 = false := by
                rcases cD02 with (hcl | hq) | hq
                · exact mono3 _ _ hcl
                · exact absurd hq hdne
                · exact absurd hq hz
              rw [hcl] at hdirty
              exact absurd hdirty (by simp)
            have hp : pivotDim maxD d dp = 0 := by
              unfold pivotDim
              rw [if_bool_false (by rw [beq_false_of_ne hz]; rfl)]
            rw [hp] at hca hcb h4
            obtain ⟨hinvA, hAt, monoA, frameA⟩ := ih hinv3 hd (Nat.zero_le maxD) hca
            obtain ⟨hinvB2, hBt, monoB2, frameB2⟩ := ih hinvA (Nat.zero_le maxD) hdp hcb
            have htarget : sb.dirty2 d dp = true := by
              by_contra hcon
              have hcb0 : sb.dirty2 d dp = false := by
                revert hcon
                cases sb.dirty2 d dp <;> simp
              rcases frameB2 d dp hcb0 with hA | hU
              · rcases frameA d dp hA with hA2 | hU
                · rw [hA2] at hdirty
                  exact absurd hdirty (by simp)
                · exact absurd hU (Uset_dzero_ne hd1 hdlt hdp1)
              · exact absurd hU (Uset_zdp_ne hd1 hdlt hdp1)
            have hsrc1 : sb.dirty2 d 0 = false := monoB2 _ _ hAt
            obtain ⟨hinvC, hCt, frameC, hCconn, hCcount, hClog⟩ :=
              intersection_inv hinvB2 htarget hsrc1 hBt (Or.inl ⟨hdp1, hdpled, hdlt⟩) h4
            obtain ⟨hinvF, flagsF⟩ := redundant_flag_inv hinvC hCt
            rw [h] at hinvF flagsF
            refine ⟨hinvF, by rw [flagsF]; exact hCt, ?_, ?_⟩
            · intro a b hab
              rw [flagsF]
              have hsbc := monoB2 _ _ (monoA _ _ (monoP _ _ hab))
              by_cases hT : d = a ∧ dp = b
              · rw [← hT.1, ← hT.2]
                exact hCt
              · rw [frameC a b hT]
                exact hsbc
            · intro a b hab
              rw [flagsF a b] at hab
              by_cases hT : d = a ∧ dp = b
              · exact Or.inr (Uset_target hT.1 hT.2)
              · rw [frameC a b hT] at hab
                rcases frameB2 a b hab with hab | hU
                · rcases frameA a b hab with hab | hU
                  · exact frameP a b hab
                  · exact Or.inr (Uset_pivot_left hd1 hdlt hU)
                · exact Or.inr (Uset_pivot_right hdp1 (by omega) hU)
      · rw [Bool.not_eq_true] at hdirty
        rw [if_bool_false hdirty] at h4
        simp only [pure_eq_ok, Except.ok.injEq] at h4
        rw [← h4] at h
        obtain ⟨hinvF, flagsF⟩ := redundant_flag_inv hinv3 hdirty
        rw [h] at hinvF flagsF
        refine ⟨hinvF, by rw [flagsF]; exact hdirty, ?_, ?_⟩
        · intro a b hab
          rw [flagsF]
          exact monoP _ _ hab
        · intro a b hab
          rw [flagsF a b] at hab
          exact frameP a b hab

end Connectivity

namespace Connectivity

/-! ### The state reached by initialization, nodes and cell declarations -/

theorem getD_replicate' {α : Type} (n : Nat) (a d : α) (i : Nat) :
    (List.replicate n a).getD i d = if i < n then a else d := by
  by_cases h : i < n
  · rw [if_pos h, List.getD_eq_getElem _ _ (by simpa using h), List.getElem_replicate]
  · rw [if_neg h, List.getD_eq_default _ _ (by simpa using Nat.le_of_not_lt h)]

theorem find?_append_left {α : Type} {p : α → Bool} :
    ∀ {l1 : List α} (l2 : List α) {x : α}, l1.find? p = some x →
      (l1 ++ l2).find? p = some x := by
  intro l1
  induction l1 with
  | nil =>
    intro l2 x h
    simp at h
  | cons a l1 ih =>
    intro l2 x h
    rw [List.cons_append]
    cases hp : p a
    · rw [List.find?_cons_of_neg _ (by rw [hp]; simp)] at h ⊢
      exact ih l2 h
    · rw [List.find?_cons_of_pos _ hp] at h ⊢
      exact h

theorem find?_append_none {α : Type} {p : α → Bool} :
    ∀ {l1 : List α} (l2 : List α), l1.find? p = none →
      (l1 ++ l2).find? p = l2.find? p := by
  intro l1
  induction l1 with
  | nil =>
    intro l2 _
    rfl
  | cons a l1 ih =>
    intro l2 h
    cases hp : p a
    · rw [List.find?_cons_of_neg _ (by rw [hp]; simp)] at h
      rw [List.cons_append, List.find?_cons_of_neg _ (by rw [hp]; simp)]
      exact ih l2 h
    · rw [List.find?_cons_of_pos _ hp] at h
      simp at h

theorem rightAt_append_old {m : List (List Nat × Nat)} {e' : List Nat × Nat} {i : Nat}
    {p : List Nat} (h : rightAt m i = some p) : rightAt (m ++ [e']) i = some p := by
  unfold rightAt at h ⊢
  cases hf : m.find? fun e => e.2 == i with
  | none =>
    rw [hf] at h
    simp at h
  | some e0 =>
    rw [hf] at h
    rw [find?_append_left _ hf]
    exact h

theorem rightAt_append_new {m : List (List Nat × Nat)} {k : List Nat} {v : Nat}
    (h : (m.find? fun e => e.2 == v) = none) : rightAt (m ++ [(k, v)]) v = some k := by
  unfold rightAt
  rw [find?_append_none _ h]
  simp

/-- The invariant of the base-construction phase: after `initialize`,
`nodes` and any number of top-dimensional `polytope` declarations, only the
`(maxD, 0)` slot carries data, and it mirrors the cell registry. -/
structure BaseQ (maxD n : Nat) (t : Connectivity) : Prop where
  bmax : t.maximalDimension = maxD
  bcountlen : t.count.length = maxD + 1
  bcount0 : t.getCount 0 = n
  bcountmid : ∀ x, 0 < x → x < maxD → t.getCount x = 0
  bconnlen : t.conn.length = maxD + 1
  bconnrow : ∀ a, a ≤ maxD → (t.conn.getD a []).length = maxD + 1
  bdirtylen : t.dirty.length = maxD + 1
  bdirtyrow : ∀ a, a ≤ maxD → (t.dirty.getD a []).length = maxD + 1
  bindexlen : t.index.length = maxD + 1
  bgeomlen : t.geometry.length = maxD + 1
  bclean : ∀ a b, t.dirty2 a b = false → a = maxD ∧ b = 0
  bD0 : 0 < t.getCount maxD → t.dirty2 maxD 0 = false
  bconn : ∀ a b, ¬ (a = maxD ∧ b = 0) → t.incidence a b = []
  bDlen : (t.incidence maxD 0).length = t.getCount maxD
  brow0 : ∀ i j, j ∈ (t.incidence maxD 0).getD i ∅ → j < n
  bidx0 : t.index.getD 0 [] = vertexEntries n
  bidxmid : ∀ x, 0 < x → x < maxD → t.index.getD x [] = []
  bidxD : ∀ e ∈ t.index.getD maxD [], e.2 < t.getCount maxD ∧
    (t.incidence maxD 0).getD e.2 ∅ = e.1.toFinset ∧ ∀ v ∈ e.1, v < n
  bgeommid : ∀ x, 0 < x → x < maxD → t.geometry.getD x [] = []
  bgeomD : (t.geometry.getD maxD []).length = t.getCount maxD
  bcell : ∀ i, i < t.getCount maxD → ∃ p,
    rightAt (t.index.getD maxD []) i = some p ∧
    geometryDimension ((t.geometry.getD maxD []).getD i .point) = maxD ∧
    p.length = typeVertexCount ((t.geometry.getD maxD []).getD i .point) ∧
    (∀ v ∈ p, v < n) ∧
    (t.incidence maxD 0).getD i ∅ = p.toFinset

/-- One valid top-dimensional `polytope` declaration preserves the base
invariant; from an empty registry it strictly populates it. -/
theorem polytope_base {maxD n : Nat} {t t' : Connectivity} (hq : BaseQ maxD n t)
    (hm : 1 ≤ maxD) {g : PolytopeType} {input : List Nat}
    (hgdim : geometryDimension g = maxD) (hlen : input.length = typeVertexCount g)
    (hvn : ∀ v ∈ input, v < n)
    (h : polytope g input t = .ok t') :
    BaseQ maxD n t' ∧ t.getCount maxD ≤ t'.getCount maxD ∧
    (t.getCount maxD = 0 → 0 < t'.getCount maxD) := by
  have hbeq : (maxD == t.maximalDimension) = true := by
    rw [hq.bmax]
    simp
  simp only [polytope, hgdim] at h
  obtain ⟨hb1, h⟩ := chk_ok_inv h
  obtain ⟨hb2, h⟩ := chk_ok_inv h
  obtain ⟨hb3, h⟩ := chk_ok_inv h
  rcases hlf : leftFind (maxD == t.maximalDimension) (t.index.getD maxD []) input
    with _ | idx0
  · -- new cell
    have hrf : ((t.index.getD maxD []).find? fun e => e.2 == t.getCount maxD) = none := by
      apply List.find?_eq_none.mpr
      intro e he hbe
      have h1 := (hq.bidxD e he).1
      have h2 : e.2 = t.getCount maxD := by simpa using hbe
      omega
    have hbm : bimapInsert (maxD == t.maximalDimension) (t.index.getD maxD []) input
        (t.getCount maxD) =
        (t.index.getD maxD [] ++ [(input, t.getCount maxD)], t.getCount maxD, true) := by
      unfold bimapInsert
      rw [hlf, hrf]
      rfl
    simp only [hbm, if_true, pure_eq_ok, Except.ok.injEq] at h
    have hconn' : t'.conn = set2 t.conn maxD 0 (t.incidence maxD 0 ++ [input.toFinset]) := by
      rw [← h]
    have hcount' : t'.count = t.count.set maxD (t.getCount maxD + 1) := by rw [← h]
    have hindex' : t'.index = t.index.set maxD (t.index.getD maxD [] ++ [(input, t.getCount maxD)]) := by
      rw [← h]
    have hgeom' : t'.geometry = t.geometry.set maxD (t.geometry.getD maxD [] ++ [g]) := by
      rw [← h]
    have hdirty' : t'.dirty = set2 t.dirty maxD 0 false := by rw [← h]
    have hmax' : t'.maximalDimension = t.maximalDimension := by rw [← h]
    have hcntD : t'.getCount maxD = t.getCount maxD + 1 := by
      unfold getCount
      rw [hcount']
      exact getD_set_self _ _ _ _ (by rw [hq.bcountlen]; omega)
    have hcntx : ∀ x, x ≠ maxD → t'.getCount x = t.getCount x := by
      intro x hx
      unfold getCount
      rw [hcount']
      exact getD_set_ne _ _ _ (fun hc => hx hc.symm)
    have hrow' : t'.incidence maxD 0 = t.incidence maxD 0 ++ [input.toFinset] := by
      unfold incidence
      rw [hconn']
      exact get2_set2_self _ _ _ _ _ (by rw [hq.bconnlen]; omega)
        (by rw [hq.bconnrow maxD (le_refl _)]; omega)
    have hrowx : ∀ a b, ¬ (a = maxD ∧ b = 0) → t'.incidence a b = t.incidence a b := by
      intro a b hab
      unfold incidence
      rw [hconn']
      exact get2_set2_ne _ _ _ (fun hc => hab ⟨hc.1.symm, hc.2.symm⟩)
    have hidxD' : t'.index.getD maxD [] = t.index.getD maxD [] ++ [(input, t.getCount maxD)] := by
      rw [hindex']
      exact getD_set_self _ _ _ _ (by rw [hq.bindexlen]; omega)
    have hidxx : ∀ x, x ≠ maxD → t'.index.getD x [] = t.index.getD x [] := by
      intro x hx
      rw [hindex']
      exact getD_set_ne _ _ _ (fun hc => hx hc.symm)
    have hgeomD' : t'.geometry.getD maxD [] = t.geometry.getD maxD [] ++ [g] := by
      rw [hgeom']
      exact getD_set_self _ _ _ _ (by rw [hq.bgeomlen]; omega)
    have hgeomx : ∀ x, x ≠ maxD → t'.geometry.getD x [] = t.geometry.getD x [] := by
      intro x hx
      rw [hgeom']
      exact getD_set_ne _ _ _ (fun hc => hx hc.symm)
    have hd0' : t'.dirty2 maxD 0 = false := by
      unfold dirty2
      rw [hdirty']
      exact get2_set2_self _ _ _ _ _ (by rw [hq.bdirtylen]; omega)
        (by rw [hq.bdirtyrow maxD (le_refl _)]; omega)
    have hdx : ∀ a b, ¬ (a = maxD ∧ b = 0) → t'.dirty2 a b = t.dirty2 a b := by
      intro a b hab
      unfold dirty2
      rw [hdirty']
      exact get2_set2_ne _ _ _ (fun hc => hab ⟨hc.1.symm, hc.2.symm⟩)
    refine ⟨?_, by omega, fun _ => by omega⟩
    refine BaseQ.mk ?_ ?_ ?_ ?_ ?_ ?_ ?_ ?_ ?_ ?_ ?_ ?_ ?_ ?_ ?_ ?_ ?_ ?_ ?_ ?_ ?_
    · rw [hmax']
      exact hq.bmax
    · rw [hcount', List.length_set]
      exact hq.bcountlen
    · rw [hcntx 0 (by omega)]
      exact hq.bcount0
    · intro x hx1 hx2
      rw [hcntx x (by omega)]
      exact hq.bcountmid x hx1 hx2
    · rw [hconn', length_set2]
      exact hq.bconnlen
    · intro a ha
      rw [hconn', row_length_set2]
      exact hq.bconnrow a ha
    · rw [hdirty', length_set2]
      exact hq.bdirtylen
    · intro a ha
      rw [hdirty', row_length_set2]
      exact hq.bdirtyrow a ha
    · rw [hindex', List.length_set]
      exact hq.bindexlen
    · rw [hgeom', List.length_set]
      exact hq.bgeomlen
    · intro a b hab
      by_cases hA : a = maxD ∧ b = 0
      · exact hA
      · rw [hdx a b hA] at hab
        exact hq.bclean a b hab
    · intro _
      exact hd0'
    · intro a b hab
      rw [hrowx a b hab]
      exact hq.bconn a b hab
    · rw [hrow', hcntD, List.length_append, hq.bDlen]
      rfl
    · intro i j hj
      rw [hrow', getD_snoc] at hj
      split at hj
      · exact hq.brow0 i j hj
      · split at hj
        · rw [List.mem_toFinset] at hj
          exact hvn j hj
        · exact absurd hj (Finset.not_mem_empty j)
    · rw [hidxx 0 (by omega)]
      exact hq.bidx0
    · intro x hx1 hx2
      rw [hidxx x (by omega)]
      exact hq.bidxmid x hx1 hx2
    · intro e he
      rw [hidxD'] at he
      rw [List.mem_append] at he
      rcases he with he | he
      · obtain ⟨e1, e2, e3⟩ := hq.bidxD e he
        refine ⟨by omega, ?_, e3⟩
        rw [hrow', getD_append_lt _ _ _ _ (by rw [hq.bDlen]; omega)]
        exact e2
      · rw [List.mem_singleton] at he
        subst he
        refine ⟨by simp [hcntD], ?_, hvn⟩
        rw [hrow', getD_snoc, hq.bDlen, if_neg (by omega), if_pos rfl]
    · intro x hx1 hx2
      rw [hgeomx x (by omega)]
      exact hq.bgeommid x hx1 hx2
    · rw [hgeomD', hcntD, List.length_append, hq.bgeomD]
      rfl
    · intro i hi
      rw [hcntD] at hi
      by_cases hio : i < t.getCount maxD
      · obtain ⟨p, hp1, hp2, hp3, hp4, hp5⟩ := hq.bcell i hio
        refine ⟨p, ?_, ?_, ?_, hp4, ?_⟩
        · rw [hidxD']
          exact rightAt_append_old hp1
        · rw [hgeomD', getD_append_lt _ _ _ _ (by rw [hq.bgeomD]; omega)]
          exact hp2
        · rw [hgeomD', getD_append_lt _ _ _ _ (by rw [hq.bgeomD]; omega)]
          exact hp3
        · rw [hrow', getD_append_lt _ _ _ _ (by rw [hq.bDlen]; omega)]
          exact hp5
      · have hieq : i = t.getCount maxD := by omega
        subst hieq
        refine ⟨input, ?_, ?_, ?_, hvn, ?_⟩
        · rw [hidxD']
          exact rightAt_append_new hrf
        · rw [hgeomD', getD_snoc, hq.bgeomD, if_neg (by omega), if_pos rfl]
          exact hgdim
        · rw [hgeomD', getD_snoc, hq.bgeomD, if_neg (by omega), if_pos rfl]
          exact hlen
        · rw [hrow', getD_snoc, hq.bDlen, if_neg (by omega), if_pos rfl]
  · -- duplicate declaration: no change
    have hbm : bimapInsert (maxD == t.maximalDimension) (t.index.getD maxD []) input
        (t.getCount maxD) = (t.index.getD maxD [], idx0, false) := by
      unfold bimapInsert
      rw [hlf]
    simp only [hbm, Bool.false_eq_true, if_false, pure_eq_ok, Except.ok.injEq] at h
    rw [← h]
    refine ⟨hq, le_refl _, ?_⟩
    intro hzero
    obtain ⟨e, he, _, _⟩ := leftFind_some hlf
    exact absurd ((hq.bidxD e he).1) (by omega)

end Connectivity

namespace Connectivity

theorem vertexEntries_snd {n : Nat} : ∀ e ∈ vertexEntries n, e.2 < n := by
  intro e he
  unfold vertexEntries at he
  obtain ⟨i, hi, rfl⟩ := List.mem_map.mp he
  simpa using hi

/-- The post-`nodes` state satisfies the base invariant. -/
theorem vertexState_baseQ (maxD n : Nat) (hm : 1 ≤ maxD) :
    BaseQ maxD n (vertexState maxD n) := by
  have hc : (vertexState maxD n).count = n :: List.replicate maxD 0 := rfl
  have hconnE : (vertexState maxD n).conn =
      List.replicate (maxD + 1) (List.replicate (maxD + 1) []) := rfl
  have hdirtyE : (vertexState maxD n).dirty =
      List.replicate (maxD + 1) (List.replicate (maxD + 1) true) := rfl
  have hidxE : (vertexState maxD n).index = vertexEntries n :: List.replicate maxD [] := rfl
  have hgeomE : (vertexState maxD n).geometry = List.replicate (maxD + 1) [] := rfl
  have hcountS : ∀ x, 0 < x → (vertexState maxD n).getCount x = 0 := by
    intro x hx
    unfold getCount
    rw [hc]
    rcases x with _ | k
    · omega
    · rw [List.getD_cons_succ, getD_replicate']
      split <;> rfl
  have hdirtyT : ∀ a b, (vertexState maxD n).dirty2 a b = true := by
    intro a b
    unfold dirty2 get2
    rw [hdirtyE, getD_replicate']
    split
    · rw [getD_replicate']
      split <;> rfl
    · rfl
  have hconnN : ∀ a b, (vertexState maxD n).incidence a b = [] := by
    intro a b
    unfold incidence get2
    rw [hconnE, getD_replicate']
    split
    · rw [getD_replicate']
      split <;> rfl
    · rfl
  have hidxS : ∀ x, 0 < x → (vertexState maxD n).index.getD x [] = [] := by
    intro x hx
    rw [hidxE]
    rcases x with _ | k
    · omega
    · rw [List.getD_cons_succ, getD_replicate']
      split <;> rfl
  have hgeomN : ∀ x, (vertexState maxD n).geometry.getD x [] = [] := by
    intro x
    rw [hgeomE, getD_replicate']
    split <;> rfl
  refine BaseQ.mk rfl ?_ rfl ?_ ?_ ?_ ?_ ?_ ?_ ?_ ?_ ?_ ?_ ?_ ?_ rfl ?_ ?_ ?_ ?_ ?_
  · rw [hc]
    simp
  · intro x hx1 _
    exact hcountS x hx1
  · rw [hconnE]
    simp
  · intro a ha
    rw [hconnE, getD_replicate', if_pos (by omega)]
    simp
  · rw [hdirtyE]
    simp
  · intro a ha
    rw [hdirtyE, getD_replicate', if_pos (by omega)]
    simp
  · rw [hidxE]
    simp
  · rw [hgeomE]
    simp
  · intro a b hab
    rw [hdirtyT a b] at hab
    exact absurd hab (by simp)
  · intro htop
    rw [hcountS maxD hm] at htop
    exact absurd htop (by omega)
  · intro a b _
    exact hconnN a b
  · rw [hconnN, hcountS maxD hm]
    rfl
  · intro i j hj
    rw [hconnN] at hj
    simp at hj
  · intro x hx1 _
    exact hidxS x hx1
  · intro e he
    rw [hidxS maxD hm] at he
    simp at he
  · intro x hx1 _
    exact hgeomN x
  · rw [hgeomN, hcountS maxD hm]
    rfl
  · intro i hi
    rw [hcountS maxD hm] at hi
    exact absurd hi (by omega)

/-- Declaring a list of cells through the `polytope` entry point. -/
def declareCells (cells : List (PolytopeType × List Nat)) (s : Connectivity) :
    Except String Connectivity :=
  cells.foldlM (fun s c => polytope c.1 c.2 s) s

theorem declareCells_base {maxD n : Nat} (hm : 1 ≤ maxD) :
    ∀ (cells : List (PolytopeType × List Nat)) {t t' : Connectivity},
      BaseQ maxD n t →
      (∀ c ∈ cells, geometryDimension c.1 = maxD ∧ c.2.length = typeVertexCount c.1 ∧
        ∀ v ∈ c.2, v < n) →
      declareCells cells t = .ok t' →
      BaseQ maxD n t' ∧ t.getCount maxD ≤ t'.getCount maxD ∧
      (t.getCount maxD = 0 → cells ≠ [] → 0 < t'.getCount maxD) := by
  intro cells
  induction cells with
  | nil =>
    intro t t' hq _ h
    simp only [declareCells, List.foldlM_nil, pure_eq_ok, Except.ok.injEq] at h
    rw [← h]
    exact ⟨hq, le_refl _, fun _ hne => absurd rfl hne⟩
  | cons c cells ih =>
    intro t t' hq hvalid h
    simp only [declareCells, List.foldlM_cons] at h
    obtain ⟨t1, hstep, hrest⟩ := bind_eq_ok h
    obtain ⟨v1, v2, v3⟩ := hvalid c (List.mem_cons_self c cells)
    obtain ⟨q1, le1, pos1⟩ := polytope_base hq hm v1 v2 v3 hstep
    obtain ⟨q2, le2, pos2⟩ := ih q1 (fun c hc => hvalid c (List.mem_cons_of_mem _ hc)) hrest
    refine ⟨q2, le_trans le1 le2, ?_⟩
    intro hz _
    have := pos1 hz
    omega

/-- The base invariant of a populated mesh entails the full invariant. -/
theorem BaseQ.toInv {maxD n : Nat} {t : Connectivity} (hq : BaseQ maxD n t)
    (hm : 1 ≤ maxD) (htop : 0 < t.getCount maxD) : Inv maxD n t := by
  have hd0 := hq.bD0 htop
  have hdT : ∀ a b, ¬ (a = maxD ∧ b = 0) → t.dirty2 a b = true := by
    intro a b hab
    cases hx : t.dirty2 a b
    · exact absurd (hq.bclean a b hx) hab
    · rfl
  refine Inv.mk hq.bmax hm hq.bcountlen hq.bconnlen hq.bconnrow hq.bdirtylen
    hq.bdirtyrow hq.bindexlen hq.bgeomlen htop hq.bcount0 hd0 ?_ ?_ ?_ ?_ ?_ ?_ ?_ ?_
    ?_ ?_ ?_ ?_ ?_ hq.bcell
  · intro x hx1 hx2
    rw [hdT maxD x (fun hc => by omega), hdT x 0 (fun hc => by omega)]
  · intro a b hab hcl
    obtain ⟨ha, hb⟩ := hq.bclean a b hcl
    exfalso
    omega
  · intro a b hcl
    obtain ⟨ha, hb⟩ := hq.bclean a b hcl
    refine ⟨fun h1 h2 => ?_, fun h1 h2 => ?_⟩
    · exact absurd h2 (by omega)
    · exact absurd h1 (by omega)
  · intro a b hdt
    by_cases hA : a = maxD ∧ b = 0
    · rw [hA.1, hA.2, hd0] at hdt
      exact absurd hdt (by simp)
    · exact hq.bconn a b hA
  · intro a b hcl
    obtain ⟨ha, hb⟩ := hq.bclean a b hcl
    subst ha
    subst hb
    exact hq.bDlen
  · intro a b hcl i j hj
    obtain ⟨ha, hb⟩ := hq.bclean a b hcl
    subst ha
    subst hb
    unfold incid at hj
    rw [hq.bcount0]
    exact hq.brow0 i j hj
  · intro a b hab hcl1 hcl2 i j
    obtain ⟨ha, hb⟩ := hq.bclean a b hcl1
    obtain ⟨hb', ha'⟩ := hq.bclean b a hcl2
    exfalso
    omega
  · intro a b hba hb0 hcl i j hj
    obtain ⟨ha, hb⟩ := hq.bclean a b hcl
    exfalso
    omega
  · intro a ha e he
    by_cases ha0 : a = 0
    · subst ha0
      rw [hq.bidx0] at he
      rw [hq.bcount0]
      exact vertexEntries_snd e he
    · by_cases haD : a = maxD
      · subst haD
        exact (hq.bidxD e he).1
      · rw [hq.bidxmid a (by omega) (by omega)] at he
        simp at he
  · intro a ha0 ha e he
    by_cases haD : a = maxD
    · subst haD
      exact ⟨(hq.bidxD e he).2.1, (hq.bidxD e he).2.2⟩
    · rw [hq.bidxmid a ha0 (by omega)] at he
      simp at he
  · intro a ha0 ha
    by_cases haD : a = maxD
    · subst haD
      exact hq.bgeomD
    · rw [hq.bgeommid a ha0 (by omega), hq.bcountmid a ha0 (by omega)]
      rfl
  · intro a ha0 ha
    by_cases haD : a = maxD
    · subst haD
      exact hq.bDlen
    · rw [hq.bconn a 0 (fun hc => haD hc.1), hq.bcountmid a ha0 (by omega)]
      rfl
  · intro a ha0 ha _
    exact hq.bcountmid a ha0 ha

/-- Running a list of `compute` queries. -/
def runComputes (qs : List (Nat × Nat)) (s : Connectivity) :
    Except String Connectivity :=
  qs.foldlM (fun s q => compute q.1 q.2 s) s

theorem runComputes_inv {maxD n : Nat} :
    ∀ (qs : List (Nat × Nat)) {t t' : Connectivity},
      Inv maxD n t → (∀ q ∈ qs, q.1 ≤ maxD ∧ q.2 ≤ maxD) →
      runComputes qs t = .ok t' → Inv maxD n t' := by
  intro qs
  induction qs with
  | nil =>
    intro t t' hinv _ h
    simp only [runComputes, List.foldlM_nil, pure_eq_ok, Except.ok.injEq] at h
    rw [← h]
    exact hinv
  | cons q qs ih =>
    intro t t' hinv hqs h
    simp only [runComputes, List.foldlM_cons] at h
    obtain ⟨t1, hstep, hrest⟩ := bind_eq_ok h
    obtain ⟨b1, b2⟩ := hqs q (List.mem_cons_self q qs)
    obtain ⟨hinv1, _, _, _⟩ := computeF_inv 8 hinv b1 b2 hstep
    exact ih hinv1 (fun q hq => hqs q (List.mem_cons_of_mem _ hq)) hrest

theorem vertexState_count_top {maxD n : Nat} (hm : 1 ≤ maxD) :
    (vertexState maxD n).getCount maxD = 0 := by
  unfold getCount
  rw [show (vertexState maxD n).count = n :: List.replicate maxD 0 from rfl]
  rcases hx : maxD with _ | k
  · omega
  · rw [List.getD_cons_succ, getD_replicate', if_pos (by omega)]

/-- A full scenario run: initialization, vertices, cells, queries. -/
theorem scenario_inv {maxD n : Nat} {cells : List (PolytopeType × List Nat)}
    {qs : List (Nat × Nat)} {s : Connectivity}
    (hm : 1 ≤ maxD) (hne : cells ≠ [])
    (hvalid : ∀ c ∈ cells, geometryDimension c.1 = maxD ∧
      c.2.length = typeVertexCount c.1 ∧ ∀ v ∈ c.2, v < n)
    (hqs : ∀ q ∈ qs, q.1 ≤ maxD ∧ q.2 ≤ maxD)
    (h : (initMesh maxD ctor >>= nodes n >>= declareCells cells >>= runComputes qs) = .ok s) :
    Inv maxD n s := by
  obtain ⟨tb, hb, hrun⟩ := bind_eq_ok h
  obtain ⟨tv, hv, hc⟩ := bind_eq_ok hb
  rw [initNodes_ok maxD n] at hv
  simp only [Except.ok.injEq] at hv
  rw [← hv] at hc
  obtain ⟨qB, _, hpos⟩ := declareCells_base hm cells (vertexState_baseQ maxD n hm) hvalid hc
  have htop := hpos (vertexState_count_top hm) hne
  exact runComputes_inv qs (qB.toInv hm htop) hqs hrun

end Connectivity

namespace Connectivity

/-- C6 (amended): transpose symmetry.  After a run consisting of
`initialize`, `nodes`, at least one valid top-dimensional `polytope`
declaration and any sequence of successful `compute` queries within the
mesh dimension — with no further mutation — every pair of distinct
dimensions `(d, dp)` whose two dirty flags are clear satisfies
`j ∈ conn[d][dp][i] ↔ i ∈ conn[dp][d][j]`. -/
theorem compute_run_transpose_symmetry {maxD n : Nat}
    {cells : List (PolytopeType × List Nat)} {qs : List (Nat × Nat)} {s : Connectivity}
    (hm : 1 ≤ maxD) (hne : cells ≠ [])
    (hvalid : ∀ c ∈ cells, geometryDimension c.1 = maxD ∧
      c.2.length = typeVertexCount c.1 ∧ ∀ v ∈ c.2, v < n)
    (hqs : ∀ q ∈ qs, q.1 ≤ maxD ∧ q.2 ≤ maxD)
    (h : (initMesh maxD ctor >>= nodes n >>= declareCells cells >>= runComputes qs) = .ok s)
    {d dp : Nat} (hd : d ≠ dp)
    (h1 : s.dirty2 d dp = false) (h2 : s.dirty2 dp d = false) :
    ∀ i j, j ∈ s.incid d dp i ↔ i ∈ s.incid dp d j :=
  (scenario_inv hm hne hvalid hqs h).hSym d dp hd h1 h2

/-- The two-triangle mesh after the single query `compute(1, 2)`. -/
def c6wState : Connectivity :=
  (initMesh 2 ctor >>= nodes 4 >>=
    declareCells [(.triangle, [0, 1, 2]), (.triangle, [1, 2, 3])] >>=
    runComputes [(1, 2)]).toOption.getD ctor

set_option maxRecDepth 8000 in
/-- Witness for C6 (amended): on the two-triangle mesh, after the single
query `compute(1, 2)` both flags of the pair `(1, 2)` are clear and the
derived relations are mutually transposed. -/
theorem compute_run_transpose_symmetry_witness :
    (initMesh 2 ctor >>= nodes 4 >>=
      declareCells [(.triangle, [0, 1, 2]), (.triangle, [1, 2, 3])] >>=
      runComputes [(1, 2)]) = .ok c6wState ∧
    c6wState.dirty2 1 2 = false ∧ c6wState.dirty2 2 1 = false ∧
    (∀ i j, j ∈ c6wState.incid 1 2 i ↔ i ∈ c6wState.incid 2 1 j) := by
  have hrun : (initMesh 2 ctor >>= nodes 4 >>=
      declareCells [(.triangle, [0, 1, 2]), (.triangle, [1, 2, 3])] >>=
      runComputes [(1, 2)]) = .ok c6wState := rfl
  exact ⟨hrun, by decide, by decide,
    compute_run_transpose_symmetry (by decide) (by decide) (by decide) (by decide) hrun
      (by decide) (by decide) (by decide)⟩

end Connectivity

namespace Connectivity

/-- C7 (amended): downward closure.  After a run consisting of
`initialize`, `nodes`, at least one valid top-dimensional `polytope`
declaration and any sequence of successful `compute` queries within the
mesh dimension — with no further mutation — every derived relation
`(d, dp)` with `0 < dp < d` whose dirty flag is clear is closed under the
ground truth: each entry `j ∈ conn[d][dp][i]` has its vertex set
`conn[dp][0][j]` included in `conn[d][0][i]`. -/
theorem compute_run_subset_closure {maxD n : Nat}
    {cells : List (PolytopeType × List Nat)} {qs : List (Nat × Nat)} {s : Connectivity}
    (hm : 1 ≤ maxD) (hne : cells ≠ [])
    (hvalid : ∀ c ∈ cells, geometryDimension c.1 = maxD ∧
      c.2.length = typeVertexCount c.1 ∧ ∀ v ∈ c.2, v < n)
    (hqs : ∀ q ∈ qs, q.1 ≤ maxD ∧ q.2 ≤ maxD)
    (h : (initMesh maxD ctor >>= nodes n >>= declareCells cells >>= runComputes qs) = .ok s)
    {d dp : Nat} (hba : dp < d) (hdp0 : 0 < dp)
    (h1 : s.dirty2 d dp = false) :
    ∀ i j, j ∈ s.incid d dp i → s.incid dp 0 j ⊆ s.incid d 0 i :=
  (scenario_inv hm hne hvalid hqs h).hSub d dp hba hdp0 h1

/-- The two-triangle mesh after the single query `compute(2, 1)`. -/
def c7wState : Connectivity :=
  (initMesh 2 ctor >>= nodes 4 >>=
    declareCells [(.triangle, [0, 1, 2]), (.triangle, [1, 2, 3])] >>=
    runComputes [(2, 1)]).toOption.getD ctor

set_option maxRecDepth 8000 in
/-- Witness for C7 (amended): on the two-triangle mesh, after the single
query `compute(2, 1)` the `(2, 1)` flag is clear and each cell-to-edge
entry's vertex row is included in the owning cell's vertex row. -/
theorem compute_run_subset_closure_witness :
    (initMesh 2 ctor >>= nodes 4 >>=
      declareCells [(.triangle, [0, 1, 2]), (.triangle, [1, 2, 3])] >>=
      runComputes [(2, 1)]) = .ok c7wState ∧
    c7wState.dirty2 2 1 = false ∧
    (∀ i j, j ∈ c7wState.incid 2 1 i → c7wState.incid 1 0 j ⊆ c7wState.incid 2 0 i) := by
  have hrun : (initMesh 2 ctor >>= nodes 4 >>=
      declareCells [(.triangle, [0, 1, 2]), (.triangle, [1, 2, 3])] >>=
      runComputes [(2, 1)]) = .ok c7wState := rfl
  exact ⟨hrun, by decide,
    compute_run_subset_closure (by decide) (by decide) (by decide) (by decide) hrun
      (by decide) (by decide) (by decide)⟩

end Connectivity

end Rodin
